import Mathlib

/-!
# SecureWipe Professional: a shallow embedding of `src/app.js`

The class `SecureWipeApp` is modelled by the record `App`: the fields of
`this.state` together with `this.wipeStandards` and `this.apiSupport`.
Methods become functions on `App`; what a method reads from the browser
(the clock, `Math.random()`, DOM form values, the device APIs) is an explicit
argument.  DOM output is not part of the model, except the progress log that
`addProgressLog` appends to.

The `async` method `simulateSecureWipe` is modelled by its synchronous head
and by `resume`, which runs it from one `await` to the next; between two
`await`s the code runs without interruption, and at an `await` another event
(the emergency stop) can come first.  `scanRealDevices` is run as one step.

Numbers.  Counters, pass numbers and clock readings are integers far below
`2^53` and are modelled exactly (`ℕ`).  Fractional quantities (the progress
percentage and the loop variable of a pass) are IEEE-754 binary64 values:
they are modelled as rationals, and every arithmetic operation that can be
inexact is followed by the rounding function `fl64` (round to nearest, ties to
even).  Timestamps are the clock reading in milliseconds; their locale
rendering is not modelled, and the clock reads inside one synchronous run
share one reading.
-/

namespace SecureWipe

/-! ## Data model -/

/-- An entry of `this.wipeStandards` (lines 26-51). -/
structure WipeStandard where
  name : String
  description : String
  passes : ℕ
  compliance : List String
  timePerGB : ℕ
  pattern : String
deriving DecidableEq, Repr

/-- The keys of `this.deviceTypes` (lines 77-84).  Every device record the
application builds carries one of them as its `type`. -/
inductive DeviceType where
  | HDD | SSD | USB | SD | MOBILE | NVME
deriving DecidableEq, Repr

/-- The key as a string. -/
def DeviceType.name : DeviceType → String
  | .HDD => "HDD"
  | .SSD => "SSD"
  | .USB => "USB"
  | .SD => "SD"
  | .MOBILE => "MOBILE"
  | .NVME => "NVME"

/-- A device record, as built at lines 337-347, 367-379, 400-410, 425-435 and
460-498.  `used` and `free` are absent on some records. -/
structure Device where
  id : String
  name : String
  type : DeviceType
  size : String
  used : Option String
  free : Option String
  interface : String
  serial : String
  realDevice : Bool
  status : String
  model : String
deriving DecidableEq, Repr

/-- An audit entry (lines 1188-1192); `timestamp` is the clock reading. -/
structure AuditEntry where
  timestamp : ℕ
  message : String
  type : String
deriving DecidableEq, Repr

/-- The record `this.state.wipeData` (lines 681-692).  The record built by
`startQuickDemo` (lines 1160-1167) has no `verification`, `priority`, `wipeId`
or `estimatedDuration`, hence the options. -/
structure WipeData where
  device : Option Device
  standard : WipeStandard
  verification : Option String
  priority : Option String
  startTime : ℕ
  passes : ℕ
  currentPass : ℕ
  progress : ℚ
  wipeId : Option String
  estimatedDuration : Option ℕ
deriving DecidableEq, Repr

/-- The record `this.config.inspector` (lines 11-16). -/
structure Inspector where
  name : String
  title : String
  certification : String
  organization : String
deriving DecidableEq, Repr

/-- The record `this.state.certificate` (lines 880-893). -/
structure Certificate where
  id : String
  device : Option Device
  standard : WipeStandard
  verification : Option String
  startTime : ℕ
  completionTime : ℕ
  inspector : Inspector
  passes : ℕ
  verificationStatus : String
  compliance : List String
  wipeId : Option String
  operationId : String
deriving DecidableEq, Repr

/-- The record `this.apiSupport` (lines 54-59). -/
structure ApiSupport where
  webUSB : Bool
  fileSystemAccess : Bool
  storageAPI : Bool
  mediaDevices : Bool
deriving DecidableEq, Repr

/-- A line of the progress log written by `addProgressLog` (lines 803-816). -/
structure LogEntry where
  message : String
  type : String
deriving DecidableEq, Repr

/-- The application object: `this.wipeStandards`, `this.apiSupport`, the
fields of `this.state` (lines 62-74) and the progress log. -/
structure App where
  wipeStandards : List (String × WipeStandard)
  apiSupport : ApiSupport
  authenticated : Bool
  currentView : String
  selectedDevice : Option Device
  wipeInProgress : Bool
  wipeData : Option WipeData
  certificate : Option Certificate
  devices : List Device
  auditLog : List AuditEntry
  operationCount : ℕ
  certificatesIssued : ℕ
  devicesProcessed : ℕ
  progressLog : List LogEntry
deriving DecidableEq, Repr

/-! ## Standard catalog and configuration -/

/-- The entry `nist` of the catalog (lines 27-34). -/
def nist : WipeStandard :=
  { name := "NIST SP 800-88 Rev. 1", description := "Single-pass cryptographic erase",
    passes := 1, compliance := ["NIST", "HIPAA", "GDPR"], timePerGB := 2,
    pattern := "Cryptographic Random" }

/-- The entry `dod` of the catalog (lines 35-42). -/
def dod : WipeStandard :=
  { name := "DoD 5220.22-M", description := "Three-pass military standard",
    passes := 3, compliance := ["DoD", "Military"], timePerGB := 6,
    pattern := "0x00, 0xFF, Random" }

/-- The entry `gutmann` of the catalog (lines 43-50). -/
def gutmann : WipeStandard :=
  { name := "Gutmann 35-Pass", description := "Maximum security overwrite",
    passes := 35, compliance := ["Maximum Security"], timePerGB := 70,
    pattern := "35 Specialized Patterns" }

/-- The catalog assigned to `this.wipeStandards` by the constructor. -/
def wipeStandards : List (String × WipeStandard) :=
  [("nist", nist), ("dod", dod), ("gutmann", gutmann)]

/-- The names of the properties that the object literal of lines 26-51
inherits from `Object.prototype`.  For such a key, unless the catalog has an
entry of its own under that name, the read `this.wipeStandards[key]` gives a
function or object of the engine: it is not `undefined`, and it is not a
standard. -/
def inheritedKeys : List String :=
  ["constructor", "__proto__", "hasOwnProperty", "isPrototypeOf", "propertyIsEnumerable",
    "toLocaleString", "toString", "valueOf", "__defineGetter__", "__defineSetter__",
    "__lookupGetter__", "__lookupSetter__"]

/-- The entry that the catalog has of its own under `key`, if any: this is the
value of the read `this.wipeStandards[key]` whenever it answers `some`.  When
it answers `none` the read gives `undefined` for a key outside `inheritedKeys`
and an inherited function or object for a key in `inheritedKeys`; the callers
tell the two apart. -/
def lookupStandard (catalog : List (String × WipeStandard)) (key : String) :
    Option WipeStandard :=
  (catalog.find? (fun kv => kv.1 == key)).map Prod.snd

/-- The inspector of `this.config` (lines 11-16). -/
def inspector : Inspector :=
  { name := "Mani Verma", title := "Authorized Inspector",
    certification := "CERT-MV-2025", organization := "SecureWipe Technologies" }

/-- The application object after the constructor's assignments (lines 6-84),
before `init` runs. -/
def initialApp : App :=
  { wipeStandards := wipeStandards,
    apiSupport := ⟨false, false, false, false⟩,
    authenticated := false, currentView := "dashboard", selectedDevice := none,
    wipeInProgress := false, wipeData := none, certificate := none, devices := [],
    auditLog := [], operationCount := 0, certificatesIssued := 0,
    devicesProcessed := 0, progressLog := [] }

/-! ## Audit log -/

/-- The array expression `a.slice(-n)`: the last `n` elements. -/
def sliceLast {α : Type} (n : ℕ) (a : List α) : List α :=
  a.drop (a.length - n)

/-- Method `initializeAuditLog` (lines 1179-1185). -/
def initializeAuditLog (now : ℕ) (s : App) : App :=
  { s with auditLog :=
      [{ timestamp := now, message := "SecureWipe Professional system initialized",
         type := "info" }] }

/-- The log update of `addAuditEntry` (lines 1194-1200): push, then keep the
last 100 entries when the length exceeds 100. -/
def pushCapped (log : List AuditEntry) (entry : AuditEntry) : List AuditEntry :=
  let pushed := log ++ [entry]
  if pushed.length > 100 then sliceLast 100 pushed else pushed

/-- Method `addAuditEntry` (lines 1187-1205). -/
def addAuditEntry (now : ℕ) (message type : String) (s : App) : App :=
  { s with auditLog :=
      pushCapped s.auditLog { timestamp := now, message := message, type := type } }

/-- Method `clearAuditLog` (lines 1272-1279); `confirmed` is the answer to the
`confirm` dialog. -/
def clearAuditLog (now : ℕ) (confirmed : Bool) (s : App) : App :=
  if confirmed then
    addAuditEntry now "Audit log cleared by administrator" "warning"
      (initializeAuditLog now { s with auditLog := [] })
  else s

/-- A call to one of the three audit-log methods. -/
inductive AuditCall where
  | add (now : ℕ) (message type : String)
  | init (now : ℕ)
  | clear (now : ℕ) (confirmed : Bool)
deriving DecidableEq, Repr

/-- The effect of one audit-log call. -/
def AuditCall.apply (s : App) : AuditCall → App
  | .add now message type => addAuditEntry now message type s
  | .init now => initializeAuditLog now s
  | .clear now confirmed => clearAuditLog now confirmed s

/-- Run a sequence of audit-log calls, first call first. -/
def runAuditCalls (s : App) (calls : List AuditCall) : App :=
  calls.foldl AuditCall.apply s

/-! ## Binary64 arithmetic -/

/-- Round a rational to the nearest integer, a tie going to the even
neighbour. -/
def roundHalfEven (x : ℚ) : ℤ :=
  let f := ⌊x⌋
  let r := x - f
  if r < 1 / 2 then f else if 1 / 2 < r then f + 1 else if f % 2 = 0 then f else f + 1

/-- Exponent of the spacing of binary64 values around `q`: 52 below the
binary exponent of `q`, and `-1074` throughout the subnormal range. -/
def quantumExp (q : ℚ) : ℤ :=
  max (Int.log 2 |q|) (-1022) - 52

/-- The binary64 value nearest to `q` (round to nearest, ties to even).
Overflow to `Infinity` is not modelled: every quantity rounded here is below
`2^1024` by many orders of magnitude. -/
def fl64 (q : ℚ) : ℚ :=
  roundHalfEven (q / 2 ^ quantumExp q) * 2 ^ quantumExp q

/-- The JavaScript `a + b` on numbers. -/
def jsAdd (a b : ℚ) : ℚ := fl64 (a + b)

/-- The JavaScript `a * b` on numbers. -/
def jsMul (a b : ℚ) : ℚ := fl64 (a * b)

/-- The JavaScript `a / b` on numbers, for `b ≠ 0`. -/
def jsDiv (a b : ℚ) : ℚ := fl64 (a / b)

/-! ## Strings and random draws -/

/-- One result of `Math.random()`: its value, and the string that
`toString(36)` renders it to (the rendering of a fraction in radix 36 is left
to the JavaScript engine, so it is an input). -/
structure Draw where
  value : ℚ
  base36 : String
deriving DecidableEq, Repr

/-- The string method `s.padStart(n, c)` for a one-character pad. -/
def padStart (n : ℕ) (c : Char) (s : String) : String :=
  String.mk (List.replicate (n - s.length) c) ++ s

/-! ## Navigation and the start of a device scan -/

/-- The synchronous head of `scanRealDevices` (lines 253-281), up to its first
`await`: one audit entry. -/
def scanRealDevicesBegin (now : ℕ) (s : App) : App :=
  addAuditEntry now "Starting real device discovery scan" "info" s

/-- Method `navigateTo` (lines 219-238).  For the `devices` view with an empty
inventory it launches `scanRealDevices`, whose synchronous head runs here. -/
def navigateTo (now : ℕ) (view : String) (s : App) : App :=
  let s1 := { s with currentView := view }
  let s2 :=
    if view = "audit" then s1
    else if view = "devices" ∧ s1.devices.length = 0 then scanRealDevicesBegin now s1
    else s1
  addAuditEntry now ("Navigated to " ++ view ++ " view") "info" s2

/-! ## Certificate issuer -/

/-- The certificate id of line 878; `random36` is the string
`Math.random().toString(36)`. -/
def certificateId (now : ℕ) (random36 : String) : String :=
  "CERT-" ++ toString now ++ "-" ++ ((random36.drop 2).take 6).toUpper

/-- The record literal of lines 880-893. -/
def newCertificate (now : ℕ) (random36 : String) (operationCount : ℕ)
    (wipeData : WipeData) : Certificate :=
  { id := certificateId now random36,
    device := wipeData.device,
    standard := wipeData.standard,
    verification := wipeData.verification,
    startTime := wipeData.startTime,
    completionTime := now,
    inspector := inspector,
    passes := wipeData.passes,
    verificationStatus :=
      if wipeData.verification = some "none" then "Skipped" else "Passed",
    compliance := wipeData.standard.compliance,
    wipeId := wipeData.wipeId,
    operationId := "OP-" ++ padStart 4 '0' (toString operationCount) }

/-- Method `generateComplianceCertificate` (lines 876-898); the second component is
the exception thrown, if any.  Reading `wipeData.device` on a null `wipeData`
throws before anything is assigned; on a null device, `renderCertificate`
throws at `cert.device.name` (line 937), after the assignments. -/
def generateComplianceCertificate (now : ℕ) (random36 : String) (s : App) :
    App × Option String :=
  match s.wipeData with
  | none => (s, some "TypeError")
  | some wipeData =>
    let s1 := { s with
      certificate := some (newCertificate now random36 s.operationCount wipeData),
      certificatesIssued := s.certificatesIssued + 1 }
    match wipeData.device with
    | none => (s1, some "TypeError")
    | some _ => (s1, none)

/-! ## The wipe simulation -/

/-- Method `addProgressLog` (lines 803-816). -/
def addProgressLog (message type : String) (s : App) : App :=
  { s with progressLog := s.progressLog ++ [{ message := message, type := type }] }

/-- An assignment to fields of the record `wipeData` that the running
simulation captured at line 703; in the runs modelled here no other session
record is created meanwhile, so it is `this.state.wipeData`. -/
def setWipeData (f : WipeData → WipeData) (s : App) : App :=
  { s with wipeData := s.wipeData.map f }

/-- The value stored in `wipeData.progress` by lines 721-722 taken together,
in pass `pass` of `passes` at loop variable `progress`: the value assigned at
line 721 is replaced at once by its minimum with 100, before anything reads
it. -/
def overallProgress (pass passes : ℕ) (progress : ℚ) : ℚ :=
  min (jsAdd (jsMul (jsDiv ((pass : ℚ) - 1) passes) 100) (jsDiv progress passes)) 100

/-- The loop update `progress += Math.random() * 4 + 1` of line 720. -/
def nextProgress (progress random : ℚ) : ℚ :=
  jsAdd progress (jsAdd (jsMul random 4) 1)

/-- Where `simulateSecureWipe` is suspended (each `await this.delay(..)`), or
how it ended. -/
inductive Pc where
  /-- no simulation was launched -/
  | notStarted
  /-- line 712 -/
  | initDelay
  /-- line 731, in pass `pass`, the loop variable being `progress` -/
  | tickDelay (pass : ℕ) (progress : ℚ)
  /-- line 736 -/
  | passDelay (pass : ℕ)
  /-- line 743 -/
  | verifyDelay
  /-- line 751 -/
  | verifiedDelay
  /-- line 755 -/
  | certDelay
  /-- the function has returned after completion; the timer of line 770 is
  pending -/
  | navTimer
  /-- the function has returned and nothing is pending -/
  | finished
  /-- the function has thrown -/
  | failed
deriving DecidableEq, Repr

/-- The application together with the state of the simulation it runs. -/
structure Sim where
  app : App
  pc : Pc
deriving DecidableEq, Repr

/-- What the browser supplies when the simulation resumes. -/
structure Input where
  /-- the result of the call of `Math.random()` made in this step, if any -/
  random : Draw
  /-- the clock reading -/
  now : ℕ
deriving DecidableEq, Repr

/-- Line 740 on: the test after the pass loop and the start of the
verification phase. -/
def afterLoops (s : App) : Sim :=
  if s.wipeInProgress then
    ⟨addProgressLog "🔍 Starting verification phase..." "info" s, .verifyDelay⟩
  else ⟨s, .finished⟩

/-- The inner loop of lines 720-737 from its condition on, with loop variable
`progress`, up to the next `await`.  When `wipeInProgress` is false the tests
of lines 734, 715 and 740 all fail in turn and the function returns. -/
def innerLoop (pass : ℕ) (progress : ℚ) (s : App) : Sim :=
  match s.wipeData with
  | none => ⟨s, .failed⟩
  | some wipeData =>
    if progress ≤ 100 ∧ s.wipeInProgress then
      let s1 := setWipeData
        (fun w => { w with progress := overallProgress pass wipeData.passes progress }) s
      let s2 :=
        if ⌊progress⌋ % 25 = 0 ∧ 0 < progress then
          addProgressLog
            ("Pass " ++ toString pass ++ ": " ++ toString ⌊progress⌋ ++
              "% complete - Writing " ++ wipeData.standard.pattern) "success" s1
        else s1
      ⟨s2, .tickDelay pass progress⟩
    else if s.wipeInProgress then
      ⟨addProgressLog ("✅ Pass " ++ toString pass ++ " completed successfully") "success" s,
        .passDelay pass⟩
    else ⟨s, .finished⟩

/-- The outer loop of lines 715-738 from its condition on, with loop variable
`pass`, up to the next `await`. -/
def outerLoop (pass : ℕ) (s : App) : Sim :=
  match s.wipeData with
  | none => ⟨s, .failed⟩
  | some wipeData =>
    if pass ≤ wipeData.passes ∧ s.wipeInProgress then
      let s1 := setWipeData (fun w => { w with currentPass := pass }) s
      let s2 := addProgressLog
        ("🔄 Initiating pass " ++ toString pass ++ " of " ++ toString wipeData.passes ++ "...")
        "info" s1
      innerLoop pass 0 s2
    else afterLoops s

/-- The synchronous head of `simulateSecureWipe` (lines 703-712). -/
def simulateSecureWipe (s : App) : Sim :=
  match s.wipeData with
  | none => ⟨s, .failed⟩
  | some wipeData =>
    let s1 := addProgressLog "🚀 Secure wipe operation initiated" "info" s
    match wipeData.device with
    | none => ⟨s1, .failed⟩
    | some device =>
      let s2 := addProgressLog
        ("📱 Target device: " ++ device.name ++ " (" ++ device.serial ++ ")") "info" s1
      let s3 := addProgressLog
        ("🛡️ Sanitization standard: " ++ wipeData.standard.name) "info" s2
      let s4 := addProgressLog
        ("🔄 Total passes: " ++ toString wipeData.passes ++ " | Verification: " ++
          wipeData.verification.getD "undefined") "info" s3
      let s5 := addProgressLog
        "⚠️ SAFE SIMULATION MODE - No actual data destruction will occur" "warning" s4
      ⟨s5, .initDelay⟩

/-- Lines 757-772, after the last `await`.  An exception thrown by
`generateComplianceCertificate` ends the simulation there. -/
def issueAndFinish (i : Input) (s : App) : Sim :=
  match generateComplianceCertificate i.now i.random.base36 s with
  | (s1, some _) => ⟨s1, .failed⟩
  | (s1, none) =>
    let s2 := addProgressLog "🎯 Digital certificate generated successfully" "success" s1
    let s3 := addProgressLog "🏁 Secure wipe operation completed successfully" "success" s2
    let s4 := setWipeData (fun w => { w with progress := 100 }) s3
    let s5 := { s4 with wipeInProgress := false, devicesProcessed := s4.devicesProcessed + 1 }
    match s5.wipeData.bind WipeData.device with
    | none => ⟨s5, .failed⟩
    | some device =>
      ⟨addAuditEntry i.now ("Wipe operation completed successfully: " ++ device.name)
        "success" s5, .navTimer⟩

/-- Resume the simulation from its current `await` and run it to the next
one. -/
def resume (i : Input) (m : Sim) : Sim :=
  match m.pc with
  | .notStarted => m
  | .initDelay => outerLoop 1 m.app
  | .tickDelay pass progress => innerLoop pass (nextProgress progress i.random.value) m.app
  | .passDelay pass => outerLoop (pass + 1) m.app
  | .verifyDelay =>
    match m.app.wipeData with
    | none => ⟨m.app, .failed⟩
    | some wipeData =>
      let s1 :=
        if wipeData.verification = some "full" then
          addProgressLog
            "✅ Full verification complete: All sectors confirmed sanitized" "success" m.app
        else if wipeData.verification = some "quick" then
          addProgressLog
            "✅ Quick verification complete: Sample verification passed" "success" m.app
        else m.app
      ⟨s1, .verifiedDelay⟩
  | .verifiedDelay =>
    ⟨addProgressLog "📄 Generating compliance certificate..." "info" m.app, .certDelay⟩
  | .certDelay => issueAndFinish i m.app
  | .navTimer => ⟨navigateTo i.now "certificate" m.app, .finished⟩
  | .finished => m
  | .failed => m

/-- Method `emergencyStop` (lines 824-831). -/
def emergencyStop (now : ℕ) (s : App) : App :=
  addAuditEntry now "Emergency stop activated - Operation terminated" "error"
    (addProgressLog "🛑 EMERGENCY STOP - Operation halted by administrator" "error"
      { s with wipeInProgress := false })

/-- What can happen to a running simulation: one of its timers fires, or the
administrator presses the emergency stop. -/
inductive Event where
  | resume (i : Input)
  | emergencyStop (now : ℕ)
deriving DecidableEq, Repr

/-- The effect of one event on the simulation. -/
def Sim.step (m : Sim) : Event → Sim
  | .resume i => resume i m
  | .emergencyStop now => { m with app := emergencyStop now m.app }

/-- Run the simulation through a sequence of events, first event first. -/
def Sim.run (m : Sim) (events : List Event) : Sim :=
  events.foldl Sim.step m

/-- The values of the form controls read at lines 673-676. -/
structure WipeForm where
  standardKey : String
  verification : String
  priority : String
deriving DecidableEq, Repr

/-- The outcome of `startSecureWipe`: the application, the simulation it
launched, and the exception it threw, if any.  The field `inModel` is false
when the session record that the code builds cannot be written down here;
`sim` and `error` then describe nothing. -/
structure StartResult where
  sim : Sim
  error : Option String
  inModel : Bool
deriving DecidableEq, Repr

/-- The record literal of lines 681-692. -/
def newWipeData (now : ℕ) (form : WipeForm) (device : Option Device)
    (standard : WipeStandard) : WipeData :=
  { device := device,
    standard := standard,
    verification := some form.verification,
    priority := some form.priority,
    startTime := now,
    passes := standard.passes,
    currentPass := 0,
    progress := 0,
    wipeId := some ("WIPE-" ++ toString now),
    estimatedDuration := some (max (standard.passes * 60) 180) }

/-- Method `startSecureWipe` (lines 672-700).  A standard key for which the
read of line 674 gives `undefined` makes `standard.passes` throw at line 687,
after lines 678-679 have run; a null `selectedDevice` makes line 699 throw.
For a key of `inheritedKeys` that the catalog does not have of its own, the
read gives a function or object of the engine, `standard.passes` is `undefined`
and nothing is thrown: the code then builds a session record whose standard is
that object and whose pass count is `undefined`, and launches a simulation on
it.  A `WipeData` cannot hold that record, so this case is marked as outside
the model. -/
def startSecureWipe (now : ℕ) (form : WipeForm) (s : App) : StartResult :=
  let s1 := { s with wipeInProgress := true, operationCount := s.operationCount + 1 }
  match lookupStandard s.wipeStandards form.standardKey with
  | none =>
    if form.standardKey ∈ inheritedKeys then ⟨⟨s1, .notStarted⟩, none, false⟩
    else ⟨⟨s1, .notStarted⟩, some "TypeError", true⟩
  | some standard =>
    let s2 := { s1 with wipeData := some (newWipeData now form s1.selectedDevice standard) }
    let s3 := navigateTo now "progress" s2
    let m := simulateSecureWipe s3
    match s.selectedDevice with
    | none => ⟨m, some "TypeError", true⟩
    | some device =>
      let message :=
        "Secure wipe operation started: " ++ device.name ++ " using " ++ standard.name
      ⟨⟨addAuditEntry now message "success" m.app, m.pc⟩, none, true⟩

/-! ## Device inventory -/

/-- The fields read from a `USBDevice` at lines 338-346. -/
structure UsbDeviceInfo where
  productId : ℕ
  vendorId : ℕ
  productName : Option String
deriving DecidableEq, Repr

/-- The fields read from the result of `navigator.storage.estimate()`. -/
structure StorageEstimate where
  quota : Option ℕ
  usage : Option ℕ
deriving DecidableEq, Repr

/-- The fields read from a `MediaDeviceInfo` at lines 395-401. -/
structure MediaDeviceInfo where
  kind : String
  label : String
  deviceId : String
deriving DecidableEq, Repr

/-- What the browser answers during a device scan; `.error` is a rejected
promise. -/
structure Browser where
  /-- the test `'usb' in navigator` -/
  hasUsb : Bool
  usbGetDevices : Except String (List UsbDeviceInfo)
  storageEstimate : Except String StorageEstimate
  enumerateDevices : Except String (List MediaDeviceInfo)

/-- The expression `s || d` on an optional string: `undefined` and the empty
string are falsy. -/
def orDefault (s : Option String) (d : String) : String :=
  match s with
  | none => d
  | some v => if v = "" then d else v

/-- The string method `s.includes(t)`. -/
def includes (s t : String) : Bool :=
  decide (t.toList <:+: s.toList)

/-- The table `sizes` of `generateRealisticSize` (lines 503-509). -/
def sizeCandidates : DeviceType → Option (List String)
  | .USB => some ["16 GB", "32 GB", "64 GB", "128 GB", "256 GB"]
  | .SSD => some ["256 GB", "512 GB", "1 TB", "2 TB"]
  | .HDD => some ["500 GB", "1 TB", "2 TB", "4 TB"]
  | .MOBILE => some ["32 GB", "64 GB", "128 GB", "256 GB"]
  | .SD => some ["8 GB", "16 GB", "32 GB", "64 GB", "128 GB"]
  | .NVME => none

/-- Method `generateRealisticSize` (lines 502-511). -/
def generateRealisticSize (type : DeviceType) (random : ℚ) : String :=
  match sizeCandidates type with
  | none => "64 GB"
  | some sizes => orDefault (sizes.get? ⌊jsMul random sizes.length⌋.toNat) "64 GB"

/-- Method `generateSerial` (lines 513-517). -/
def generateSerial (type : DeviceType) (random : Draw) : String :=
  (type.name.take 3).toUpper ++ ((random.base36.drop 2).take 8).toUpper

/-- The loop of lines 336-348 over the devices the browser returned; `k` is
the index of the next draw. -/
def usbDevicesFrom (rnd : ℕ → Draw) : ℕ → List UsbDeviceInfo → List Device
  | _, [] => []
  | k, device :: rest =>
    { id := "usb_" ++ toString device.productId ++ "_" ++ toString device.vendorId,
      name := orDefault device.productName "USB Storage Device",
      type := .USB,
      size := generateRealisticSize .USB (rnd k).value,
      used := none,
      free := none,
      interface := "USB 3.0",
      serial := generateSerial .USB (rnd (k + 1)),
      realDevice := true,
      status := "Connected",
      model := orDefault device.productName "USB Drive" } :: usbDevicesFrom rnd (k + 2) rest

/-- Method `scanUSBDevices` (lines 328-355). -/
def scanUSBDevices (b : Browser) (rnd : ℕ → Draw) (k : ℕ) : List Device :=
  if b.hasUsb then
    match b.usbGetDevices with
    | .error _ => []
    | .ok existingDevices => usbDevicesFrom rnd k existingDevices
  else []

/-- The value `Math.round` gives for a byte count divided by `1024 * 1024 * 1024` (the
division by a power of two is exact). -/
def roundGB (bytes : ℕ) : ℤ :=
  ⌊(bytes : ℚ) / (1024 * 1024 * 1024) + 1 / 2⌋

/-- Method `scanStorageDevices` (lines 357-387). -/
def scanStorageDevices (now : ℕ) (api : ApiSupport) (b : Browser) (rnd : ℕ → Draw) (k : ℕ) :
    List Device :=
  if api.storageAPI then
    match b.storageEstimate with
    | .error _ => []
    | .ok estimate =>
      let totalGB := roundGB (estimate.quota.getD 0)
      let usedGB := roundGB (estimate.usage.getD 0)
      if totalGB > 0 then
        [{ id := "storage_system_" ++ toString now,
           name := "Primary System Storage",
           type := .SSD,
           size := toString totalGB ++ " GB",
           used := some (toString usedGB ++ " GB"),
           free := some (toString (totalGB - usedGB) ++ " GB"),
           interface := "NVMe PCIe 4.0",
           serial := generateSerial .SSD (rnd k),
           realDevice := true,
           status := "Active",
           model := "System NVMe SSD" }]
      else []
  else []

/-- The loop of lines 399-411. -/
def mediaDevicesFrom (rnd : ℕ → Draw) : ℕ → List MediaDeviceInfo → List Device
  | _, [] => []
  | k, device :: rest =>
    { id := "media_" ++ device.deviceId.take 8,
      name := "USB Media Device",
      type := .MOBILE,
      size := generateRealisticSize .MOBILE (rnd k).value,
      used := none,
      free := none,
      interface := "USB Media Interface",
      serial := generateSerial .MOBILE (rnd (k + 1)),
      realDevice := true,
      status := "Connected",
      model := "Mobile Storage Device" } :: mediaDevicesFrom rnd (k + 2) rest

/-- Method `scanMediaDevices` (lines 389-418). -/
def scanMediaDevices (api : ApiSupport) (b : Browser) (rnd : ℕ → Draw) (k : ℕ) :
    List Device :=
  if api.mediaDevices then
    match b.enumerateDevices with
    | .error _ => []
    | .ok mediaDevices =>
      let storageDevices :=
        (mediaDevices.filter
          (fun device => device.kind == "videoinput" && includes device.label "USB")).take 1
      mediaDevicesFrom rnd k storageDevices
  else []

/-- Method `generateRealisticDevices` (lines 458-500); `k` is the index of the next
draw. -/
def generateRealisticDevices (rnd : ℕ → Draw) (k : ℕ) : List Device :=
  [ { id := "realistic_ssd_001", name := "Samsung NVMe SSD 980 PRO", type := .SSD,
      size := "1 TB", used := some "567 GB", free := some "433 GB",
      interface := "NVMe PCIe 4.0", serial := generateSerial .SSD (rnd k),
      realDevice := false, status := "Connected", model := "Samsung 980 PRO 1TB" },
    { id := "realistic_usb_001", name := "SanDisk Ultra USB 3.2", type := .USB,
      size := "128 GB", used := some "45 GB", free := some "83 GB",
      interface := "USB 3.2 Gen 1", serial := generateSerial .USB (rnd (k + 1)),
      realDevice := false, status := "Connected", model := "SanDisk Ultra 128GB" },
    { id := "realistic_hdd_001", name := "Western Digital Blue", type := .HDD,
      size := "2 TB", used := some "1.2 TB", free := some "800 GB",
      interface := "SATA III", serial := generateSerial .HDD (rnd (k + 2)),
      realDevice := false, status := "Connected", model := "WD Blue 2TB" } ]

/-- The devices of the USB source as `scanRealDevices` collects them (lines
286-289). -/
def usbPart (b : Browser) (rnd : ℕ → Draw) (s : App) : List Device :=
  if s.apiSupport.webUSB then scanUSBDevices b rnd 0 else []

/-- The devices of the storage source (lines 291-294). -/
def storagePart (now : ℕ) (b : Browser) (rnd : ℕ → Draw) (s : App) : List Device :=
  if s.apiSupport.storageAPI then
    scanStorageDevices now s.apiSupport b rnd (2 * (usbPart b rnd s).length)
  else []

/-- The devices of the media source (lines 296-299). -/
def mediaPart (now : ℕ) (b : Browser) (rnd : ℕ → Draw) (s : App) : List Device :=
  if s.apiSupport.mediaDevices then
    scanMediaDevices s.apiSupport b rnd
      (2 * (usbPart b rnd s).length + (storagePart now b rnd s).length)
  else []

/-- Method `scanRealDevices` (lines 252-326), run as one step.  The three source
functions catch their own exceptions, so the `catch` of line 307 is not
entered. -/
def scanRealDevices (now : ℕ) (b : Browser) (rnd : ℕ → Draw) (s : App) : App :=
  let s0 := scanRealDevicesBegin now s
  let found := usbPart b rnd s ++ storagePart now b rnd s ++ mediaPart now b rnd s
  let s1 :=
    if found.length = 0 then
      addAuditEntry now "Generated realistic device simulation for demonstration" "warning" s0
    else s0
  let devices :=
    if found.length = 0 then
      generateRealisticDevices rnd
        (2 * (usbPart b rnd s).length + (storagePart now b rnd s).length +
          2 * (mediaPart now b rnd s).length)
    else found
  let s2 := { s1 with devices := devices }
  if devices.length > 0 then
    addAuditEntry now
      ("Device scan completed: " ++ toString devices.length ++ " storage devices detected")
      "success" s2
  else addAuditEntry now "No storage devices detected during scan" "warning" s2

/-- Record a sequence of entries with `addAuditEntry`, first entry first. -/
def recordAll (entries : List AuditEntry) (s : App) : App :=
  entries.foldl (fun s e => addAuditEntry e.timestamp e.message e.type s) s

/-! ## Observations used in the statements -/

/-- The progress percentage of the session record (0 when there is none). -/
def Sim.progress (m : Sim) : ℚ :=
  (m.app.wipeData.map WipeData.progress).getD 0

/-- The part of the application state that the simulation reads or writes,
apart from the logs. -/
structure Core where
  wipeData : Option WipeData
  wipeInProgress : Bool
  devicesProcessed : ℕ
  certificate : Option Certificate
  certificatesIssued : ℕ
  operationCount : ℕ
deriving DecidableEq, Repr

/-- The `Core` of an application state. -/
def App.core (s : App) : Core :=
  { wipeData := s.wipeData, wipeInProgress := s.wipeInProgress,
    devicesProcessed := s.devicesProcessed, certificate := s.certificate,
    certificatesIssued := s.certificatesIssued, operationCount := s.operationCount }

/-- An event whose draw is a result that `Math.random()` can return: a value
in `[0, 1)`. -/
def Event.valid : Event → Prop
  | .resume i => 0 ≤ i.random.value ∧ i.random.value < 1
  | .emergencyStop _ => True

/-- What holds of the session record `wd` while the simulation waits at `pc`:
the progress is 0 before the first pass, and during a pass it is the value of
lines 721-722 at the loop variable, which is a binary64 value in `[0, 100]`. -/
def PcInv (pc : Pc) (wd : WipeData) : Prop :=
  match pc with
  | .initDelay => wd.progress = 0
  | .tickDelay pass x =>
    1 ≤ pass ∧ pass ≤ wd.passes ∧ 0 ≤ x ∧ x ≤ 100 ∧ fl64 x = x ∧
      wd.progress = overallProgress pass wd.passes x
  | .passDelay pass =>
    1 ≤ pass ∧ pass ≤ wd.passes ∧
      ∃ x, 0 ≤ x ∧ x ≤ 100 ∧ wd.progress = overallProgress pass wd.passes x
  | _ => True

/-- What holds at each point of a simulation launched by `startSecureWipe`:
there is a session record, it has a device, its progress is in `[0, 100]`, and
`PcInv`. -/
def Inv (m : Sim) : Prop :=
  ∃ wd, m.app.wipeData = some wd ∧ wd.device ≠ none ∧ 0 ≤ wd.progress ∧
    wd.progress ≤ 100 ∧ PcInv m.pc wd

/-! ## Sample data -/

/-- A device as a scan without device APIs produces it. -/
def sampleDevice : Device :=
  { id := "realistic_usb_001", name := "SanDisk Ultra USB 3.2", type := .USB,
    size := "128 GB", used := some "45 GB", free := some "83 GB",
    interface := "USB 3.2 Gen 1", serial := "USB0ABCDEFG",
    realDevice := false, status := "Connected", model := "SanDisk Ultra 128GB" }

/-- The application after the constructor, with `sampleDevice` selected. -/
def readyApp : App :=
  { initialApp with devices := [sampleDevice], selectedDevice := some sampleDevice }

/-- An application in the middle of a three-pass session: pass 2 is running
and half of the work is done. -/
def busyApp : App :=
  { readyApp with
    wipeInProgress := true,
    operationCount := 1,
    currentView := "progress",
    wipeData := some
      { newWipeData 1000 ⟨"dod", "quick", "normal"⟩ (some sampleDevice) dod with
        currentPass := 2, progress := 50 } }

/-- A browser with one attached USB device and no other source. -/
def usbOnlyBrowser : Browser :=
  { hasUsb := true,
    usbGetDevices := .ok [{ productId := 21889, vendorId := 1921, productName := some "Ultra" }],
    storageEstimate := .error "SecurityError",
    enumerateDevices := .error "NotAllowedError" }

/-- A browser in which every device API rejects. -/
def failingBrowser : Browser :=
  { hasUsb := true,
    usbGetDevices := .error "SecurityError",
    storageEstimate := .error "SecurityError",
    enumerateDevices := .error "NotAllowedError" }

/-- A source of draws that always returns one half. -/
def constantDraws : ℕ → Draw :=
  fun _ => { value := 1 / 2, base36 := "0.i" }

/-- The application after `checkAPISupport` found every API present. -/
def fullSupportApp : App :=
  { initialApp with apiSupport := ⟨true, true, true, true⟩ }

/-- The timer event with draw `3/4`, for which `Math.random() * 4 + 1` is
exactly 4. -/
def tickOfFour : Event :=
  .resume { random := { value := 3 / 4, base36 := "0.r" }, now := 0 }

/-- A three-pass session on `sampleDevice`, just started. -/
def threePassStart : Sim :=
  (startSecureWipe 0 ⟨"dod", "none", "normal"⟩ readyApp).sim

/-- The simulation is in pass 1 of 3 at loop variable `x`, not stopped, and
the stored progress is the one written at `x`. -/
def AtTick (x : ℚ) (m : Sim) : Prop :=
  m.pc = .tickDelay 1 x ∧ m.app.wipeInProgress = true ∧
    ∃ wd, m.app.wipeData = some wd ∧ wd.passes = 3 ∧ wd.progress = overallProgress 1 3 x

/-- An upper bound on the number of timer events after which a simulation
of `passes` passes that is not stopped has finished. -/
def stepsLeft (passes : ℕ) : Pc → ℕ
  | .notStarted => 0
  | .initDelay => 103 * passes + 6
  | .tickDelay pass x => 103 * (passes - pass) + (101 - ⌊x⌋.toNat) + 5
  | .passDelay pass => 103 * (passes - pass) + 5
  | .verifyDelay => 4
  | .verifiedDelay => 3
  | .certDelay => 2
  | .navTimer => 1
  | .finished => 0
  | .failed => 0

/-- The session has completed: `wipeInProgress` is false, `devicesProcessed`
has grown by one, the progress is 100 and a certificate is issued whose
verification status is the one of the mode. -/
def Completed (mode : Option String) (processed : ℕ) (c : Core) : Prop :=
  c.wipeInProgress = false ∧ c.devicesProcessed = processed + 1 ∧
    (∃ wd, c.wipeData = some wd ∧ wd.progress = 100) ∧
    ∃ cert, c.certificate = some cert ∧
      cert.verificationStatus = (if mode = some "none" then "Skipped" else "Passed")

/-- A simulation of `passes` passes with verification mode `mode` that has
not been stopped: it runs, or it has completed. -/
def Live (passes : ℕ) (mode : Option String) (processed : ℕ) (m : Sim) : Prop :=
  (∃ wd, m.app.core.wipeData = some wd ∧ wd.passes = passes ∧ wd.verification = mode ∧
    wd.device ≠ none) ∧
  match m.pc with
  | .notStarted => False
  | .failed => False
  | .navTimer => Completed mode processed m.app.core
  | .finished => Completed mode processed m.app.core
  | _ => m.app.core.wipeInProgress = true ∧ m.app.core.devicesProcessed = processed

/-- A timer event with draw one half. -/
def tickOfHalf : Input :=
  { random := { value := 1 / 2, base36 := "0.i" }, now := 0 }

/-! ## Standard details, manual selection, quick demonstration -/

/-- Method `updateComplianceInfo` (lines 647-662): it writes to the page only;
the second component is the exception thrown, if any.  On a key that the
catalog does not have of its own, line 652 throws a `TypeError`: the read of
line 648 gives `undefined`, or, for a key of `inheritedKeys`, a function or
object without a `compliance` property, so that `.map` is called on
`undefined`. -/
def updateComplianceInfo (standardKey : String) (s : App) : App × Option String :=
  match lookupStandard s.wipeStandards standardKey with
  | none => (s, some "TypeError")
  | some _ => (s, none)

/-- What `window.showDirectoryPicker()` answers: a directory handle with a
name, a rejection named `AbortError` (the user cancelled), or another
rejection with a message. -/
inductive PickResult where
  | picked (name : String)
  | aborted
  | rejected (message : String)
deriving DecidableEq, Repr

/-- The record literal of lines 425-435. -/
def directoryDevice (now : ℕ) (random : Draw) (name : String) : Device :=
  { id := "dir_" ++ toString now,
    name := "Selected Directory: " ++ name,
    type := .HDD,
    size := "Unknown",
    used := none,
    free := none,
    interface := "File System Access API",
    serial := generateSerial .HDD random,
    realDevice := true,
    status := "Selected",
    model := "Directory: " ++ name }

/-- Method `selectDirectory` (lines 420-451); `supported` is the test
`'showDirectoryPicker' in window`. -/
def selectDirectory (now : ℕ) (random : Draw) (supported : Bool) (result : PickResult)
    (s : App) : App :=
  if supported then
    match result with
    | .picked name =>
      addAuditEntry now ("Manual directory selection: " ++ name) "success"
        { s with devices := s.devices ++ [directoryDevice now random name] }
    | .aborted => s
    | .rejected message =>
      addAuditEntry now ("Directory selection error: " ++ message) "error" s
  else addAuditEntry now "File System Access API not supported" "error" s

/-- The record literal of lines 1160-1167, built by the quick demonstration:
no pass has run and no verification has taken place. -/
def demoWipeData (now : ℕ) (device : Option Device) (standard : WipeStandard) : WipeData :=
  { device := device,
    standard := standard,
    verification := none,
    priority := none,
    startTime := now,
    passes := 1,
    currentPass := 1,
    progress := 100,
    wipeId := none,
    estimatedDuration := none }

/-- The `progress` step of `startQuickDemo` (lines 1152-1170): the navigation,
the fabricated session record, and the call of
`generateComplianceCertificate`.  A catalog without the key `nist` does not
arise (the constructor's catalog is never reassigned); there the certificate
literal throws at `wipeData.standard.compliance`, and the record, whose
standard is `undefined`, is not represented. -/
def quickDemoProgressStep (now : ℕ) (random36 : String) (s : App) : App × Option String :=
  let s1 := navigateTo now "progress" s
  match lookupStandard s1.wipeStandards "nist" with
  | none => (s1, some "TypeError")
  | some standard =>
    generateComplianceCertificate now random36
      { s1 with wipeData := some (demoWipeData now s1.selectedDevice standard) }

/-! ## A simulation whose session record has been replaced -/

/-- Lines 757-772 for a simulation whose captured record `own` is no longer
`this.state.wipeData`: `generateComplianceCertificate` reads the record of the
application, the assignment of line 761 and the message of line 768 use
`own`. -/
def issueAndFinishDetached (i : Input) (own : WipeData) (s : App) : WipeData × Sim :=
  match generateComplianceCertificate i.now i.random.base36 s with
  | (s1, some _) => (own, ⟨s1, .failed⟩)
  | (s1, none) =>
    let s2 := addProgressLog "🎯 Digital certificate generated successfully" "success" s1
    let s3 := addProgressLog "🏁 Secure wipe operation completed successfully" "success" s2
    let own1 := { own with progress := 100 }
    let s5 := { s3 with wipeInProgress := false, devicesProcessed := s3.devicesProcessed + 1 }
    match own.device with
    | none => (own1, ⟨s5, .failed⟩)
    | some device =>
      (own1, ⟨addAuditEntry i.now ("Wipe operation completed successfully: " ++ device.name)
        "success" s5, .navTimer⟩)

/-- Resume a simulation that waits at `pc` and whose captured record `own` is
no longer `this.state.wipeData`, because a later `startSecureWipe` or quick
demonstration assigned a new record.  What the code reads and writes through
its local `wipeData` goes to `own`; `this.state.wipeInProgress`, the counters
and the logs are those of the application.  The result is the captured record
and the simulation afterwards. -/
def resumeDetached (i : Input) (own : WipeData) (pc : Pc) (s : App) : WipeData × Sim :=
  match pc with
  | .certDelay => issueAndFinishDetached i own s
  | _ =>
    let m := resume i ⟨{ s with wipeData := some own }, pc⟩
    (m.app.wipeData.getD own, ⟨{ m.app with wipeData := s.wipeData }, m.pc⟩)

/-! ## Log lines -/

/-- The milestone line of line 728. -/
def milestoneEntry (pass : ℕ) (percent : ℤ) (pattern : String) : LogEntry :=
  { message := "Pass " ++ toString pass ++ ": " ++ toString percent ++
      "% complete - Writing " ++ pattern,
    type := "success" }

/-- The line of line 717. -/
def passStartEntry (pass passes : ℕ) : LogEntry :=
  { message := "🔄 Initiating pass " ++ toString pass ++ " of " ++ toString passes ++ "...",
    type := "info" }

/-- The line of line 735. -/
def passDoneEntry (pass : ℕ) : LogEntry :=
  { message := "✅ Pass " ++ toString pass ++ " completed successfully", type := "success" }

/-- The audit entry of `emergencyStop` (line 827). -/
def stopEntry (now : ℕ) : AuditEntry :=
  { timestamp := now, message := "Emergency stop activated - Operation terminated",
    type := "error" }

/-- The progress-log line of `emergencyStop` (line 826). -/
def stopLine : LogEntry :=
  { message := "🛑 EMERGENCY STOP - Operation halted by administrator", type := "error" }

/-- The application `s1` differs from `s` at most in the session record and in
the progress log. -/
def App.sameButSession (s s1 : App) : Prop :=
  s1 = { s with wipeData := s1.wipeData, progressLog := s1.progressLog }

/-- The three-pass session of `threePassStart` when pass 1 has just ended: the
simulation waits at line 736. -/
def firstPassDone : Sim :=
  threePassStart.run (List.replicate 27 tickOfFour)

/-- The application after the session of `firstPassDone` was stopped and a new
one-pass session was started, before the pending timer of the stopped
simulation fires. -/
def restartedApp : App :=
  (startSecureWipe 2 ⟨"nist", "none", "normal"⟩ (emergencyStop 1 firstPassDone.app)).sim.app

/-- While the simulation is inside pass `p`, or waits after it, the field
`currentPass` of the session record is `p`. -/
def PassInv (m : Sim) : Prop :=
  ∀ wd, m.app.wipeData = some wd →
    match m.pc with
    | .tickDelay p _ => wd.currentPass = p
    | .passDelay p => wd.currentPass = p
    | _ => True

/-- The line of line 742. -/
def verificationStartEntry : LogEntry :=
  { message := "🔍 Starting verification phase...", type := "info" }

/-- The audit entry of line 768. -/
def completedEntry (now : ℕ) (deviceName : String) : AuditEntry :=
  { timestamp := now, message := "Wipe operation completed successfully: " ++ deviceName,
    type := "success" }

/-- The simulation of a session with standard `S` on device `d` waits at `pc`,
it has not been stopped, and the progress log is `log`. -/
def Running (S : WipeStandard) (d : Device) (pc : Pc) (log : List LogEntry) (m : Sim) : Prop :=
  m.pc = pc ∧ m.app.wipeInProgress = true ∧ m.app.progressLog = log ∧
    ∃ wd, m.app.wipeData = some wd ∧ wd.standard = S ∧ wd.passes = S.passes ∧
      wd.device = some d

/-- A one-pass session on `sampleDevice` with full verification, just
started. -/
def onePassStart : Sim :=
  (startSecureWipe 0 ⟨"nist", "full", "normal"⟩ readyApp).sim

/-- The session of `onePassStart` when every draw was three quarters, so that
the loop variable of its pass went 0, 4, 8, ..., 100: the pass has ended and
the simulation waits at line 743, in the verification phase. -/
def verifyingSim : Sim :=
  onePassStart.run (List.replicate 28 tickOfFour)

/-- The simulation waits at some `await` before line 757: it was launched and
has neither completed nor returned nor thrown. -/
def Pc.beforeCompletion : Pc → Bool
  | .initDelay => true
  | .tickDelay _ _ => true
  | .passDelay _ => true
  | .verifyDelay => true
  | .verifiedDelay => true
  | .certDelay => true
  | _ => false

/-- The session of `verifyingSim` after an emergency stop at clock reading 5
and the three timers that were still to come (lines 743, 751 and 755). -/
def stoppedWhileVerifying : Sim :=
  (verifyingSim.step (.emergencyStop 5)).run
    [.resume tickOfHalf, .resume tickOfHalf, .resume tickOfHalf]

/-- The application `busyApp` after a certificate was issued at clock reading
5000 with a draw whose base-36 digits start `k3j9x2`. -/
def firstIssue : App :=
  (generateComplianceCertificate 5000 "0.k3j9x2m1abc" busyApp).1

/-- The application `firstIssue` after one more certificate was issued within
the same millisecond, with another draw whose base-36 digits start `k3j9x2`. -/
def secondIssue : App :=
  (generateComplianceCertificate 5000 "0.k3j9x2zzz" firstIssue).1

/-- The fields of a session record that a certificate copies (lines 882-891):
device, standard, verification mode, start time, pass count and wipe id. -/
def WipeData.copied (wd : WipeData) :
    Option Device × WipeStandard × Option String × ℕ × ℕ × Option String :=
  (wd.device, wd.standard, wd.verification, wd.startTime, wd.passes, wd.wipeId)

/-- The session of `onePassStart` when the loop variable of its pass has
reached 96: the next timer takes it to 100. -/
def beforeMilestone : Sim :=
  onePassStart.run (List.replicate 25 tickOfFour)

/-! ## Progress display, time format and audit view -/

/-- The value `elapsed` of line 778: the clock readings are whole numbers of
milliseconds, their difference is exact, and the quotient by 1000 is rounded
to binary64 before `Math.floor`. -/
def elapsedSeconds (now startTime : ℕ) : ℤ :=
  ⌊jsDiv ((now : ℚ) - startTime) 1000⌋

/-- The value `remaining` of line 779.  On a record without
`estimatedDuration` (the one of the quick demonstration) the subtraction gives
`NaN` and so does `Math.max`; that is `none`. -/
def remainingTime (now : ℕ) (wd : WipeData) : Option ℤ :=
  wd.estimatedDuration.map fun e => max ((e : ℤ) - elapsedSeconds now wd.startTime) 0

/-- Method `formatTime` (lines 818-822) on a non-negative whole number of
seconds.  The quotient by 60 is rounded to binary64 before `Math.floor`; it is
not negative, so its floor is a natural number. -/
def formatTime (seconds : ℕ) : String :=
  toString ⌊jsDiv seconds 60⌋.toNat ++ ":" ++ padStart 2 '0' (toString (seconds % 60))

/-- The entries that `renderAuditLog` renders, in the order in which it
appends them to the page (line 1245). -/
def renderedAuditEntries (s : App) : List AuditEntry :=
  (sliceLast 50 s.auditLog).reverse

/-- The field `currentPass` of the session record (0 when there is none, as
line 781 displays it). -/
def Sim.currentPass (m : Sim) : ℕ :=
  (m.app.wipeData.map WipeData.currentPass).getD 0

/-- There is a session record, its `currentPass` does not exceed its pass
count, it is 0 before the first pass and it is the pass being run while the
simulation is inside a pass or waits after it. -/
def PassRange (m : Sim) : Prop :=
  ∃ wd, m.app.wipeData = some wd ∧ wd.currentPass ≤ wd.passes ∧
    match m.pc with
    | .initDelay => wd.currentPass = 0
    | .tickDelay p _ => wd.currentPass = p
    | .passDelay p => wd.currentPass = p
    | _ => True

/-- The simulation has left the ticks of pass `p` behind. -/
def Pc.past (p : ℕ) : Pc → Prop
  | .notStarted => False
  | .initDelay => False
  | .tickDelay q _ => p < q
  | .passDelay q => p ≤ q
  | _ => True

/-- The timer input of `tickOfFour`. -/
def inputOfFour : Input :=
  { random := { value := 3 / 4, base36 := "0.r" }, now := 0 }

/-! ## Theorems -/

/-! ### Rounding to the nearest integer -/

theorem roundHalfEven_cases (x : ℚ) :
    roundHalfEven x = ⌊x⌋ ∧ x - ⌊x⌋ ≤ 1 / 2 ∨ roundHalfEven x = ⌊x⌋ + 1 ∧ 1 / 2 ≤ x - ⌊x⌋ := by
  unfold roundHalfEven
  simp only []
  split_ifs with h1 h2 h3
  · left; exact ⟨rfl, h1.le⟩
  · right; exact ⟨rfl, h2.le⟩
  · left; exact ⟨rfl, le_of_not_lt h2⟩
  · right; exact ⟨rfl, le_of_not_lt h1⟩

theorem roundHalfEven_intCast (n : ℤ) : roundHalfEven (n : ℚ) = n := by
  unfold roundHalfEven
  simp

theorem roundHalfEven_mono {x y : ℚ} (h : x ≤ y) : roundHalfEven x ≤ roundHalfEven y := by
  have hf : ⌊x⌋ ≤ ⌊y⌋ := Int.floor_mono h
  rcases lt_or_eq_of_le hf with hlt | heq
  · have hx : roundHalfEven x ≤ ⌊x⌋ + 1 := by
      rcases roundHalfEven_cases x with ⟨e, -⟩ | ⟨e, -⟩ <;> omega
    have hy : ⌊y⌋ ≤ roundHalfEven y := by
      rcases roundHalfEven_cases y with ⟨e, -⟩ | ⟨e, -⟩ <;> omega
    omega
  · unfold roundHalfEven
    simp only [← heq]
    have hr : x - ⌊x⌋ ≤ y - ⌊x⌋ := by linarith
    split_ifs <;> first | omega | (exfalso; linarith)

theorem roundHalfEven_sub_le (x : ℚ) : |(roundHalfEven x : ℚ) - x| ≤ 1 / 2 := by
  have h1 := Int.floor_le x
  have h2 := Int.lt_floor_add_one x
  rw [abs_le]
  rcases roundHalfEven_cases x with ⟨e, h⟩ | ⟨e, h⟩
  · rw [e]; constructor <;> linarith
  · rw [e]; push_cast; constructor <;> linarith

theorem roundHalfEven_eq_of_abs_lt (x : ℚ) (m : ℤ) (h : |x - m| < 1 / 2) :
    roundHalfEven x = m := by
  rw [abs_lt] at h
  have h1 := Int.floor_le x
  have h2 := Int.lt_floor_add_one x
  rcases roundHalfEven_cases x with ⟨e, h3⟩ | ⟨e, h3⟩
  · rw [e]
    have a : (m : ℚ) < ⌊x⌋ + 1 := by linarith
    have b : ((⌊x⌋ : ℤ) : ℚ) < m + 1 := by linarith
    have a' : m < ⌊x⌋ + 1 := by exact_mod_cast a
    have b' : ⌊x⌋ < m + 1 := by exact_mod_cast b
    omega
  · rw [e]
    have a : (m : ℚ) < ⌊x⌋ + 1 + 1 := by linarith
    have b : ((⌊x⌋ : ℤ) : ℚ) + 1 < m + 1 := by linarith
    have a' : m < ⌊x⌋ + 1 + 1 := by exact_mod_cast a
    have b' : ⌊x⌋ + 1 < m + 1 := by exact_mod_cast b
    omega

/-! ### Rounding to binary64 -/

theorem two_zpow_pos (e : ℤ) : (0 : ℚ) < 2 ^ e := zpow_pos (by norm_num) e

theorem quantumExp_ge (q : ℚ) : -1074 ≤ quantumExp q := by
  unfold quantumExp
  have := le_max_right (Int.log 2 |q|) (-1022)
  omega

theorem log_le_quantumExp (q : ℚ) : Int.log 2 |q| ≤ quantumExp q + 52 := by
  unfold quantumExp
  have := le_max_left (Int.log 2 |q|) (-1022)
  omega

theorem quantumExp_mono {a b : ℚ} (ha : 0 < a) (h : a ≤ b) : quantumExp a ≤ quantumExp b := by
  unfold quantumExp
  rw [abs_of_pos ha, abs_of_pos (lt_of_lt_of_le ha h)]
  have h1 : Int.log 2 a ≤ Int.log 2 b := Int.log_mono_right ha h
  have h2 := max_le_max h1 (le_refl (-1022 : ℤ))
  omega

theorem lt_zpow_quantumExp {q : ℚ} (hq : 0 < q) : q < 2 ^ (quantumExp q + 53) := by
  have h1 : q < ((2 : ℕ) : ℚ) ^ (Int.log 2 q + 1) := Int.lt_zpow_succ_log_self (by norm_num) q
  have h2 := log_le_quantumExp q
  rw [abs_of_pos hq] at h2
  have h3 : (2 : ℚ) ^ (Int.log 2 q + 1) ≤ 2 ^ (quantumExp q + 53) :=
    zpow_le_zpow_right₀ (by norm_num) (by omega)
  calc q < (2 : ℚ) ^ (Int.log 2 q + 1) := by simpa using h1
    _ ≤ 2 ^ (quantumExp q + 53) := h3

theorem zpow_le_of_normal {q : ℚ} (hq : 0 < q) (hE : -1074 < quantumExp q) :
    2 ^ (quantumExp q + 52) ≤ q := by
  have h1 : ((2 : ℕ) : ℚ) ^ Int.log 2 q ≤ q := Int.zpow_log_le_self (by norm_num) hq
  have h2 : quantumExp q + 52 = Int.log 2 q := by
    unfold quantumExp at hE ⊢
    rw [abs_of_pos hq] at hE ⊢
    rcases max_cases (Int.log 2 q) (-1022) with ⟨e, -⟩ | ⟨e, -⟩ <;> omega
  rw [h2]
  simpa using h1

theorem scaled_lt {q : ℚ} (hq : 0 < q) : q / 2 ^ quantumExp q < 2 ^ (53 : ℤ) := by
  rw [div_lt_iff₀ (two_zpow_pos _), ← zpow_add₀ (by norm_num : (2 : ℚ) ≠ 0), add_comm]
  exact lt_zpow_quantumExp hq

theorem roundHalfEven_scaled_le {q : ℚ} (hq : 0 < q) :
    roundHalfEven (q / 2 ^ quantumExp q) ≤ 2 ^ 53 := by
  have h := roundHalfEven_mono (le_of_lt (scaled_lt hq))
  have e : ((2 : ℚ) ^ (53 : ℤ)) = (((2 : ℤ) ^ 53 : ℤ) : ℚ) := by norm_num
  rw [e, roundHalfEven_intCast] at h
  exact h

theorem roundHalfEven_nonneg {x : ℚ} (hx : 0 ≤ x) : 0 ≤ roundHalfEven x := by
  have h := roundHalfEven_mono hx
  have e : (0 : ℚ) = ((0 : ℤ) : ℚ) := by norm_num
  rw [e, roundHalfEven_intCast] at h
  exact h

theorem fl64_zero : fl64 0 = 0 := by
  unfold fl64
  rw [zero_div]
  have e : (0 : ℚ) = ((0 : ℤ) : ℚ) := by norm_num
  rw [e, roundHalfEven_intCast]
  simp

theorem fl64_nonneg {q : ℚ} (hq : 0 ≤ q) : 0 ≤ fl64 q := by
  unfold fl64
  have h := roundHalfEven_nonneg (div_nonneg hq (le_of_lt (two_zpow_pos (quantumExp q))))
  exact mul_nonneg (by exact_mod_cast h) (le_of_lt (two_zpow_pos _))

theorem fl64_le_top {q : ℚ} (hq : 0 < q) : fl64 q ≤ 2 ^ (quantumExp q + 53) := by
  unfold fl64
  have h := roundHalfEven_scaled_le hq
  have h' : (roundHalfEven (q / 2 ^ quantumExp q) : ℚ) ≤ 2 ^ (53 : ℤ) := by
    have h53 : (roundHalfEven (q / 2 ^ quantumExp q) : ℚ) ≤ (((2 : ℤ) ^ 53 : ℤ) : ℚ) := by
      exact_mod_cast h
    have e : ((2 : ℚ) ^ (53 : ℤ)) = (((2 : ℤ) ^ 53 : ℤ) : ℚ) := by norm_num
    rw [e]; exact h53
  rw [add_comm, zpow_add₀ (by norm_num : (2 : ℚ) ≠ 0)]
  exact mul_le_mul_of_nonneg_right h' (le_of_lt (two_zpow_pos _))

theorem le_fl64_of_normal {q : ℚ} (hq : 0 < q) (hE : -1074 < quantumExp q) :
    2 ^ (quantumExp q + 52) ≤ fl64 q := by
  have h1 := zpow_le_of_normal hq hE
  have h2 : (2 : ℚ) ^ (52 : ℤ) ≤ q / 2 ^ quantumExp q := by
    rw [le_div_iff₀ (two_zpow_pos _), ← zpow_add₀ (by norm_num : (2 : ℚ) ≠ 0), add_comm]
    exact h1
  have h3 := roundHalfEven_mono h2
  have e : ((2 : ℚ) ^ (52 : ℤ)) = (((2 : ℤ) ^ 52 : ℤ) : ℚ) := by norm_num
  rw [e, roundHalfEven_intCast] at h3
  have h4 : (2 : ℚ) ^ (52 : ℤ) ≤ (roundHalfEven (q / 2 ^ quantumExp q) : ℚ) := by
    have h52 : (((2 : ℤ) ^ 52 : ℤ) : ℚ) ≤ (roundHalfEven (q / 2 ^ quantumExp q) : ℚ) := by
      exact_mod_cast h3
    rw [e]; exact h52
  unfold fl64
  rw [add_comm, zpow_add₀ (by norm_num : (2 : ℚ) ≠ 0)]
  exact mul_le_mul_of_nonneg_right h4 (le_of_lt (two_zpow_pos _))

/-- Rounding to binary64 is monotone on the non-negative rationals. -/
theorem fl64_mono {a b : ℚ} (ha : 0 ≤ a) (h : a ≤ b) : fl64 a ≤ fl64 b := by
  rcases eq_or_lt_of_le ha with h0 | hpos
  · rw [← h0, fl64_zero]
    exact fl64_nonneg (le_trans ha h)
  · have hb : 0 < b := lt_of_lt_of_le hpos h
    rcases eq_or_lt_of_le (quantumExp_mono hpos h) with heq | hlt
    · unfold fl64
      rw [heq]
      have h1 : a / 2 ^ quantumExp b ≤ b / 2 ^ quantumExp b :=
        div_le_div_of_nonneg_right h (le_of_lt (two_zpow_pos _))
      have h2 := roundHalfEven_mono h1
      exact mul_le_mul_of_nonneg_right (by exact_mod_cast h2) (le_of_lt (two_zpow_pos _))
    · have h1 := fl64_le_top hpos
      have h2 := le_fl64_of_normal hb (by have := quantumExp_ge a; omega)
      have h3 : (2 : ℚ) ^ (quantumExp a + 53) ≤ 2 ^ (quantumExp b + 52) :=
        zpow_le_zpow_right₀ (by norm_num) (by omega)
      linarith

theorem fl64_eq_self_of_multiple (q : ℚ) (m e : ℤ) (hq : q = m * 2 ^ e)
    (he : quantumExp q ≤ e) : fl64 q = q := by
  obtain ⟨k, hk⟩ := Int.eq_ofNat_of_zero_le (sub_nonneg.mpr he)
  have e1 : q / 2 ^ quantumExp q = ((m * 2 ^ k : ℤ) : ℚ) := by
    rw [div_eq_iff (ne_of_gt (two_zpow_pos _))]
    push_cast
    rw [mul_assoc, ← zpow_natCast, ← zpow_add₀ (by norm_num : (2 : ℚ) ≠ 0), ← hk]
    rw [sub_add_cancel]
    exact hq
  unfold fl64
  rw [e1, roundHalfEven_intCast, ← e1]
  exact div_mul_cancel₀ _ (ne_of_gt (two_zpow_pos _))

theorem quantumExp_le_of_lt {v : ℚ} (hv : 0 < v) (k : ℤ) (hk : -1074 ≤ k)
    (h : v < 2 ^ (k + 53)) : quantumExp v ≤ k := by
  have h1 : Int.log 2 v < k + 53 := by
    rw [← Int.lt_zpow_iff_log_lt (by norm_num) hv]
    simpa using h
  unfold quantumExp
  rw [abs_of_pos hv]
  rcases max_cases (Int.log 2 v) (-1022) with ⟨e, -⟩ | ⟨e, -⟩ <;> omega

theorem quantumExp_zpow (k : ℤ) : quantumExp (2 ^ k) = max k (-1022) - 52 := by
  unfold quantumExp
  rw [abs_of_pos (two_zpow_pos k)]
  have h : Int.log 2 (((2 : ℕ) : ℚ) ^ k) = k := Int.log_zpow (by norm_num) k
  have h' : Int.log 2 ((2 : ℚ) ^ k) = k := by simpa using h
  rw [h']

/-- A binary64 value is its own rounding. -/
theorem fl64_fl64 {q : ℚ} (hq : 0 ≤ q) : fl64 (fl64 q) = fl64 q := by
  rcases eq_or_lt_of_le hq with h0 | hpos
  · rw [← h0, fl64_zero, fl64_zero]
  · have hm0 := roundHalfEven_nonneg (div_nonneg hq (le_of_lt (two_zpow_pos (quantumExp q))))
    have hm1 := roundHalfEven_scaled_le hpos
    have hE := quantumExp_ge q
    rcases eq_or_lt_of_le hm0 with hz | hmpos
    · have : fl64 q = 0 := by unfold fl64; rw [← hz]; simp
      rw [this, fl64_zero]
    · rcases eq_or_lt_of_le hm1 with htop | hlt
      · have hv : fl64 q = 2 ^ (quantumExp q + 53) := by
          unfold fl64
          rw [htop, add_comm, zpow_add₀ (by norm_num : (2 : ℚ) ≠ 0)]
          norm_num
        rw [hv]
        apply fl64_eq_self_of_multiple _ 1 (quantumExp q + 53) (by simp)
        rw [quantumExp_zpow]
        rcases max_cases (quantumExp q + 53) (-1022) with ⟨e, -⟩ | ⟨e, -⟩ <;> omega
      · have hvpos : 0 < fl64 q := by
          unfold fl64
          exact mul_pos (by exact_mod_cast hmpos) (two_zpow_pos _)
        apply fl64_eq_self_of_multiple _ (roundHalfEven (q / 2 ^ quantumExp q)) (quantumExp q) rfl
        apply quantumExp_le_of_lt hvpos _ hE
        unfold fl64
        rw [add_comm, zpow_add₀ (by norm_num : (2 : ℚ) ≠ 0)]
        apply mul_lt_mul_of_pos_right _ (two_zpow_pos _)
        have h53 : (roundHalfEven (q / 2 ^ quantumExp q) : ℚ) < (((2 : ℤ) ^ 53 : ℤ) : ℚ) := by
          exact_mod_cast hlt
        have e : ((2 : ℚ) ^ (53 : ℤ)) = (((2 : ℤ) ^ 53 : ℤ) : ℚ) := by norm_num
        rw [e]; exact h53

/-- Integers below `2^53` are binary64 values. -/
theorem fl64_natCast (n : ℕ) (h : n < 2 ^ 53) : fl64 (n : ℚ) = n := by
  rcases Nat.eq_zero_or_pos n with h0 | hpos
  · rw [h0]; simpa using fl64_zero
  · apply fl64_eq_self_of_multiple _ (n : ℤ) 0 (by simp)
    apply quantumExp_le_of_lt (by exact_mod_cast hpos) 0 (by norm_num)
    have h53 : ((n : ℕ) : ℚ) < ((2 ^ 53 : ℕ) : ℚ) := by exact_mod_cast h
    have e : ((2 : ℚ) ^ ((0 : ℤ) + 53)) = ((2 ^ 53 : ℕ) : ℚ) := by norm_num
    rw [e]; exact h53

/-- Evaluation of `fl64` at a normal value: with `2^L ≤ q < 2^(L+1)`, the result
is `m * 2^(L-52)` for the integer `m` within one half of `q / 2^(L-52)`. -/
theorem fl64_eq_of_near (q : ℚ) (L m : ℤ) (hL : -1022 ≤ L) (h1 : 2 ^ L ≤ q)
    (h2 : q < 2 ^ (L + 1)) (hm : |q / 2 ^ (L - 52) - m| < 1 / 2) :
    fl64 q = m * 2 ^ (L - 52) := by
  have hq : 0 < q := lt_of_lt_of_le (two_zpow_pos L) h1
  have hlog : Int.log 2 q = L := by
    have a : L ≤ Int.log 2 q := by
      rw [← Int.zpow_le_iff_le_log (by norm_num) hq]; simpa using h1
    have b : Int.log 2 q < L + 1 := by
      rw [← Int.lt_zpow_iff_log_lt (by norm_num) hq]; simpa using h2
    omega
  have hE : quantumExp q = L - 52 := by
    unfold quantumExp
    rw [abs_of_pos hq, hlog, max_eq_left hL]
  unfold fl64
  rw [hE, roundHalfEven_eq_of_abs_lt _ m hm]


/-! ### The two sides of the boundary between passes 1 and 2 of 3 -/

theorem jsDiv_one_three : jsDiv 1 3 = 6004799503160661 / 2 ^ 54 := by
  unfold jsDiv
  have h := fl64_eq_of_near (1 / 3) (-2) 6004799503160661 (by norm_num) (by norm_num)
    (by norm_num) (by norm_num [abs_lt])
  rw [h]; norm_num

theorem jsMul_third_hundred : jsMul (jsDiv 1 3) 100 = 4691249611844266 / 2 ^ 47 := by
  rw [jsDiv_one_three]
  unfold jsMul
  have h := fl64_eq_of_near (6004799503160661 / 2 ^ 54 * 100) 5 4691249611844266
    (by norm_num) (by norm_num) (by norm_num) (by norm_num [abs_lt])
  rw [h]; norm_num

theorem jsDiv_hundred_three : jsDiv 100 3 = 4691249611844267 / 2 ^ 47 := by
  unfold jsDiv
  have h := fl64_eq_of_near (100 / 3) 5 4691249611844267 (by norm_num) (by norm_num)
    (by norm_num) (by norm_num [abs_lt])
  rw [h]; norm_num

theorem jsAdd_zero_right {a : ℚ} (ha : 0 ≤ a) : jsAdd (fl64 a) 0 = fl64 a := by
  unfold jsAdd; rw [add_zero, fl64_fl64 ha]

theorem jsAdd_zero_left {a : ℚ} (ha : 0 ≤ a) : jsAdd 0 (fl64 a) = fl64 a := by
  unfold jsAdd; rw [zero_add, fl64_fl64 ha]

/-! ### Audit log -/

theorem pushCapped_length_le_cap (log : List AuditEntry) (entry : AuditEntry)
    (h : log.length ≤ 100) : (pushCapped log entry).length ≤ 100 := by
  unfold pushCapped sliceLast
  simp only []
  split
  · simp; omega
  · simp at *; omega

theorem auditCall_length_le (s : App) (c : AuditCall) (h : s.auditLog.length ≤ 100) :
    (c.apply s).auditLog.length ≤ 100 := by
  cases c with
  | add now message type =>
    exact pushCapped_length_le_cap _ _ h
  | init now => simp [AuditCall.apply, initializeAuditLog]
  | clear now confirmed =>
    cases confirmed
    · simpa [AuditCall.apply, clearAuditLog] using h
    · have h1 : (initializeAuditLog now { s with auditLog := [] }).auditLog.length ≤ 100 := by
        simp [initializeAuditLog]
      exact pushCapped_length_le_cap _ _ h1

theorem runAuditCalls_length_le (calls : List AuditCall) (s : App)
    (h : s.auditLog.length ≤ 100) : (runAuditCalls s calls).auditLog.length ≤ 100 := by
  induction calls generalizing s with
  | nil => simpa [runAuditCalls] using h
  | cons c cs ih =>
    simp only [runAuditCalls, List.foldl_cons]
    exact ih _ (auditCall_length_le s c h)

/-- C4: after any sequence of addAuditEntry, initializeAuditLog and
clearAuditLog calls starting from the initial state, the audit log has at most
100 entries. -/
theorem audit_log_never_exceeds_cap (calls : List AuditCall) :
    (runAuditCalls initialApp calls).auditLog.length ≤ 100 :=
  runAuditCalls_length_le calls initialApp (by simp [initialApp])

/-! ### Frame lemmas -/

@[simp] theorem addAuditEntry_wipeData (now : ℕ) (message type : String) (s : App) :
    (addAuditEntry now message type s).wipeData = s.wipeData := rfl

@[simp] theorem addAuditEntry_operationCount (now : ℕ) (message type : String) (s : App) :
    (addAuditEntry now message type s).operationCount = s.operationCount := rfl

@[simp] theorem addAuditEntry_wipeInProgress (now : ℕ) (message type : String) (s : App) :
    (addAuditEntry now message type s).wipeInProgress = s.wipeInProgress := rfl

@[simp] theorem addAuditEntry_devicesProcessed (now : ℕ) (message type : String) (s : App) :
    (addAuditEntry now message type s).devicesProcessed = s.devicesProcessed := rfl

@[simp] theorem addAuditEntry_certificate (now : ℕ) (message type : String) (s : App) :
    (addAuditEntry now message type s).certificate = s.certificate := rfl

@[simp] theorem addAuditEntry_devices (now : ℕ) (message type : String) (s : App) :
    (addAuditEntry now message type s).devices = s.devices := rfl

@[simp] theorem addProgressLog_wipeData (message type : String) (s : App) :
    (addProgressLog message type s).wipeData = s.wipeData := rfl

@[simp] theorem addProgressLog_operationCount (message type : String) (s : App) :
    (addProgressLog message type s).operationCount = s.operationCount := rfl

@[simp] theorem addProgressLog_wipeInProgress (message type : String) (s : App) :
    (addProgressLog message type s).wipeInProgress = s.wipeInProgress := rfl

@[simp] theorem addProgressLog_devicesProcessed (message type : String) (s : App) :
    (addProgressLog message type s).devicesProcessed = s.devicesProcessed := rfl

@[simp] theorem addProgressLog_certificate (message type : String) (s : App) :
    (addProgressLog message type s).certificate = s.certificate := rfl

@[simp] theorem navigateTo_wipeData (now : ℕ) (view : String) (s : App) :
    (navigateTo now view s).wipeData = s.wipeData := by
  unfold navigateTo scanRealDevicesBegin; simp only []; split_ifs <;> rfl

@[simp] theorem navigateTo_operationCount (now : ℕ) (view : String) (s : App) :
    (navigateTo now view s).operationCount = s.operationCount := by
  unfold navigateTo scanRealDevicesBegin; simp only []; split_ifs <;> rfl

@[simp] theorem navigateTo_wipeInProgress (now : ℕ) (view : String) (s : App) :
    (navigateTo now view s).wipeInProgress = s.wipeInProgress := by
  unfold navigateTo scanRealDevicesBegin; simp only []; split_ifs <;> rfl

/-- The synchronous head of the simulation writes to the progress log only. -/
@[simp] theorem simulateSecureWipe_wipeData (s : App) :
    (simulateSecureWipe s).app.wipeData = s.wipeData := by
  unfold simulateSecureWipe; split
  · simp only
  · split <;> simp only [addProgressLog_wipeData]

@[simp] theorem simulateSecureWipe_operationCount (s : App) :
    (simulateSecureWipe s).app.operationCount = s.operationCount := by
  unfold simulateSecureWipe; split
  · simp only
  · split <;> simp only [addProgressLog_operationCount]

@[simp] theorem simulateSecureWipe_wipeInProgress (s : App) :
    (simulateSecureWipe s).app.wipeInProgress = s.wipeInProgress := by
  unfold simulateSecureWipe; split
  · simp only
  · split <;> simp only [addProgressLog_wipeInProgress]

@[simp] theorem simulateSecureWipe_devicesProcessed (s : App) :
    (simulateSecureWipe s).app.devicesProcessed = s.devicesProcessed := by
  unfold simulateSecureWipe; split
  · simp only
  · split <;> simp only [addProgressLog_devicesProcessed]

@[simp] theorem navigateTo_devicesProcessed (now : ℕ) (view : String) (s : App) :
    (navigateTo now view s).devicesProcessed = s.devicesProcessed := by
  unfold navigateTo scanRealDevicesBegin; simp only []; split_ifs <;> rfl

/-- With a session record and a device, the simulation is launched and waits at
its first delay. -/
theorem simulateSecureWipe_pc (s : App) (wd : WipeData) (d : Device)
    (hw : s.wipeData = some wd) (hd : wd.device = some d) :
    (simulateSecureWipe s).pc = .initDelay := by
  unfold simulateSecureWipe
  simp [hw, hd]

/-- The session record that `startSecureWipe` leaves behind for a key of the
catalog. -/
theorem startSecureWipe_wipeData (now : ℕ) (form : WipeForm) (s : App) (S : WipeStandard)
    (hS : lookupStandard s.wipeStandards form.standardKey = some S) :
    (startSecureWipe now form s).sim.app.wipeData =
      some (newWipeData now form s.selectedDevice S) := by
  unfold startSecureWipe
  simp only [hS]
  split <;>
    simp only [addAuditEntry_wipeData, simulateSecureWipe_wipeData, navigateTo_wipeData]

/-- What `startSecureWipe` leaves behind when the key is in the catalog and a
device is selected. -/
theorem startSecureWipe_ok (now : ℕ) (form : WipeForm) (s : App) (S : WipeStandard)
    (d : Device) (hS : lookupStandard s.wipeStandards form.standardKey = some S)
    (hd : s.selectedDevice = some d) :
    (startSecureWipe now form s).error = none ∧
    (startSecureWipe now form s).sim.pc = .initDelay ∧
    (startSecureWipe now form s).sim.app.wipeInProgress = true ∧
    (startSecureWipe now form s).sim.app.operationCount = s.operationCount + 1 ∧
    (startSecureWipe now form s).sim.app.devicesProcessed = s.devicesProcessed := by
  unfold startSecureWipe
  simp only [hS, hd]
  refine ⟨trivial, ?_, ?_, ?_, ?_⟩
  · exact simulateSecureWipe_pc _ (newWipeData now form (some d) S) d
      (by simp only [navigateTo_wipeData]) rfl
  · simp only [addAuditEntry_wipeInProgress, simulateSecureWipe_wipeInProgress,
      navigateTo_wipeInProgress]
  · simp only [addAuditEntry_operationCount, simulateSecureWipe_operationCount,
      navigateTo_operationCount]
  · simp only [addAuditEntry_devicesProcessed, simulateSecureWipe_devicesProcessed,
      navigateTo_devicesProcessed]

/-! ### Starting a session -/

/-- C1: for every standard S of the catalog in use, the session record that
startSecureWipe creates for S has estimatedDuration equal to
max(S.passes * 60, 180). -/
theorem estimated_duration_formula (now : ℕ) (form : WipeForm) (s : App) (S : WipeStandard)
    (hS : lookupStandard s.wipeStandards form.standardKey = some S) :
    ∃ wd, (startSecureWipe now form s).sim.app.wipeData = some wd ∧
      wd.standard = S ∧ wd.passes = S.passes ∧
      wd.estimatedDuration = some (max (S.passes * 60) 180) :=
  ⟨newWipeData now form s.selectedDevice S, startSecureWipe_wipeData now form s S hS,
    rfl, rfl, rfl⟩

/-- C1 at the three-pass standard of the catalog: 180 seconds. -/
theorem estimated_duration_formula_witness :
    lookupStandard initialApp.wipeStandards "dod" = some dod ∧
    ∃ wd, (startSecureWipe 1000 ⟨"dod", "quick", "normal"⟩ initialApp).sim.app.wipeData
        = some wd ∧
      wd.standard = dod ∧ wd.passes = dod.passes ∧
      wd.estimatedDuration = some (max (dod.passes * 60) 180) :=
  ⟨by decide, estimated_duration_formula 1000 ⟨"dod", "quick", "normal"⟩ initialApp dod
    (by decide)⟩

/-! ### Eviction from the audit log -/

theorem pushCapped_eq_sliceLast (log : List AuditEntry) (entry : AuditEntry) :
    pushCapped log entry = sliceLast 100 (log ++ [entry]) := by
  unfold pushCapped sliceLast
  simp only []
  split
  · rfl
  · rename_i h
    have h0 : (log ++ [entry]).length - 100 = 0 := by omega
    rw [h0, List.drop_zero]

theorem sliceLast_append_singleton {α : Type} (a : List α) (e : α) :
    sliceLast 100 (sliceLast 100 a ++ [e]) = sliceLast 100 (a ++ [e]) := by
  unfold sliceLast
  simp only [List.length_append, List.length_drop, List.length_singleton]
  by_cases h : a.length ≤ 100
  · have h0 : a.length - 100 = 0 := by omega
    simp [h0]
  · push_neg at h
    have e1 : a.length - (a.length - 100) + 1 - 100 = 1 := by omega
    have e2 : a.length + 1 - 100 = (a.length - 100) + 1 := by omega
    rw [e1, e2, List.drop_append_of_le_length (by simp; omega),
      List.drop_append_of_le_length (by omega), List.drop_drop]

theorem recordAll_append (es : List AuditEntry) (e : AuditEntry) (s : App) :
    recordAll (es ++ [e]) s = addAuditEntry e.timestamp e.message e.type (recordAll es s) := by
  simp [recordAll, List.foldl_append]

theorem recordAll_auditLog (es : List AuditEntry) (s : App) :
    (recordAll es { s with auditLog := [] }).auditLog = sliceLast 100 es := by
  induction es using List.reverseRecOn with
  | nil => simp [recordAll, sliceLast]
  | append_singleton es e ih =>
    rw [recordAll_append]
    show pushCapped _ _ = _
    rw [ih, pushCapped_eq_sliceLast]
    exact sliceLast_append_singleton es e

/-- C5: eviction is first-in first-out and keeps the order.  Starting from an
empty log, after recording the entries `es` the log is exactly the last
min(n, 100) of them in recording order, the newest last; after 150 calls the
oldest 50 are gone and the other 100 remain in order. -/
theorem audit_log_fifo (s : App) (es : List AuditEntry) :
    (recordAll es { s with auditLog := [] }).auditLog = es.drop (es.length - 100) ∧
    (recordAll es { s with auditLog := [] }).auditLog.length = min es.length 100 ∧
    (recordAll es { s with auditLog := [] }).auditLog.getLast? = es.getLast? ∧
    (es.length = 150 → (recordAll es { s with auditLog := [] }).auditLog = es.drop 50) := by
  have h := recordAll_auditLog es s
  unfold sliceLast at h
  refine ⟨h, ?_, ?_, ?_⟩
  · rw [h, List.length_drop]; omega
  · rw [h]
    cases es with
    | nil => rfl
    | cons a l =>
      rw [List.getLast?_drop, if_neg (by simp; omega)]
  · intro h150
    rw [h, h150]

/-- C5 at 150 numbered entries: the log is the entries 50 to 149. -/
theorem audit_log_fifo_witness :
    ((List.range 150).map (fun i => (⟨i, "event", "info"⟩ : AuditEntry))).length = 150 ∧
    (recordAll ((List.range 150).map (fun i => (⟨i, "event", "info"⟩ : AuditEntry)))
      { initialApp with auditLog := [] }).auditLog =
      ((List.range 150).map (fun i => (⟨i, "event", "info"⟩ : AuditEntry))).drop 50 :=
  ⟨by simp, (audit_log_fifo initialApp _).2.2.2 (by simp)⟩

/-! ### The certificate issuer -/

theorem generateComplianceCertificate_app (now : ℕ) (random36 : String) (s : App)
    (wd : WipeData) (hw : s.wipeData = some wd) :
    (generateComplianceCertificate now random36 s).1 =
      { s with
        certificate := some (newCertificate now random36 s.operationCount wd),
        certificatesIssued := s.certificatesIssued + 1 } := by
  unfold generateComplianceCertificate
  simp only [hw]
  cases wd.device <;> rfl

/-- C8: the verificationStatus of an issued certificate is a function of the
verification mode of the session alone: `none` gives Skipped, `quick` and
`full` give Passed, and no mode gives any other status. -/
theorem verification_status_by_mode (now : ℕ) (random36 : String) (s : App) (wd : WipeData)
    (hw : s.wipeData = some wd) :
    ∃ c, (generateComplianceCertificate now random36 s).1.certificate = some c ∧
      c.verificationStatus = (if wd.verification = some "none" then "Skipped" else "Passed") ∧
      (wd.verification = some "none" → c.verificationStatus = "Skipped") ∧
      (wd.verification = some "quick" → c.verificationStatus = "Passed") ∧
      (wd.verification = some "full" → c.verificationStatus = "Passed") ∧
      (c.verificationStatus = "Skipped" ∨ c.verificationStatus = "Passed") := by
  rw [generateComplianceCertificate_app now random36 s wd hw]
  refine ⟨_, rfl, rfl, ?_, ?_, ?_, ?_⟩
  · intro h; simp [newCertificate, h]
  · intro h; simp [newCertificate, h]
  · intro h; simp [newCertificate, h]
  · by_cases h : wd.verification = some "none" <;> simp [newCertificate, h]

/-- C8 on a running session with mode `quick`. -/
theorem verification_status_by_mode_witness :
    busyApp.wipeData =
      some { newWipeData 1000 ⟨"dod", "quick", "normal"⟩ (some sampleDevice) dod with
        currentPass := 2, progress := 50 } ∧
    ∃ c, (generateComplianceCertificate 5000 "0.k3j9x2m1abc" busyApp).1.certificate = some c ∧
      c.verificationStatus = "Passed" := by
  refine ⟨rfl, ?_⟩
  obtain ⟨c, h1, -, -, h3, -⟩ :=
    verification_status_by_mode 5000 "0.k3j9x2m1abc" busyApp _ rfl
  exact ⟨c, h1, h3 rfl⟩

/-! ### A second start during a session -/

/-- C10 (as stated, refuted): on a running three-pass session a second
startSecureWipe is not rejected; it returns without error, resets the session
record and counts a second operation. -/
theorem second_start_is_not_rejected :
    busyApp.wipeInProgress = true ∧
    (startSecureWipe 2000 ⟨"nist", "none", "normal"⟩ busyApp).error
      ≠ some "SessionAlreadyActive" ∧
    (startSecureWipe 2000 ⟨"nist", "none", "normal"⟩ busyApp).sim.app.operationCount
      ≠ busyApp.operationCount ∧
    (startSecureWipe 2000 ⟨"nist", "none", "normal"⟩ busyApp).sim.app.wipeData
      ≠ busyApp.wipeData ∧
    ((startSecureWipe 2000 ⟨"nist", "none", "normal"⟩ busyApp).sim.app.wipeData.map
      WipeData.currentPass) ≠ busyApp.wipeData.map WipeData.currentPass ∧
    ((startSecureWipe 2000 ⟨"nist", "none", "normal"⟩ busyApp).sim.app.wipeData.map
      WipeData.progress) ≠ busyApp.wipeData.map WipeData.progress := by
  have hS : lookupStandard busyApp.wipeStandards
      (⟨"nist", "none", "normal"⟩ : WipeForm).standardKey = some nist := by decide
  have hd : busyApp.selectedDevice = some sampleDevice := rfl
  obtain ⟨h1, -, -, h4, -⟩ := startSecureWipe_ok 2000 _ busyApp nist sampleDevice hS hd
  have h5 := startSecureWipe_wipeData 2000 _ busyApp nist hS
  refine ⟨rfl, ?_, ?_, ?_, ?_, ?_⟩
  · rw [h1]; simp
  · rw [h4]; simp
  · rw [h5]
    intro h
    have h' := congrArg (Option.map WipeData.currentPass) h
    simp [busyApp, newWipeData] at h'
  · rw [h5]; simp [busyApp, newWipeData]
  · rw [h5]; simp [busyApp, newWipeData]

/-- C10 (amended): startSecureWipe has no active-session check.  Called while
wipeInProgress is true, with a key of the catalog and a device selected, it
returns without error, launches a new simulation, replaces the session record
by a fresh one (wipeId from the clock, progress 0, currentPass 0) and
increments the operation counter by one. -/
theorem start_while_active_replaces_session (now : ℕ) (form : WipeForm) (s : App)
    (S : WipeStandard) (d : Device) (_hactive : s.wipeInProgress = true)
    (hS : lookupStandard s.wipeStandards form.standardKey = some S)
    (hd : s.selectedDevice = some d) :
    (startSecureWipe now form s).error = none ∧
    (startSecureWipe now form s).sim.pc = .initDelay ∧
    (startSecureWipe now form s).sim.app.wipeInProgress = true ∧
    (startSecureWipe now form s).sim.app.operationCount = s.operationCount + 1 ∧
    ∃ wd, (startSecureWipe now form s).sim.app.wipeData = some wd ∧
      wd.wipeId = some ("WIPE-" ++ toString now) ∧ wd.progress = 0 ∧ wd.currentPass = 0 ∧
      wd.standard = S ∧ wd.device = some d := by
  obtain ⟨h1, h2, h3, h4, -⟩ := startSecureWipe_ok now form s S d hS hd
  refine ⟨h1, h2, h3, h4, _, startSecureWipe_wipeData now form s S hS, rfl, rfl, rfl, rfl, ?_⟩
  rw [hd]; rfl

/-- C10 (amended) on the running session `busyApp`. -/
theorem start_while_active_replaces_session_witness :
    busyApp.wipeInProgress = true ∧
    lookupStandard busyApp.wipeStandards "nist" = some nist ∧
    busyApp.selectedDevice = some sampleDevice ∧
    (startSecureWipe 2000 ⟨"nist", "none", "normal"⟩ busyApp).error = none ∧
    (startSecureWipe 2000 ⟨"nist", "none", "normal"⟩ busyApp).sim.app.operationCount = 2 :=
  ⟨rfl, by decide, rfl,
    (start_while_active_replaces_session 2000 ⟨"nist", "none", "normal"⟩ busyApp nist
      sampleDevice rfl (by decide) rfl).1,
    (start_while_active_replaces_session 2000 ⟨"nist", "none", "normal"⟩ busyApp nist
      sampleDevice rfl (by decide) rfl).2.2.2.1⟩

/-! ### The device scan -/

theorem usbDevicesFrom_real (rnd : ℕ → Draw) (l : List UsbDeviceInfo) (k : ℕ) :
    ∀ d ∈ usbDevicesFrom rnd k l, d.realDevice = true := by
  induction l generalizing k with
  | nil => simp [usbDevicesFrom]
  | cons a l ih =>
    intro d hd
    simp only [usbDevicesFrom, List.mem_cons] at hd
    rcases hd with rfl | hd
    · rfl
    · exact ih _ d hd

theorem mediaDevicesFrom_real (rnd : ℕ → Draw) (l : List MediaDeviceInfo) (k : ℕ) :
    ∀ d ∈ mediaDevicesFrom rnd k l, d.realDevice = true := by
  induction l generalizing k with
  | nil => simp [mediaDevicesFrom]
  | cons a l ih =>
    intro d hd
    simp only [mediaDevicesFrom, List.mem_cons] at hd
    rcases hd with rfl | hd
    · rfl
    · exact ih _ d hd

theorem usbPart_real (b : Browser) (rnd : ℕ → Draw) (s : App) :
    ∀ d ∈ usbPart b rnd s, d.realDevice = true := by
  unfold usbPart scanUSBDevices
  intro d hd
  split_ifs at hd
  · split at hd
    · simp at hd
    · exact usbDevicesFrom_real _ _ _ d hd
  all_goals simp at hd

theorem storagePart_real (now : ℕ) (b : Browser) (rnd : ℕ → Draw) (s : App) :
    ∀ d ∈ storagePart now b rnd s, d.realDevice = true := by
  unfold storagePart scanStorageDevices
  intro d hd
  split_ifs at hd
  · split at hd
    · simp at hd
    · simp only [] at hd
      split_ifs at hd
      · simp only [List.mem_singleton] at hd
        rw [hd]
      · simp at hd
  all_goals simp at hd

theorem mediaPart_real (now : ℕ) (b : Browser) (rnd : ℕ → Draw) (s : App) :
    ∀ d ∈ mediaPart now b rnd s, d.realDevice = true := by
  unfold mediaPart scanMediaDevices
  intro d hd
  split_ifs at hd
  · split at hd
    · simp at hd
    · exact mediaDevicesFrom_real _ _ _ d hd
  all_goals simp at hd

theorem scanRealDevices_devices (now : ℕ) (b : Browser) (rnd : ℕ → Draw) (s : App) :
    (scanRealDevices now b rnd s).devices =
      if (usbPart b rnd s ++ storagePart now b rnd s ++ mediaPart now b rnd s).length = 0 then
        generateRealisticDevices rnd
          (2 * (usbPart b rnd s).length + (storagePart now b rnd s).length +
            2 * (mediaPart now b rnd s).length)
      else usbPart b rnd s ++ storagePart now b rnd s ++ mediaPart now b rnd s := by
  unfold scanRealDevices
  simp only []
  split_ifs <;> simp only [addAuditEntry_devices]

/-- C6: when the combined result of the device sources is empty, the scan
sets the inventory to exactly three synthetic devices, an SSD, a USB device
and an HDD, each with realDevice = false. -/
theorem scan_falls_back_to_three_synthetic (now : ℕ) (b : Browser) (rnd : ℕ → Draw)
    (s : App)
    (h : usbPart b rnd s ++ storagePart now b rnd s ++ mediaPart now b rnd s = []) :
    (scanRealDevices now b rnd s).devices = generateRealisticDevices rnd 0 ∧
    (scanRealDevices now b rnd s).devices.length = 3 ∧
    (scanRealDevices now b rnd s).devices.map Device.type = [.SSD, .USB, .HDD] ∧
    ∀ d ∈ (scanRealDevices now b rnd s).devices, d.realDevice = false := by
  have hdev := scanRealDevices_devices now b rnd s
  rw [h] at hdev
  simp only [List.append_eq_nil] at h
  obtain ⟨⟨h1, h2⟩, h3⟩ := h
  simp only [h1, h2, h3, List.length_nil, if_true, Nat.mul_zero, Nat.add_zero] at hdev
  rw [hdev]
  refine ⟨rfl, rfl, rfl, ?_⟩
  intro d hd
  simp only [generateRealisticDevices, List.mem_cons, List.mem_singleton, List.not_mem_nil,
    or_false] at hd
  rcases hd with rfl | rfl | rfl <;> rfl

/-- C6 where no device API is supported, and where every API rejects. -/
theorem scan_falls_back_to_three_synthetic_witness :
    (usbPart failingBrowser constantDraws initialApp ++
        storagePart 7 failingBrowser constantDraws initialApp ++
        mediaPart 7 failingBrowser constantDraws initialApp = []) ∧
    (scanRealDevices 7 failingBrowser constantDraws initialApp).devices.length = 3 ∧
    (scanRealDevices 7 failingBrowser constantDraws fullSupportApp).devices.length = 3 :=
  ⟨rfl, (scan_falls_back_to_three_synthetic 7 failingBrowser constantDraws initialApp rfl).2.1,
    (scan_falls_back_to_three_synthetic 7 failingBrowser constantDraws fullSupportApp rfl).2.1⟩

/-- C7: when the sources return at least one device, the inventory set by the
scan is the USB source's devices, then the storage source's, then the media
source's, and nothing else: no synthetic device is among them. -/
theorem scan_concatenates_sources (now : ℕ) (b : Browser) (rnd : ℕ → Draw) (s : App)
    (h : usbPart b rnd s ++ storagePart now b rnd s ++ mediaPart now b rnd s ≠ []) :
    (scanRealDevices now b rnd s).devices =
      usbPart b rnd s ++ storagePart now b rnd s ++ mediaPart now b rnd s ∧
    ∀ d ∈ (scanRealDevices now b rnd s).devices, d.realDevice = true := by
  have hdev := scanRealDevices_devices now b rnd s
  rw [if_neg (by simpa [List.length_eq_zero] using h)] at hdev
  rw [hdev]
  refine ⟨rfl, ?_⟩
  intro d hd
  simp only [List.mem_append] at hd
  rcases hd with (hd | hd) | hd
  · exact usbPart_real _ _ _ d hd
  · exact storagePart_real _ _ _ _ d hd
  · exact mediaPart_real _ _ _ _ d hd

/-- C7 with one USB device attached and the other sources rejecting. -/
theorem scan_concatenates_sources_witness :
    (usbPart usbOnlyBrowser constantDraws fullSupportApp ++
        storagePart 7 usbOnlyBrowser constantDraws fullSupportApp ++
        mediaPart 7 usbOnlyBrowser constantDraws fullSupportApp ≠ []) ∧
    (scanRealDevices 7 usbOnlyBrowser constantDraws fullSupportApp).devices =
      usbPart usbOnlyBrowser constantDraws fullSupportApp ++
        storagePart 7 usbOnlyBrowser constantDraws fullSupportApp ++
        mediaPart 7 usbOnlyBrowser constantDraws fullSupportApp :=
  ⟨by simp [usbPart, scanUSBDevices, usbDevicesFrom, usbOnlyBrowser, fullSupportApp],
    (scan_concatenates_sources 7 usbOnlyBrowser constantDraws fullSupportApp
      (by simp [usbPart, scanUSBDevices, usbDevicesFrom, usbOnlyBrowser, fullSupportApp])).1⟩

/-! ### The simulation, step by step -/

@[simp] theorem core_addProgressLog (message type : String) (s : App) :
    (addProgressLog message type s).core = s.core := rfl

@[simp] theorem core_addAuditEntry (now : ℕ) (message type : String) (s : App) :
    (addAuditEntry now message type s).core = s.core := rfl

@[simp] theorem core_navigateTo (now : ℕ) (view : String) (s : App) :
    (navigateTo now view s).core = s.core := by
  unfold navigateTo scanRealDevicesBegin; simp only []; split_ifs <;> rfl

theorem core_setWipeData (f : WipeData → WipeData) (s : App) :
    (setWipeData f s).core = { s.core with wipeData := s.wipeData.map f } := rfl

theorem innerLoop_tick (p : ℕ) (x : ℚ) (s : App) (wd : WipeData)
    (hw : s.wipeData = some wd) (hx : x ≤ 100) (hp : s.wipeInProgress = true) :
    (innerLoop p x s).pc = .tickDelay p x ∧
    (innerLoop p x s).app.core =
      { s.core with wipeData := some { wd with progress := overallProgress p wd.passes x } } := by
  unfold innerLoop
  simp only [hw, hx, hp, and_self, if_true]
  refine ⟨trivial, ?_⟩
  split_ifs <;> simp only [core_addProgressLog, core_setWipeData, hw, Option.map_some']

theorem innerLoop_exit (p : ℕ) (x : ℚ) (s : App) (wd : WipeData)
    (hw : s.wipeData = some wd) (hx : ¬ x ≤ 100) (hp : s.wipeInProgress = true) :
    (innerLoop p x s).pc = .passDelay p ∧ (innerLoop p x s).app.core = s.core := by
  unfold innerLoop
  simp only [hw, hx, hp, false_and, if_false, if_true]
  exact ⟨trivial, core_addProgressLog _ _ _⟩

theorem innerLoop_stopped (p : ℕ) (x : ℚ) (s : App) (wd : WipeData)
    (hw : s.wipeData = some wd) (hp : s.wipeInProgress = false) :
    innerLoop p x s = ⟨s, .finished⟩ := by
  unfold innerLoop
  simp [hw, hp]

theorem afterLoops_running (s : App) (hp : s.wipeInProgress = true) :
    (afterLoops s).pc = .verifyDelay ∧ (afterLoops s).app.core = s.core := by
  unfold afterLoops
  simp only [hp, if_true]
  exact ⟨trivial, core_addProgressLog _ _ _⟩

theorem afterLoops_stopped (s : App) (hp : s.wipeInProgress = false) :
    afterLoops s = ⟨s, .finished⟩ := by
  unfold afterLoops
  simp [hp]

theorem outerLoop_enter (p : ℕ) (s : App) (wd : WipeData)
    (hw : s.wipeData = some wd) (hle : p ≤ wd.passes) (hp : s.wipeInProgress = true) :
    (outerLoop p s).pc = .tickDelay p 0 ∧
    (outerLoop p s).app.core =
      { s.core with
        wipeData := some
          { wd with currentPass := p, progress := overallProgress p wd.passes 0 } } := by
  unfold outerLoop
  simp only [hw, hle, hp, and_self, if_true]
  have h := innerLoop_tick p 0
    (addProgressLog
      ("🔄 Initiating pass " ++ toString p ++ " of " ++ toString wd.passes ++ "...") "info"
      (setWipeData (fun w => { w with currentPass := p }) s))
    { wd with currentPass := p }
    (by simp only [addProgressLog_wipeData, setWipeData, hw, Option.map_some'])
    (by norm_num) (by simpa using hp)
  refine ⟨h.1, ?_⟩
  rw [h.2]
  simp only [core_addProgressLog, core_setWipeData]

theorem outerLoop_done (p : ℕ) (s : App) (wd : WipeData)
    (hw : s.wipeData = some wd) (hle : ¬ p ≤ wd.passes) (hp : s.wipeInProgress = true) :
    (outerLoop p s).pc = .verifyDelay ∧ (outerLoop p s).app.core = s.core := by
  unfold outerLoop
  simp only [hw, hle, false_and, if_false]
  exact afterLoops_running s hp

theorem outerLoop_stopped (p : ℕ) (s : App) (wd : WipeData)
    (hw : s.wipeData = some wd) (hp : s.wipeInProgress = false) :
    outerLoop p s = ⟨s, .finished⟩ := by
  unfold outerLoop
  simp only [hw, hp, Bool.false_eq_true, and_false, if_false]
  exact afterLoops_stopped s hp

/-! ### The progress formula -/

theorem jsDiv_nonneg {a : ℚ} (ha : 0 ≤ a) (n : ℕ) : 0 ≤ jsDiv a n :=
  fl64_nonneg (div_nonneg ha (Nat.cast_nonneg n))

theorem passBase_nonneg (p passes : ℕ) (hp : 1 ≤ p) :
    0 ≤ jsMul (jsDiv ((p : ℚ) - 1) passes) 100 := by
  have h1 : (0 : ℚ) ≤ (p : ℚ) - 1 := by
    have : (1 : ℚ) ≤ p := by exact_mod_cast hp
    linarith
  exact fl64_nonneg (mul_nonneg (jsDiv_nonneg h1 passes) (by norm_num))

theorem overallProgress_nonneg (p passes : ℕ) (x : ℚ) (hp : 1 ≤ p) (hx : 0 ≤ x) :
    0 ≤ overallProgress p passes x := by
  unfold overallProgress
  exact le_min (fl64_nonneg (add_nonneg (passBase_nonneg p passes hp) (jsDiv_nonneg hx passes)))
    (by norm_num)

theorem overallProgress_le (p passes : ℕ) (x : ℚ) : overallProgress p passes x ≤ 100 :=
  min_le_right _ _

theorem overallProgress_mono (p passes : ℕ) {x y : ℚ} (hp : 1 ≤ p) (hx : 0 ≤ x)
    (hxy : x ≤ y) : overallProgress p passes x ≤ overallProgress p passes y := by
  unfold overallProgress
  apply min_le_min _ (le_refl _)
  have h1 : jsDiv x passes ≤ jsDiv y passes :=
    fl64_mono (div_nonneg hx (Nat.cast_nonneg _))
      (div_le_div_of_nonneg_right hxy (Nat.cast_nonneg _))
  exact fl64_mono (add_nonneg (passBase_nonneg p passes hp) (jsDiv_nonneg hx passes))
    (by linarith)

theorem overallProgress_first (passes : ℕ) : overallProgress 1 passes 0 = 0 := by
  unfold overallProgress jsAdd jsMul jsDiv
  simp [fl64_zero]

theorem increment_ge_one {r : ℚ} (hr : 0 ≤ r) : 1 ≤ jsAdd (jsMul r 4) 1 := by
  have h1 : 0 ≤ jsMul r 4 := fl64_nonneg (mul_nonneg hr (by norm_num))
  have h2 : fl64 ((1 : ℕ) : ℚ) = ((1 : ℕ) : ℚ) := fl64_natCast 1 (by norm_num)
  have h3 : fl64 1 ≤ fl64 (jsMul r 4 + 1) := fl64_mono (by norm_num) (by linarith)
  unfold jsAdd
  have h4 : fl64 (1 : ℚ) = 1 := by simpa using h2
  linarith

theorem nextProgress_ge {x r : ℚ} (hx : 0 ≤ x) (hfl : fl64 x = x) (hr : 0 ≤ r) :
    x ≤ nextProgress x r := by
  have h1 := increment_ge_one hr
  have h2 : fl64 x ≤ fl64 (x + jsAdd (jsMul r 4) 1) := fl64_mono hx (by linarith)
  unfold nextProgress jsAdd at *
  linarith

theorem nextProgress_fl64 {x r : ℚ} (hx : 0 ≤ x) (hr : 0 ≤ r) :
    fl64 (nextProgress x r) = nextProgress x r := by
  have h1 := increment_ge_one hr
  unfold nextProgress
  unfold jsAdd at h1 ⊢
  exact fl64_fl64 (by linarith)

/-- The loop variable of a pass gains at least one whole unit per tick. -/
theorem nextProgress_ge_succ (n : ℕ) {x r : ℚ} (hn : n + 1 < 2 ^ 53) (hx : (n : ℚ) ≤ x)
    (hr : 0 ≤ r) : ((n + 1 : ℕ) : ℚ) ≤ nextProgress x r := by
  have h1 := increment_ge_one hr
  have h2 : fl64 ((n + 1 : ℕ) : ℚ) = ((n + 1 : ℕ) : ℚ) := fl64_natCast (n + 1) hn
  have h3 : fl64 ((n + 1 : ℕ) : ℚ) ≤ fl64 (x + jsAdd (jsMul r 4) 1) :=
    fl64_mono (by positivity) (by push_cast; linarith)
  unfold nextProgress
  unfold jsAdd at h1 h3 ⊢
  linarith

/-! ### The certificate step -/

theorem issueAndFinish_core (i : Input) (s : App) (wd : WipeData) (d : Device)
    (hw : s.wipeData = some wd) (hd : wd.device = some d) :
    (issueAndFinish i s).pc = .navTimer ∧
    (issueAndFinish i s).app.core =
      { wipeData := some { wd with progress := 100 },
        wipeInProgress := false,
        devicesProcessed := s.devicesProcessed + 1,
        certificate := some (newCertificate i.now i.random.base36 s.operationCount wd),
        certificatesIssued := s.certificatesIssued + 1,
        operationCount := s.operationCount } := by
  unfold issueAndFinish generateComplianceCertificate
  simp only [hw, hd, setWipeData, addProgressLog, Option.map_some', Option.some_bind]
  exact ⟨trivial, rfl⟩

@[simp] theorem core_emergencyStop (now : ℕ) (s : App) :
    (emergencyStop now s).core = { s.core with wipeInProgress := false } := rfl

theorem resume_verifyDelay_core (i : Input) (m : Sim) (wd : WipeData)
    (hpc : m.pc = .verifyDelay) (hw : m.app.wipeData = some wd) :
    (resume i m).pc = .verifiedDelay ∧ (resume i m).app.core = m.app.core := by
  unfold resume
  simp only [hpc, hw]
  refine ⟨trivial, ?_⟩
  split_ifs <;> simp only [core_addProgressLog]

theorem resume_verifiedDelay_core (i : Input) (m : Sim) (hpc : m.pc = .verifiedDelay) :
    (resume i m).pc = .certDelay ∧ (resume i m).app.core = m.app.core := by
  unfold resume
  simp only [hpc]
  exact ⟨trivial, core_addProgressLog _ _ _⟩

theorem resume_navTimer_core (i : Input) (m : Sim) (hpc : m.pc = .navTimer) :
    (resume i m).pc = .finished ∧ (resume i m).app.core = m.app.core := by
  unfold resume
  simp only [hpc]
  exact ⟨trivial, core_navigateTo _ _ _⟩

/-! ### Rounding error -/

theorem fl64_abs_sub_le {q : ℚ} (hq : 0 ≤ q) (k : ℤ) (hk : -1022 ≤ k) (h : q < 2 ^ (k + 1)) :
    |fl64 q - q| ≤ 2 ^ (k - 53) := by
  rcases eq_or_lt_of_le hq with h0 | hpos
  · rw [← h0, fl64_zero, sub_zero, abs_zero]
    exact le_of_lt (two_zpow_pos _)
  · have hE : quantumExp q ≤ k - 52 :=
      quantumExp_le_of_lt hpos (k - 52) (by omega)
        (by rw [show k - 52 + 53 = k + 1 by ring]; exact h)
    have hr := roundHalfEven_sub_le (q / 2 ^ quantumExp q)
    have e : fl64 q - q =
        ((roundHalfEven (q / 2 ^ quantumExp q) : ℚ) - q / 2 ^ quantumExp q) *
          2 ^ quantumExp q := by
      unfold fl64
      rw [sub_mul, div_mul_cancel₀ _ (ne_of_gt (two_zpow_pos _))]
    rw [e, abs_mul, abs_of_pos (two_zpow_pos _)]
    have h1 : |(roundHalfEven (q / 2 ^ quantumExp q) : ℚ) - q / 2 ^ quantumExp q| *
        2 ^ quantumExp q ≤ 1 / 2 * 2 ^ quantumExp q :=
      mul_le_mul_of_nonneg_right hr (le_of_lt (two_zpow_pos _))
    have h2 : (1 / 2 : ℚ) * 2 ^ quantumExp q = 2 ^ (quantumExp q - 1) := by
      rw [zpow_sub_one₀ (by norm_num : (2 : ℚ) ≠ 0)]; ring
    have h3 : (2 : ℚ) ^ (quantumExp q - 1) ≤ 2 ^ (k - 53) :=
      zpow_le_zpow_right₀ (by norm_num) (by omega)
    linarith

theorem fl64_one : fl64 1 = 1 := by
  have h := fl64_natCast 1 (by norm_num)
  simpa using h

/-- The base of a pass, `fl64 (fl64 t * 100)`, is within `2^-46` of `t * 100`
for a fraction `t` of the passes. -/
theorem passBase_near {t : ℚ} (h0 : 0 ≤ t) (h1 : t < 1) :
    |fl64 (fl64 t * 100) - t * 100| ≤ 2 ^ (-46 : ℤ) := by
  have e1 := fl64_abs_sub_le h0 (-1) (by norm_num) (by simpa using h1)
  have a0 : 0 ≤ fl64 t := fl64_nonneg h0
  have a1 : fl64 t ≤ 1 := by
    have := fl64_mono h0 (le_of_lt h1)
    rw [fl64_one] at this
    exact this
  have e2 := fl64_abs_sub_le (mul_nonneg a0 (by norm_num : (0 : ℚ) ≤ 100)) 6 (by norm_num)
    (by norm_num; linarith)
  rw [abs_le] at e1 e2 ⊢
  norm_num at e1 e2 ⊢
  constructor <;> linarith

/-- Across a pass boundary the stored progress falls by less than `2^-44`. -/
theorem boundary_drop_small (p passes : ℕ) (x : ℚ) (hp : 1 ≤ p) (hpn : p + 1 ≤ passes)
    (hx0 : 0 ≤ x) (hx : x ≤ 100) :
    overallProgress p passes x ≤ overallProgress (p + 1) passes 0 + 2 ^ (-44 : ℤ) := by
  have hN : (0 : ℚ) < passes := by
    have : 0 < passes := by omega
    exact_mod_cast this
  have hp1 : (1 : ℚ) ≤ p := by exact_mod_cast hp
  have hpN : (p : ℚ) + 1 ≤ passes := by exact_mod_cast hpn
  -- the exact fractions
  have t0 : 0 ≤ ((p : ℚ) - 1) / passes := div_nonneg (by linarith) (le_of_lt hN)
  have t1 : ((p : ℚ) - 1) / passes < 1 := by rw [div_lt_one hN]; linarith
  have u0 : 0 ≤ (p : ℚ) / passes := div_nonneg (by linarith) (le_of_lt hN)
  have u1 : (p : ℚ) / passes < 1 := by rw [div_lt_one hN]; linarith
  have c0 : 0 ≤ x / passes := div_nonneg hx0 (le_of_lt hN)
  have c1 : x / passes ≤ 100 := by
    rw [div_le_iff₀ hN]
    have : (1 : ℚ) ≤ passes := by linarith
    nlinarith
  have key : ((p : ℚ) - 1) / passes * 100 + x / passes ≤ (p : ℚ) / passes * 100 := by
    have : x / passes ≤ 100 / passes := div_le_div_of_nonneg_right hx (le_of_lt hN)
    have e : (p : ℚ) / passes * 100 = ((p : ℚ) - 1) / passes * 100 + 100 / passes := by
      field_simp
      ring
    linarith
  have top : (p : ℚ) / passes * 100 ≤ 100 := by
    have : (p : ℚ) / passes ≤ 1 := le_of_lt u1
    linarith
  -- rounding errors
  have eA' := passBase_near t0 t1
  have eA := passBase_near u0 u1
  have ec := fl64_abs_sub_le c0 6 (by norm_num) (by norm_num; linarith)
  rw [abs_le] at eA' eA ec
  norm_num at eA' eA ec
  have hA'0 : 0 ≤ fl64 (fl64 (((p : ℚ) - 1) / passes) * 100) :=
    fl64_nonneg (mul_nonneg (fl64_nonneg t0) (by norm_num))
  have hc0 : 0 ≤ fl64 (x / passes) := fl64_nonneg c0
  have eS := fl64_abs_sub_le (add_nonneg hA'0 hc0) 6 (by norm_num) (by norm_num; linarith)
  rw [abs_le] at eS
  norm_num at eS
  -- the new value
  have hnew : overallProgress (p + 1) passes 0 =
      min (fl64 (fl64 ((p : ℚ) / passes) * 100)) 100 := by
    unfold overallProgress jsAdd jsMul jsDiv
    have e1 : ((p + 1 : ℕ) : ℚ) - 1 = p := by push_cast; ring
    rw [e1, zero_div, fl64_zero, add_zero,
      fl64_fl64 (mul_nonneg (fl64_nonneg u0) (by norm_num))]
  rw [hnew]
  unfold overallProgress jsAdd jsMul jsDiv
  have e44 : (2 : ℚ) ^ (-44 : ℤ) = 1 / 17592186044416 := by norm_num
  rw [e44]
  have hold1 := min_le_left
    (fl64 (fl64 (fl64 (((p : ℚ) - 1) / passes) * 100) + fl64 (x / passes))) (100 : ℚ)
  have hold2 := min_le_right
    (fl64 (fl64 (fl64 (((p : ℚ) - 1) / passes) * 100) + fl64 (x / passes))) (100 : ℚ)
  rcases le_total (fl64 (fl64 ((p : ℚ) / passes) * 100)) 100 with hle | hge
  · rw [min_eq_left hle]
    linarith [eA'.2, eA.1, ec.2, eS.2]
  · rw [min_eq_right hge]
    linarith

/-! ### The invariant of a running simulation -/

theorem Sim.progress_eq (m : Sim) (wd : WipeData) (hw : m.app.wipeData = some wd) :
    m.progress = wd.progress := by
  unfold Sim.progress
  rw [hw]; rfl

theorem wipeData_of_core {s' : App} {c : Core} (h : s'.core = c) :
    s'.wipeData = c.wipeData := by
  rw [← h]; rfl

theorem two_zpow_neg44_pos : (0 : ℚ) < 2 ^ (-44 : ℤ) := two_zpow_pos _

/-- One step of a simulation that satisfies the invariant: the invariant
holds afterwards, the progress does not decrease unless the step opens a new
pass, and then it falls by less than `2^-44`. -/
theorem step_spec (m : Sim) (e : Event) (hI : Inv m) (hv : e.valid) :
    Inv (m.step e) ∧
    ((∀ p, m.pc ≠ .passDelay p) → m.progress ≤ (m.step e).progress) ∧
    m.progress ≤ (m.step e).progress + 2 ^ (-44 : ℤ) := by
  obtain ⟨wd, hw, hdev, h0, h100, hpc⟩ := hI
  have hprog := Sim.progress_eq m wd hw
  have hε := two_zpow_neg44_pos
  -- a step that leaves the session record alone and ends where nothing is claimed
  have same : ∀ m' : Sim, m'.app.wipeData = some wd → PcInv m'.pc wd →
      Inv m' ∧ ((∀ p, m.pc ≠ .passDelay p) → m.progress ≤ m'.progress) ∧
        m.progress ≤ m'.progress + 2 ^ (-44 : ℤ) := by
    intro m' hw' hpc'
    have hp' := Sim.progress_eq m' wd hw'
    refine ⟨⟨wd, hw', hdev, h0, h100, hpc'⟩, fun _ => by rw [hprog, hp'], ?_⟩
    rw [hprog, hp']; linarith
  cases e with
  | emergencyStop now =>
    exact same _ hw hpc
  | resume i =>
    obtain ⟨s, pc⟩ := m
    simp only at hw hpc hprog
    cases hwip : s.wipeInProgress with
    | false =>
      cases pc with
      | notStarted => exact same _ hw hpc
      | initDelay =>
        have h := outerLoop_stopped 1 s wd hw hwip
        simp only [Sim.step, resume]
        rw [h]; exact same _ hw trivial
      | tickDelay p x =>
        have h := innerLoop_stopped p (nextProgress x i.random.value) s wd hw hwip
        simp only [Sim.step, resume]
        rw [h]; exact same _ hw trivial
      | passDelay p =>
        have h := outerLoop_stopped (p + 1) s wd hw hwip
        simp only [Sim.step, resume]
        rw [h]; exact same _ hw trivial
      | verifyDelay =>
        obtain ⟨h1, h2⟩ := resume_verifyDelay_core i ⟨s, .verifyDelay⟩ wd rfl hw
        refine same _ ((wipeData_of_core h2).trans hw) ?_
        simp only [Sim.step]; rw [h1]; trivial
      | verifiedDelay =>
        obtain ⟨h1, h2⟩ := resume_verifiedDelay_core i ⟨s, .verifiedDelay⟩ rfl
        refine same _ ((wipeData_of_core h2).trans hw) ?_
        simp only [Sim.step]; rw [h1]; trivial
      | certDelay =>
        obtain ⟨d, hd⟩ := Option.ne_none_iff_exists'.mp hdev
        obtain ⟨hc1, hc⟩ := issueAndFinish_core i s wd d hw hd
        have hw' : (issueAndFinish i s).app.wipeData = some { wd with progress := 100 } :=
          wipeData_of_core hc
        have hp' := Sim.progress_eq (issueAndFinish i s) _ hw'
        simp only [Sim.step, resume]
        refine ⟨⟨_, hw', hdev, by norm_num, by norm_num, ?_⟩, fun _ => ?_, ?_⟩
        · rw [hc1]; trivial
        · rw [hprog, hp']; exact h100
        · rw [hprog, hp']; simp only; linarith
      | navTimer =>
        obtain ⟨h1, h2⟩ := resume_navTimer_core i ⟨s, .navTimer⟩ rfl
        refine same _ ((wipeData_of_core h2).trans hw) ?_
        simp only [Sim.step]; rw [h1]; trivial
      | finished => exact same _ hw hpc
      | failed => exact same _ hw hpc
    | true =>
      cases pc with
      | notStarted => exact same _ hw hpc
      | initDelay =>
        simp only [Sim.step, resume]
        by_cases hle : 1 ≤ wd.passes
        · obtain ⟨h1, h2⟩ := outerLoop_enter 1 s wd hw hle hwip
          have hw' := wipeData_of_core h2
          have hp' := Sim.progress_eq (outerLoop 1 s) _ hw'
          simp only at hw' hp'
          have hz := overallProgress_first wd.passes
          refine ⟨⟨_, hw', hdev, ?_, ?_, ?_⟩, fun _ => ?_, ?_⟩
          · simp only; rw [hz]
          · simp only; rw [hz]; norm_num
          · rw [h1]
            exact ⟨le_refl 1, hle, le_refl 0, by norm_num, fl64_zero, rfl⟩
          · rw [hprog, hp', hz]; exact le_of_eq hpc
          · rw [hprog, hp', hz]; have : wd.progress = 0 := hpc; linarith
        · obtain ⟨h1, h2⟩ := outerLoop_done 1 s wd hw hle hwip
          refine same _ ((wipeData_of_core h2).trans hw) ?_
          rw [h1]; trivial
      | tickDelay p x =>
        simp only [Sim.step, resume]
        obtain ⟨hp1, hpn, hx0, hx100, hfl, hval⟩ := hpc
        obtain ⟨hr0, -⟩ := hv
        have hge := nextProgress_ge hx0 hfl hr0
        have hx0' : 0 ≤ nextProgress x i.random.value := le_trans hx0 hge
        by_cases hx : nextProgress x i.random.value ≤ 100
        · obtain ⟨h1, h2⟩ := innerLoop_tick p (nextProgress x i.random.value) s wd hw hx hwip
          have hw' := wipeData_of_core h2
          have hp' := Sim.progress_eq (innerLoop p (nextProgress x i.random.value) s) _ hw'
          simp only at hw' hp'
          have hmono := overallProgress_mono p wd.passes hp1 hx0 hge
          refine ⟨⟨_, hw', hdev, ?_, ?_, ?_⟩, fun _ => ?_, ?_⟩
          · exact overallProgress_nonneg p wd.passes _ hp1 hx0'
          · exact overallProgress_le p wd.passes _
          · rw [h1]
            exact ⟨hp1, hpn, hx0', hx, nextProgress_fl64 hx0 hr0, rfl⟩
          · rw [hprog, hp', hval]; exact hmono
          · rw [hprog, hp', hval]; linarith
        · obtain ⟨h1, h2⟩ := innerLoop_exit p (nextProgress x i.random.value) s wd hw hx hwip
          refine same _ ((wipeData_of_core h2).trans hw) ?_
          rw [h1]
          exact ⟨hp1, hpn, x, hx0, hx100, hval⟩
      | passDelay p =>
        simp only [Sim.step, resume]
        obtain ⟨hp1, hpn, x, hx0, hx100, hval⟩ := hpc
        by_cases hle : p + 1 ≤ wd.passes
        · obtain ⟨h1, h2⟩ := outerLoop_enter (p + 1) s wd hw hle hwip
          have hw' := wipeData_of_core h2
          have hp' := Sim.progress_eq (outerLoop (p + 1) s) _ hw'
          simp only at hw' hp'
          refine ⟨⟨_, hw', hdev, ?_, ?_, ?_⟩, fun h => ?_, ?_⟩
          · exact overallProgress_nonneg (p + 1) wd.passes _ (by omega) (le_refl 0)
          · exact overallProgress_le (p + 1) wd.passes _
          · rw [h1]
            exact ⟨by omega, hle, le_refl 0, by norm_num, fl64_zero, rfl⟩
          · exact absurd rfl (h p)
          · rw [hprog, hp', hval]
            exact boundary_drop_small p wd.passes x hp1 hle hx0 hx100
        · obtain ⟨h1, h2⟩ := outerLoop_done (p + 1) s wd hw hle hwip
          refine same _ ((wipeData_of_core h2).trans hw) ?_
          rw [h1]; trivial
      | verifyDelay =>
        obtain ⟨h1, h2⟩ := resume_verifyDelay_core i ⟨s, .verifyDelay⟩ wd rfl hw
        refine same _ ((wipeData_of_core h2).trans hw) ?_
        simp only [Sim.step]; rw [h1]; trivial
      | verifiedDelay =>
        obtain ⟨h1, h2⟩ := resume_verifiedDelay_core i ⟨s, .verifiedDelay⟩ rfl
        refine same _ ((wipeData_of_core h2).trans hw) ?_
        simp only [Sim.step]; rw [h1]; trivial
      | certDelay =>
        obtain ⟨d, hd⟩ := Option.ne_none_iff_exists'.mp hdev
        obtain ⟨hc1, hc⟩ := issueAndFinish_core i s wd d hw hd
        have hw' : (issueAndFinish i s).app.wipeData = some { wd with progress := 100 } :=
          wipeData_of_core hc
        have hp' := Sim.progress_eq (issueAndFinish i s) _ hw'
        simp only [Sim.step, resume]
        refine ⟨⟨_, hw', hdev, by norm_num, by norm_num, ?_⟩, fun _ => ?_, ?_⟩
        · rw [hc1]; trivial
        · rw [hprog, hp']; exact h100
        · rw [hprog, hp']; simp only; linarith
      | navTimer =>
        obtain ⟨h1, h2⟩ := resume_navTimer_core i ⟨s, .navTimer⟩ rfl
        refine same _ ((wipeData_of_core h2).trans hw) ?_
        simp only [Sim.step]; rw [h1]; trivial
      | finished => exact same _ hw hpc
      | failed => exact same _ hw hpc

/-! ### Runs of the simulation -/

theorem Sim.run_append (m : Sim) (es : List Event) (e : Event) :
    m.run (es ++ [e]) = (m.run es).step e := by
  simp [Sim.run, List.foldl_append]

theorem Inv_run (m : Sim) (hI : Inv m) (events : List Event)
    (hv : ∀ e ∈ events, e.valid) : Inv (m.run events) := by
  induction events using List.reverseRecOn with
  | nil => exact hI
  | append_singleton es e ih =>
    rw [Sim.run_append]
    exact (step_spec _ e (ih (fun e' he' => hv e' (by simp [he'])))
      (hv e (by simp))).1

theorem Inv_start (now : ℕ) (form : WipeForm) (s : App) (S : WipeStandard) (d : Device)
    (hS : lookupStandard s.wipeStandards form.standardKey = some S)
    (hd : s.selectedDevice = some d) : Inv (startSecureWipe now form s).sim := by
  obtain ⟨-, hpc, -⟩ := startSecureWipe_ok now form s S d hS hd
  have hw := startSecureWipe_wipeData now form s S hS
  refine ⟨_, hw, ?_, le_refl _, by norm_num [newWipeData], ?_⟩
  · rw [hd]; simp [newWipeData]
  · rw [hpc]; rfl

/-! ### Three passes, every increment exactly 4 -/

theorem overallProgress_end_of_first :
    overallProgress 1 3 100 = 4691249611844267 / 2 ^ 47 := by
  unfold overallProgress
  have e0 : jsMul (jsDiv (((1 : ℕ) : ℚ) - 1) ((3 : ℕ) : ℚ)) 100 = 0 := by
    unfold jsMul jsDiv; simp [fl64_zero]
  have e1 : jsDiv 100 ((3 : ℕ) : ℚ) = 4691249611844267 / 2 ^ 47 := by
    rw [Nat.cast_ofNat]; exact jsDiv_hundred_three
  have e2 : jsAdd 0 (jsDiv 100 ((3 : ℕ) : ℚ)) = jsDiv 100 ((3 : ℕ) : ℚ) := by
    unfold jsDiv; exact jsAdd_zero_left (by norm_num)
  rw [e0, e2, e1]
  norm_num

theorem overallProgress_start_of_second :
    overallProgress 2 3 0 = 4691249611844266 / 2 ^ 47 := by
  unfold overallProgress
  have e0 : jsMul (jsDiv (((2 : ℕ) : ℚ) - 1) ((3 : ℕ) : ℚ)) 100 =
      4691249611844266 / 2 ^ 47 := by
    have : ((2 : ℕ) : ℚ) - 1 = 1 := by norm_num
    rw [this, Nat.cast_ofNat]; exact jsMul_third_hundred
  have e1 : jsDiv 0 ((3 : ℕ) : ℚ) = 0 := by unfold jsDiv; simp [fl64_zero]
  have e2 : jsAdd (jsMul (jsDiv (((2 : ℕ) : ℚ) - 1) ((3 : ℕ) : ℚ)) 100) 0 =
      jsMul (jsDiv (((2 : ℕ) : ℚ) - 1) ((3 : ℕ) : ℚ)) 100 := by
    unfold jsMul
    exact jsAdd_zero_right (mul_nonneg (jsDiv_nonneg (by norm_num) 3) (by norm_num))
  rw [e1, e2, e0]
  norm_num

theorem nextProgress_four (k : ℕ) (hk : k ≤ 25) :
    nextProgress ((4 * k : ℕ) : ℚ) (3 / 4) = ((4 * (k + 1) : ℕ) : ℚ) := by
  unfold nextProgress jsAdd jsMul
  have e1 : fl64 (3 / 4 * 4) = 3 := by
    have h := fl64_natCast 3 (by norm_num)
    have e : (3 / 4 * 4 : ℚ) = ((3 : ℕ) : ℚ) := by norm_num
    rw [e, h]; norm_num
  have e2 : fl64 (3 + 1) = 4 := by
    have h := fl64_natCast 4 (by norm_num)
    have e : (3 + 1 : ℚ) = ((4 : ℕ) : ℚ) := by norm_num
    rw [e, h]; norm_num
  rw [e1, e2]
  have e3 : ((4 * k : ℕ) : ℚ) + 4 = ((4 * (k + 1) : ℕ) : ℚ) := by push_cast; ring
  rw [e3]
  exact fl64_natCast _ (by norm_num; omega)

theorem threePassStart_facts :
    threePassStart.pc = .initDelay ∧ threePassStart.app.wipeInProgress = true ∧
    threePassStart.app.wipeData =
      some (newWipeData 0 ⟨"dod", "none", "normal"⟩ (some sampleDevice) dod) := by
  have hS : lookupStandard readyApp.wipeStandards
      (⟨"dod", "none", "normal"⟩ : WipeForm).standardKey = some dod := by decide
  obtain ⟨-, h2, h3, -⟩ :=
    startSecureWipe_ok 0 ⟨"dod", "none", "normal"⟩ readyApp dod sampleDevice hS rfl
  exact ⟨h2, h3, startSecureWipe_wipeData 0 _ readyApp dod hS⟩

theorem atTick_first : AtTick 0 (threePassStart.step tickOfFour) := by
  obtain ⟨h1, h2, h3⟩ := threePassStart_facts
  have hstep : threePassStart.step tickOfFour = outerLoop 1 threePassStart.app := by
    simp only [Sim.step, tickOfFour, resume, h1]
  obtain ⟨g1, g2⟩ := outerLoop_enter 1 threePassStart.app _ h3 (by decide) h2
  rw [hstep]
  refine ⟨g1, ?_, _, wipeData_of_core g2, rfl, rfl⟩
  have := congrArg Core.wipeInProgress g2
  exact this.trans h2

theorem atTick_next (k : ℕ) (hk : k < 25) (m : Sim) (h : AtTick ((4 * k : ℕ) : ℚ) m) :
    AtTick ((4 * (k + 1) : ℕ) : ℚ) (m.step tickOfFour) := by
  obtain ⟨h1, h2, wd, h3, h4, -⟩ := h
  have hstep : m.step tickOfFour =
      innerLoop 1 (nextProgress ((4 * k : ℕ) : ℚ) (3 / 4)) m.app := by
    simp only [Sim.step, tickOfFour, resume, h1]
  rw [hstep, nextProgress_four k (by omega)]
  have hx : ((4 * (k + 1) : ℕ) : ℚ) ≤ 100 := by
    have : 4 * (k + 1) ≤ 100 := by omega
    exact_mod_cast this
  obtain ⟨g1, g2⟩ := innerLoop_tick 1 ((4 * (k + 1) : ℕ) : ℚ) m.app wd h3 hx h2
  refine ⟨g1, ?_, _, wipeData_of_core g2, h4, ?_⟩
  · exact (congrArg Core.wipeInProgress g2).trans h2
  · simp only [h4]

theorem atTick_run (k : ℕ) (hk : k ≤ 25) :
    AtTick ((4 * k : ℕ) : ℚ) (threePassStart.run (List.replicate (k + 1) tickOfFour)) := by
  induction k with
  | zero => simpa [Sim.run] using atTick_first
  | succ k ih =>
    rw [List.replicate_succ', Sim.run_append]
    exact atTick_next k (by omega) _ (ih (by omega))

/-- The state after pass 1 of 3 has ended at loop variable exactly 100. -/
theorem end_of_first_pass :
    (threePassStart.run (List.replicate 27 tickOfFour)).pc = .passDelay 1 ∧
    (threePassStart.run (List.replicate 27 tickOfFour)).app.wipeInProgress = true ∧
    ∃ wd, (threePassStart.run (List.replicate 27 tickOfFour)).app.wipeData = some wd ∧
      wd.passes = 3 ∧ wd.progress = overallProgress 1 3 100 := by
  have h := atTick_run 25 (le_refl 25)
  rw [List.replicate_succ', Sim.run_append]
  generalize threePassStart.run (List.replicate (25 + 1) tickOfFour) = m at h
  obtain ⟨h1, h2, wd, h3, h4, h5⟩ := h
  have hstep : m.step tickOfFour =
      innerLoop 1 (nextProgress ((4 * 25 : ℕ) : ℚ) (3 / 4)) m.app := by
    simp only [Sim.step, tickOfFour, resume, h1]
  have hx : ¬ nextProgress ((4 * 25 : ℕ) : ℚ) (3 / 4) ≤ 100 := by
    rw [nextProgress_four 25 (le_refl 25)]; norm_num
  obtain ⟨g1, g2⟩ := innerLoop_exit 1 _ m.app wd h3 hx h2
  rw [hstep]
  refine ⟨g1, (congrArg Core.wipeInProgress g2).trans h2, wd,
    (wipeData_of_core g2).trans h3, h4, ?_⟩
  rw [h5]; norm_num

/-- C2 (as stated, refuted): in a three-pass session whose increments are all
exactly 4 (draw 0.75), pass 1 ends at loop variable 100 with progress
33.333333333333336 stored, and the next timer event opens pass 2 and stores
33.33333333333333: the sequence of progress values decreases. -/
theorem progress_falls_between_passes :
    tickOfFour.valid ∧
    (threePassStart.run (List.replicate 27 tickOfFour)).progress =
      4691249611844267 / 2 ^ 47 ∧
    ((threePassStart.run (List.replicate 27 tickOfFour)).step tickOfFour).progress =
      4691249611844266 / 2 ^ 47 ∧
    ¬ ((threePassStart.run (List.replicate 27 tickOfFour)).progress ≤
      ((threePassStart.run (List.replicate 27 tickOfFour)).step tickOfFour).progress) := by
  obtain ⟨h1, h2, wd, h3, h4, h5⟩ := end_of_first_pass
  generalize threePassStart.run (List.replicate 27 tickOfFour) = m at h1 h2 h3
  have hbefore : m.progress = 4691249611844267 / 2 ^ 47 := by
    rw [Sim.progress_eq m wd h3, h5, overallProgress_end_of_first]
  have hstep : m.step tickOfFour = outerLoop (1 + 1) m.app := by
    simp only [Sim.step, tickOfFour, resume, h1]
  obtain ⟨-, g2⟩ := outerLoop_enter (1 + 1) m.app wd h3 (by omega) h2
  have hafter : (m.step tickOfFour).progress = 4691249611844266 / 2 ^ 47 := by
    rw [hstep, Sim.progress_eq _ _ (wipeData_of_core g2)]
    simp only [h4]
    exact overallProgress_start_of_second
  refine ⟨by norm_num [tickOfFour, Event.valid], hbefore, hafter, ?_⟩
  rw [hbefore, hafter]
  norm_num

/-- C2 (amended): in every session started by startSecureWipe, through every
sequence of timer events with draws in [0, 1) and emergency stops, the stored
progress starts at 0, always lies in [0, 100], is set to 100 by the completing
step, and no step decreases it except the step that opens a new pass, where
the stored double falls by less than 2^-44. -/
theorem progress_bounded_and_monotone_within_pass (now : ℕ) (form : WipeForm) (s : App)
    (S : WipeStandard) (d : Device)
    (hS : lookupStandard s.wipeStandards form.standardKey = some S)
    (hd : s.selectedDevice = some d) (events : List Event)
    (hv : ∀ e ∈ events, e.valid) (e : Event) (he : e.valid) :
    (startSecureWipe now form s).sim.progress = 0 ∧
    0 ≤ ((startSecureWipe now form s).sim.run events).progress ∧
    ((startSecureWipe now form s).sim.run events).progress ≤ 100 ∧
    ((∀ p, ((startSecureWipe now form s).sim.run events).pc ≠ .passDelay p) →
      ((startSecureWipe now form s).sim.run events).progress ≤
        (((startSecureWipe now form s).sim.run events).step e).progress) ∧
    ((startSecureWipe now form s).sim.run events).progress ≤
      (((startSecureWipe now form s).sim.run events).step e).progress + 2 ^ (-44 : ℤ) ∧
    (((startSecureWipe now form s).sim.run events).pc = .certDelay →
      ∀ i, (((startSecureWipe now form s).sim.run events).step (.resume i)).progress = 100) := by
  have hI0 := Inv_start now form s S d hS hd
  have hI := Inv_run _ hI0 events hv
  have h0 : (startSecureWipe now form s).sim.progress = 0 := by
    rw [Sim.progress_eq _ _ (startSecureWipe_wipeData now form s S hS)]; rfl
  generalize (startSecureWipe now form s).sim.run events = m at hI
  obtain ⟨-, hmono, hdrop⟩ := step_spec m e hI he
  obtain ⟨wd, hw, hdev, hlo, hhi, -⟩ := hI
  have hp := Sim.progress_eq m wd hw
  refine ⟨h0, by rw [hp]; exact hlo, by rw [hp]; exact hhi, hmono, hdrop, ?_⟩
  intro hpc i
  obtain ⟨d', hd'⟩ := Option.ne_none_iff_exists'.mp hdev
  obtain ⟨-, hc⟩ := issueAndFinish_core i m.app wd d' hw hd'
  have hstep : m.step (.resume i) = issueAndFinish i m.app := by
    simp only [Sim.step, resume, hpc]
  rw [hstep, Sim.progress_eq _ _ (wipeData_of_core hc)]

/-- C2 (amended) on the three-pass session at the end of pass 1. -/
theorem progress_bounded_and_monotone_within_pass_witness :
    lookupStandard readyApp.wipeStandards "dod" = some dod ∧
    readyApp.selectedDevice = some sampleDevice ∧
    (∀ e ∈ List.replicate 27 tickOfFour, e.valid) ∧ tickOfFour.valid ∧
    (threePassStart.run (List.replicate 27 tickOfFour)).progress ≤ 100 ∧
    (threePassStart.run (List.replicate 27 tickOfFour)).progress ≤
      ((threePassStart.run (List.replicate 27 tickOfFour)).step tickOfFour).progress +
        2 ^ (-44 : ℤ) := by
  have hv : tickOfFour.valid := by norm_num [tickOfFour, Event.valid]
  have hall : ∀ e ∈ List.replicate 27 tickOfFour, e.valid := by
    intro e he
    rw [List.eq_of_mem_replicate he]; exact hv
  have h := progress_bounded_and_monotone_within_pass 0 ⟨"dod", "none", "normal"⟩ readyApp dod
    sampleDevice (by decide) rfl (List.replicate 27 tickOfFour) hall tickOfFour hv
  exact ⟨by decide, rfl, hall, hv, h.2.2.1, h.2.2.2.2.1⟩

/-! ### The stored progress against the exact formula -/

/-- The stored progress is within `2^-45` of the exact value of the formula. -/
theorem overallProgress_near (p passes : ℕ) (x : ℚ) (hp : 1 ≤ p) (hpn : p ≤ passes)
    (hx0 : 0 ≤ x) (hx : x ≤ 100) :
    |overallProgress p passes x - (((p : ℚ) - 1) / passes * 100 + x / passes)| ≤
      2 ^ (-45 : ℤ) := by
  have hN : (0 : ℚ) < passes := by
    have : 0 < passes := by omega
    exact_mod_cast this
  have hp1 : (1 : ℚ) ≤ p := by exact_mod_cast hp
  have hpN : (p : ℚ) ≤ passes := by exact_mod_cast hpn
  have t0 : 0 ≤ ((p : ℚ) - 1) / passes := div_nonneg (by linarith) (le_of_lt hN)
  have t1 : ((p : ℚ) - 1) / passes < 1 := by rw [div_lt_one hN]; linarith
  have c0 : 0 ≤ x / passes := div_nonneg hx0 (le_of_lt hN)
  have c1 : x / passes ≤ 100 := by
    rw [div_le_iff₀ hN]
    have : (1 : ℚ) ≤ passes := by linarith
    nlinarith
  have top : ((p : ℚ) - 1) / passes * 100 + x / passes ≤ 100 := by
    have h1 : x / passes ≤ 100 / passes := div_le_div_of_nonneg_right hx (le_of_lt hN)
    have e : ((p : ℚ) - 1) / passes * 100 + 100 / passes = (p : ℚ) / passes * 100 := by
      field_simp
      ring
    have h2 : (p : ℚ) / passes ≤ 1 := by rw [div_le_one hN]; exact hpN
    linarith
  have eA := passBase_near t0 t1
  have ec := fl64_abs_sub_le c0 6 (by norm_num) (by norm_num; linarith)
  rw [abs_le] at eA ec
  norm_num at eA ec
  have hA0 : 0 ≤ fl64 (fl64 (((p : ℚ) - 1) / passes) * 100) :=
    fl64_nonneg (mul_nonneg (fl64_nonneg t0) (by norm_num))
  have hc0 : 0 ≤ fl64 (x / passes) := fl64_nonneg c0
  have eS := fl64_abs_sub_le (add_nonneg hA0 hc0) 6 (by norm_num) (by norm_num; linarith)
  rw [abs_le] at eS
  norm_num at eS
  unfold overallProgress jsAdd jsMul jsDiv
  have e45 : (2 : ℚ) ^ (-45 : ℤ) = 1 / 35184372088832 := by norm_num
  rw [e45, abs_le]
  rcases le_total
    (fl64 (fl64 (fl64 (((p : ℚ) - 1) / passes) * 100) + fl64 (x / passes))) 100 with hle | hge
  · rw [min_eq_left hle]
    constructor <;> linarith [eA.1, eA.2, ec.1, ec.2, eS.1, eS.2]
  · rw [min_eq_right hge]
    constructor <;> linarith [eA.1, eA.2, ec.1, ec.2, eS.1, eS.2]

/-- C3: in pass `pass` (1 ≤ pass ≤ N) at loop variable x in [0, 100], the
progress that simulateSecureWipe stores is the expression
((pass - 1) / N) * 100 + x / N, evaluated in double arithmetic and clamped to
[0, 100]; it differs from the exact value of that expression, which lies in
[0, 100], by at most 2^-45. -/
theorem stored_progress_formula (p : ℕ) (x : ℚ) (s : App) (wd : WipeData)
    (hw : s.wipeData = some wd) (hwip : s.wipeInProgress = true) (hp : 1 ≤ p)
    (hpn : p ≤ wd.passes) (hx0 : 0 ≤ x) (hx : x ≤ 100) :
    ∃ wd', (innerLoop p x s).app.wipeData = some wd' ∧
      wd'.progress =
        max 0 (min (jsAdd (jsMul (jsDiv ((p : ℚ) - 1) wd.passes) 100) (jsDiv x wd.passes))
          100) ∧
      |wd'.progress - max 0 (min (((p : ℚ) - 1) / wd.passes * 100 + x / wd.passes) 100)| ≤
        2 ^ (-45 : ℤ) := by
  obtain ⟨-, h2⟩ := innerLoop_tick p x s wd hw hx hwip
  refine ⟨_, wipeData_of_core h2, ?_, ?_⟩
  · have h := overallProgress_nonneg p wd.passes x hp hx0
    unfold overallProgress at h
    simp only
    unfold overallProgress
    rw [max_eq_right h]
  · have hnear := overallProgress_near p wd.passes x hp hpn hx0 hx
    have hN : (0 : ℚ) < wd.passes := by
      have : 0 < wd.passes := by omega
      exact_mod_cast this
    have hp1 : (1 : ℚ) ≤ p := by exact_mod_cast hp
    have hpN : (p : ℚ) ≤ wd.passes := by exact_mod_cast hpn
    have e0 : 0 ≤ ((p : ℚ) - 1) / wd.passes * 100 + x / wd.passes :=
      add_nonneg (mul_nonneg (div_nonneg (by linarith) (le_of_lt hN)) (by norm_num))
        (div_nonneg hx0 (le_of_lt hN))
    have e100 : ((p : ℚ) - 1) / wd.passes * 100 + x / wd.passes ≤ 100 := by
      have h1 : x / wd.passes ≤ 100 / wd.passes :=
        div_le_div_of_nonneg_right hx (le_of_lt hN)
      have e : ((p : ℚ) - 1) / wd.passes * 100 + 100 / wd.passes =
          (p : ℚ) / wd.passes * 100 := by
        field_simp
        ring
      have h2 : (p : ℚ) / wd.passes ≤ 1 := by rw [div_le_one hN]; exact hpN
      linarith
    rw [min_eq_left e100, max_eq_right e0]
    exact hnear

/-- C3 in the middle of pass 2 of 3 on the running session `busyApp`. -/
theorem stored_progress_formula_witness :
    busyApp.wipeInProgress = true ∧
    ∃ wd', (innerLoop 2 50 busyApp).app.wipeData = some wd' ∧
      wd'.progress =
        max 0 (min (jsAdd (jsMul (jsDiv (((2 : ℕ) : ℚ) - 1) (3 : ℕ)) 100) (jsDiv 50 (3 : ℕ)))
          100) := by
  obtain ⟨wd', h1, h2, -⟩ := stored_progress_formula 2 50 busyApp
    { newWipeData 1000 ⟨"dod", "quick", "normal"⟩ (some sampleDevice) dod with
      currentPass := 2, progress := 50 }
    rfl rfl (by decide) (by decide) (by norm_num) (by norm_num)
  exact ⟨rfl, wd', h1, h2⟩

/-! ### Termination of a simulation that is not stopped -/

theorem floor_toNat_facts {x : ℚ} (hx0 : 0 ≤ x) (hx : x ≤ 100) :
    ((⌊x⌋.toNat : ℕ) : ℚ) ≤ x ∧ ⌊x⌋.toNat ≤ 100 := by
  have hf0 : 0 ≤ ⌊x⌋ := Int.floor_nonneg.mpr hx0
  have hf : ⌊x⌋ ≤ 100 := by
    have h := Int.floor_mono hx
    have e : ⌊(100 : ℚ)⌋ = 100 := by norm_num
    rw [e] at h; exact h
  have e : ((⌊x⌋.toNat : ℕ) : ℤ) = ⌊x⌋ := Int.toNat_of_nonneg hf0
  constructor
  · have h0 : (((⌊x⌋.toNat : ℕ) : ℤ) : ℚ) = ((⌊x⌋ : ℤ) : ℚ) := by rw [e]
    have h1 : ((⌊x⌋.toNat : ℕ) : ℚ) = ((⌊x⌋ : ℤ) : ℚ) := by
      rw [← h0, Int.cast_natCast]
    rw [h1]; exact Int.floor_le x
  · omega

theorem succ_le_floor_toNat {n : ℕ} {y : ℚ} (h : ((n + 1 : ℕ) : ℚ) ≤ y) :
    n + 1 ≤ ⌊y⌋.toNat := by
  have h1 : ((n + 1 : ℕ) : ℤ) ≤ ⌊y⌋ := by
    rw [Int.le_floor]; exact_mod_cast h
  omega

theorem Completed_of_core {mode : Option String} {processed : ℕ} {c c' : Core}
    (h : c' = c) (hc : Completed mode processed c) : Completed mode processed c' := by
  rw [h]; exact hc

/-- One timer event on a simulation that is not stopped: it stays so, and the
bound on the events still needed goes down. -/
theorem live_step (passes : ℕ) (mode : Option String) (processed : ℕ) (m : Sim) (i : Input)
    (hI : Inv m) (hL : Live passes mode processed m) (hr : 0 ≤ i.random.value) :
    Live passes mode processed (resume i m) ∧
      stepsLeft passes (resume i m).pc ≤ stepsLeft passes m.pc - 1 := by
  obtain ⟨wd, hw, -, -, -, hpc⟩ := hI
  obtain ⟨⟨wd1, hw1, hN, hmode, hdev⟩, hlive⟩ := hL
  have hwd : wd1 = wd := by
    have : some wd1 = some wd := hw1.symm.trans hw
    exact Option.some.inj this
  subst hwd
  obtain ⟨s, pc⟩ := m
  simp only at hw hpc hlive hw1
  -- a step after which the core is unchanged
  have keep : ∀ m' : Sim, m'.app.core = s.core → m'.app.core.wipeData = some wd1 := by
    intro m' h
    rw [h]; exact hw
  cases pc with
  | notStarted => exact absurd hlive id
  | failed => exact absurd hlive id
  | finished =>
    exact ⟨⟨⟨wd1, hw, hN, hmode, hdev⟩, hlive⟩, by simp [resume, stepsLeft]⟩
  | navTimer =>
    obtain ⟨h1, h2⟩ := resume_navTimer_core i ⟨s, .navTimer⟩ rfl
    refine ⟨⟨⟨wd1, keep _ h2, hN, hmode, hdev⟩, ?_⟩, ?_⟩
    · rw [h1]; exact Completed_of_core h2 hlive
    · rw [h1]; simp [stepsLeft]
  | initDelay =>
    obtain ⟨hwip, hproc⟩ := hlive
    have hstep : resume i ⟨s, .initDelay⟩ = outerLoop 1 s := rfl
    rw [hstep]
    by_cases hle : 1 ≤ wd1.passes
    · obtain ⟨h1, h2⟩ := outerLoop_enter 1 s wd1 hw hle hwip
      refine ⟨⟨⟨_, congrArg Core.wipeData h2, hN, hmode, hdev⟩, ?_⟩, ?_⟩
      · rw [h1]
        exact ⟨(congrArg Core.wipeInProgress h2).trans hwip,
          (congrArg Core.devicesProcessed h2).trans hproc⟩
      · rw [h1]
        simp only [stepsLeft]
        have e : ⌊(0 : ℚ)⌋.toNat = 0 := by norm_num
        rw [e]; omega
    · obtain ⟨h1, h2⟩ := outerLoop_done 1 s wd1 hw hle hwip
      refine ⟨⟨⟨wd1, keep _ h2, hN, hmode, hdev⟩, ?_⟩, ?_⟩
      · rw [h1]
        exact ⟨(congrArg Core.wipeInProgress h2).trans hwip,
          (congrArg Core.devicesProcessed h2).trans hproc⟩
      · rw [h1]; simp only [stepsLeft]; omega
  | tickDelay p x =>
    obtain ⟨hwip, hproc⟩ := hlive
    obtain ⟨hp1, hpn, hx0, hx100, hfl, -⟩ := hpc
    have hstep : resume i ⟨s, .tickDelay p x⟩ =
        innerLoop p (nextProgress x i.random.value) s := rfl
    rw [hstep]
    obtain ⟨hn1, hn2⟩ := floor_toNat_facts hx0 hx100
    have hgrow := succ_le_floor_toNat
      (nextProgress_ge_succ ⌊x⌋.toNat (by norm_num; omega) hn1 hr)
    by_cases hx : nextProgress x i.random.value ≤ 100
    · obtain ⟨h1, h2⟩ := innerLoop_tick p (nextProgress x i.random.value) s wd1 hw hx hwip
      refine ⟨⟨⟨_, congrArg Core.wipeData h2, hN, hmode, hdev⟩, ?_⟩, ?_⟩
      · rw [h1]
        exact ⟨(congrArg Core.wipeInProgress h2).trans hwip,
          (congrArg Core.devicesProcessed h2).trans hproc⟩
      · rw [h1]; simp only [stepsLeft]; omega
    · obtain ⟨h1, h2⟩ := innerLoop_exit p (nextProgress x i.random.value) s wd1 hw hx hwip
      refine ⟨⟨⟨wd1, keep _ h2, hN, hmode, hdev⟩, ?_⟩, ?_⟩
      · rw [h1]
        exact ⟨(congrArg Core.wipeInProgress h2).trans hwip,
          (congrArg Core.devicesProcessed h2).trans hproc⟩
      · rw [h1]; simp only [stepsLeft]; omega
  | passDelay p =>
    obtain ⟨hwip, hproc⟩ := hlive
    obtain ⟨hp1, hpn, -⟩ := hpc
    have hstep : resume i ⟨s, .passDelay p⟩ = outerLoop (p + 1) s := rfl
    rw [hstep]
    by_cases hle : p + 1 ≤ wd1.passes
    · obtain ⟨h1, h2⟩ := outerLoop_enter (p + 1) s wd1 hw hle hwip
      refine ⟨⟨⟨_, congrArg Core.wipeData h2, hN, hmode, hdev⟩, ?_⟩, ?_⟩
      · rw [h1]
        exact ⟨(congrArg Core.wipeInProgress h2).trans hwip,
          (congrArg Core.devicesProcessed h2).trans hproc⟩
      · rw [h1]
        simp only [stepsLeft]
        have e : ⌊(0 : ℚ)⌋.toNat = 0 := by norm_num
        rw [e]; omega
    · obtain ⟨h1, h2⟩ := outerLoop_done (p + 1) s wd1 hw hle hwip
      refine ⟨⟨⟨wd1, keep _ h2, hN, hmode, hdev⟩, ?_⟩, ?_⟩
      · rw [h1]
        exact ⟨(congrArg Core.wipeInProgress h2).trans hwip,
          (congrArg Core.devicesProcessed h2).trans hproc⟩
      · rw [h1]; simp only [stepsLeft]; omega
  | verifyDelay =>
    obtain ⟨hwip, hproc⟩ := hlive
    obtain ⟨h1, h2⟩ := resume_verifyDelay_core i ⟨s, .verifyDelay⟩ wd1 rfl hw
    refine ⟨⟨⟨wd1, keep _ h2, hN, hmode, hdev⟩, ?_⟩, ?_⟩
    · rw [h1]
      exact ⟨(congrArg Core.wipeInProgress h2).trans hwip,
        (congrArg Core.devicesProcessed h2).trans hproc⟩
    · rw [h1]; simp [stepsLeft]
  | verifiedDelay =>
    obtain ⟨hwip, hproc⟩ := hlive
    obtain ⟨h1, h2⟩ := resume_verifiedDelay_core i ⟨s, .verifiedDelay⟩ rfl
    refine ⟨⟨⟨wd1, keep _ h2, hN, hmode, hdev⟩, ?_⟩, ?_⟩
    · rw [h1]
      exact ⟨(congrArg Core.wipeInProgress h2).trans hwip,
        (congrArg Core.devicesProcessed h2).trans hproc⟩
    · rw [h1]; simp [stepsLeft]
  | certDelay =>
    obtain ⟨hwip, hproc⟩ := hlive
    have hstep : resume i ⟨s, .certDelay⟩ = issueAndFinish i s := rfl
    rw [hstep]
    obtain ⟨d, hd⟩ := Option.ne_none_iff_exists'.mp hdev
    obtain ⟨h1, hc⟩ := issueAndFinish_core i s wd1 d hw hd
    refine ⟨⟨⟨_, congrArg Core.wipeData hc, hN, hmode, ?_⟩, ?_⟩, ?_⟩
    · exact hdev
    · rw [h1]
      refine ⟨congrArg Core.wipeInProgress hc, ?_, ⟨_, congrArg Core.wipeData hc, rfl⟩,
        _, congrArg Core.certificate hc, ?_⟩
      · rw [congrArg Core.devicesProcessed hc]
        have : s.devicesProcessed = processed := hproc
        simp only [this]
      · simp only [newCertificate, hmode]
    · rw [h1]; simp [stepsLeft]

theorem live_run (passes : ℕ) (mode : Option String) (processed : ℕ) (m : Sim)
    (hI : Inv m) (hL : Live passes mode processed m) (inputs : List Input)
    (hv : ∀ i ∈ inputs, 0 ≤ i.random.value ∧ i.random.value < 1) :
    Inv (m.run (inputs.map Event.resume)) ∧
    Live passes mode processed (m.run (inputs.map Event.resume)) ∧
    stepsLeft passes (m.run (inputs.map Event.resume)).pc ≤
      stepsLeft passes m.pc - inputs.length := by
  induction inputs using List.reverseRecOn with
  | nil => exact ⟨hI, hL, by simp [Sim.run]⟩
  | append_singleton is i ih =>
    obtain ⟨h1, h2, h3⟩ := ih (fun j hj => hv j (by simp [hj]))
    rw [List.map_append, List.map_singleton, Sim.run_append]
    have hi := hv i (by simp)
    obtain ⟨g1, g2⟩ := live_step passes mode processed _ i h1 h2 hi.1
    refine ⟨(step_spec _ (.resume i) h1 hi).1, g1, ?_⟩
    have e : (m.run (is.map Event.resume)).step (.resume i) =
        resume i (m.run (is.map Event.resume)) := rfl
    rw [e, List.length_append, List.length_singleton]
    omega

/-! ### Completion of a one-pass session -/

theorem Live_start (now : ℕ) (form : WipeForm) (s : App) (S : WipeStandard) (d : Device)
    (hS : lookupStandard s.wipeStandards form.standardKey = some S)
    (hd : s.selectedDevice = some d) :
    Live S.passes (some form.verification) s.devicesProcessed
      (startSecureWipe now form s).sim := by
  obtain ⟨-, hpc, hwip, -, hproc⟩ := startSecureWipe_ok now form s S d hS hd
  have hw := startSecureWipe_wipeData now form s S hS
  refine ⟨⟨_, hw, rfl, rfl, ?_⟩, ?_⟩
  · rw [hd]; simp [newWipeData]
  · rw [hpc]; exact ⟨hwip, hproc⟩

/-- C9: a session started with a one-pass standard and verification mode
`none`, and never stopped, runs to completion: after at most 109 timer events,
whatever the draws, simulateSecureWipe has returned, a certificate is issued
with verificationStatus "Skipped", wipeData.progress is 100, wipeInProgress is
false and devicesProcessed has grown by one. -/
theorem one_pass_session_completes (now : ℕ) (form : WipeForm) (s : App) (S : WipeStandard)
    (d : Device) (hS : lookupStandard s.wipeStandards form.standardKey = some S)
    (hd : s.selectedDevice = some d) (hpass : S.passes = 1)
    (hmode : form.verification = "none") (inputs : List Input)
    (hv : ∀ i ∈ inputs, 0 ≤ i.random.value ∧ i.random.value < 1)
    (hlen : 109 ≤ inputs.length) :
    ((startSecureWipe now form s).sim.run (inputs.map Event.resume)).pc = .finished ∧
    ((startSecureWipe now form s).sim.run (inputs.map Event.resume)).app.wipeInProgress
      = false ∧
    ((startSecureWipe now form s).sim.run (inputs.map Event.resume)).app.devicesProcessed
      = s.devicesProcessed + 1 ∧
    (∃ wd, ((startSecureWipe now form s).sim.run (inputs.map Event.resume)).app.wipeData
      = some wd ∧ wd.progress = 100) ∧
    ∃ c, ((startSecureWipe now form s).sim.run (inputs.map Event.resume)).app.certificate
      = some c ∧ c.verificationStatus = "Skipped" := by
  have hI := Inv_start now form s S d hS hd
  have hL := Live_start now form s S d hS hd
  obtain ⟨-, hpc0, -⟩ := startSecureWipe_ok now form s S d hS hd
  obtain ⟨-, ⟨-, hlive⟩, hsteps⟩ :=
    live_run S.passes (some form.verification) s.devicesProcessed _ hI hL inputs hv
  rw [hpc0] at hsteps
  generalize (startSecureWipe now form s).sim.run (inputs.map Event.resume) = m
    at hlive hsteps
  have hzero : stepsLeft S.passes m.pc = 0 := by
    have e : stepsLeft S.passes Pc.initDelay = 109 := by rw [hpass]; rfl
    rw [e] at hsteps
    omega
  obtain ⟨app, pc⟩ := m
  simp only at hlive hzero
  cases pc with
  | finished =>
    obtain ⟨h1, h2, h3, c, h4, h5⟩ := hlive
    refine ⟨rfl, h1, h2, h3, c, h4, ?_⟩
    rw [h5, hmode]; rfl
  | notStarted => exact absurd hlive id
  | failed => exact absurd hlive id
  | initDelay => simp [stepsLeft] at hzero
  | tickDelay p x => simp [stepsLeft] at hzero
  | passDelay p => simp [stepsLeft] at hzero
  | verifyDelay => simp [stepsLeft] at hzero
  | verifiedDelay => simp [stepsLeft] at hzero
  | certDelay => simp [stepsLeft] at hzero
  | navTimer => simp [stepsLeft] at hzero

/-- C9 on the catalog's one-pass standard, every draw being one half. -/
theorem one_pass_session_completes_witness :
    lookupStandard readyApp.wipeStandards "nist" = some nist ∧
    readyApp.selectedDevice = some sampleDevice ∧ nist.passes = 1 ∧
    (∀ i ∈ List.replicate 109 tickOfHalf, 0 ≤ i.random.value ∧ i.random.value < 1) ∧
    109 ≤ (List.replicate 109 tickOfHalf).length ∧
    ((startSecureWipe 0 ⟨"nist", "none", "normal"⟩ readyApp).sim.run
      ((List.replicate 109 tickOfHalf).map Event.resume)).pc = .finished ∧
    ∃ c, ((startSecureWipe 0 ⟨"nist", "none", "normal"⟩ readyApp).sim.run
      ((List.replicate 109 tickOfHalf).map Event.resume)).app.certificate = some c ∧
      c.verificationStatus = "Skipped" := by
  have hall : ∀ i ∈ List.replicate 109 tickOfHalf,
      0 ≤ i.random.value ∧ i.random.value < 1 := by
    intro i hi
    rw [List.eq_of_mem_replicate hi]
    norm_num [tickOfHalf]
  have h := one_pass_session_completes 0 ⟨"nist", "none", "normal"⟩ readyApp nist sampleDevice
    (by decide) rfl rfl rfl (List.replicate 109 tickOfHalf) hall (by simp)
  exact ⟨by decide, rfl, rfl, hall, by simp, h.1, h.2.2.2.2⟩

/-! ### The emergency stop, twice -/

theorem emergencyStop_auditLog (now : ℕ) (s : App) :
    (emergencyStop now s).auditLog = pushCapped s.auditLog (stopEntry now) := rfl

theorem emergencyStop_progressLog (now : ℕ) (s : App) :
    (emergencyStop now s).progressLog = s.progressLog ++ [stopLine] := rfl

theorem pushCapped_length_of_lt (log : List AuditEntry) (entry : AuditEntry)
    (h : log.length < 100) : (pushCapped log entry).length = log.length + 1 := by
  unfold pushCapped
  simp only [List.length_append, List.length_singleton]
  rw [if_neg (by omega)]
  simp

theorem pushCapped_getLast (log : List AuditEntry) (entry : AuditEntry) :
    (pushCapped log entry).getLast? = some entry := by
  rw [pushCapped_eq_sliceLast]
  unfold sliceLast
  rw [List.getLast?_drop, if_neg (by simp; omega)]
  simp

/-- C11 (as stated, refuted): on a running session a second emergencyStop is
not a no-op; the audit log changes again and holds two error entries. -/
theorem second_stop_logs_again :
    (emergencyStop 2 (emergencyStop 1 busyApp)).auditLog ≠
      (emergencyStop 1 busyApp).auditLog ∧
    (emergencyStop 1 busyApp).auditLog = [stopEntry 1] ∧
    (emergencyStop 2 (emergencyStop 1 busyApp)).auditLog = [stopEntry 1, stopEntry 2] ∧
    ((emergencyStop 2 (emergencyStop 1 busyApp)).auditLog.filter
      (fun e => e.type == "error")).length = 2 := by
  have h1 : (emergencyStop 1 busyApp).auditLog = [stopEntry 1] := by
    rw [emergencyStop_auditLog]; rfl
  have h2 : (emergencyStop 2 (emergencyStop 1 busyApp)).auditLog =
      [stopEntry 1, stopEntry 2] := by
    rw [emergencyStop_auditLog, h1]; rfl
  refine ⟨?_, h1, h2, ?_⟩
  · rw [h1, h2]; simp
  · rw [h2]; rfl

/-- C11 (amended): emergencyStop is idempotent on the session state only.
Every call sets wipeInProgress to false and leaves the session record, the
counters and the certificate as they are, so a second call changes none of
them; but every call appends one error entry to the audit log (and one line
to the progress log), so two calls leave two error entries, the newest
last. -/
theorem stop_twice_same_state_two_entries (now1 now2 : ℕ) (s : App) :
    (emergencyStop now1 s).wipeInProgress = false ∧
    (emergencyStop now2 (emergencyStop now1 s)).core = (emergencyStop now1 s).core ∧
    (emergencyStop now2 (emergencyStop now1 s)).devices = (emergencyStop now1 s).devices ∧
    (emergencyStop now2 (emergencyStop now1 s)).auditLog =
      pushCapped (pushCapped s.auditLog (stopEntry now1)) (stopEntry now2) ∧
    (emergencyStop now2 (emergencyStop now1 s)).auditLog.getLast? = some (stopEntry now2) ∧
    (emergencyStop now2 (emergencyStop now1 s)).progressLog =
      s.progressLog ++ [stopLine] ++ [stopLine] ∧
    (s.auditLog.length + 2 ≤ 100 →
      (emergencyStop now2 (emergencyStop now1 s)).auditLog.length = s.auditLog.length + 2) := by
  refine ⟨rfl, rfl, rfl, rfl, ?_, rfl, ?_⟩
  · rw [emergencyStop_auditLog]; exact pushCapped_getLast _ _
  · intro h
    rw [emergencyStop_auditLog, emergencyStop_auditLog,
      pushCapped_length_of_lt _ _ (by rw [pushCapped_length_of_lt _ _ (by omega)]; omega),
      pushCapped_length_of_lt _ _ (by omega)]

/-- C11 (amended) on the running session `busyApp`. -/
theorem stop_twice_same_state_two_entries_witness :
    busyApp.auditLog.length + 2 ≤ 100 ∧
    (emergencyStop 2 (emergencyStop 1 busyApp)).auditLog.length = busyApp.auditLog.length + 2 :=
  ⟨by decide, (stop_twice_same_state_two_entries 1 2 busyApp).2.2.2.2.2.2 (by decide)⟩

/-! ### What a step of the simulation leaves alone -/

theorem sameButSession_refl (s : App) : s.sameButSession s := by
  unfold App.sameButSession; rfl

theorem sameButSession_trans {a b c : App} (h1 : a.sameButSession b)
    (h2 : b.sameButSession c) : a.sameButSession c := by
  unfold App.sameButSession at *
  rw [h2, h1]

theorem sameButSession_addProgressLog (message type : String) (s : App) :
    s.sameButSession (addProgressLog message type s) := by
  unfold App.sameButSession addProgressLog; rfl

theorem sameButSession_setWipeData (f : WipeData → WipeData) (s : App) :
    s.sameButSession (setWipeData f s) := by
  unfold App.sameButSession setWipeData; rfl

theorem sameButSession_afterLoops (s : App) : s.sameButSession (afterLoops s).app := by
  unfold afterLoops
  split_ifs
  · exact sameButSession_addProgressLog _ _ _
  · exact sameButSession_refl _

theorem sameButSession_innerLoop (p : ℕ) (x : ℚ) (s : App) :
    s.sameButSession (innerLoop p x s).app := by
  unfold innerLoop
  split
  · exact sameButSession_refl _
  · simp only []
    split_ifs
    · exact sameButSession_trans (sameButSession_setWipeData _ _)
        (sameButSession_addProgressLog _ _ _)
    · exact sameButSession_setWipeData _ _
    · exact sameButSession_addProgressLog _ _ _
    · exact sameButSession_refl _

theorem sameButSession_outerLoop (p : ℕ) (s : App) :
    s.sameButSession (outerLoop p s).app := by
  unfold outerLoop
  split
  · exact sameButSession_refl _
  · simp only []
    split_ifs
    · exact sameButSession_trans
        (sameButSession_trans (sameButSession_setWipeData _ _)
          (sameButSession_addProgressLog _ _ _))
        (sameButSession_innerLoop _ _ _)
    · exact sameButSession_afterLoops _

/-- A timer event that is neither the completing step nor the final
navigation changes the session record and the progress log only. -/
theorem sameButSession_resume (i : Input) (m : Sim) (h1 : m.pc ≠ .certDelay)
    (h2 : m.pc ≠ .navTimer) : m.app.sameButSession (resume i m).app := by
  obtain ⟨s, pc⟩ := m
  cases pc with
  | notStarted => exact sameButSession_refl _
  | initDelay => exact sameButSession_outerLoop _ _
  | tickDelay p x => exact sameButSession_innerLoop _ _ _
  | passDelay p => exact sameButSession_outerLoop _ _
  | verifyDelay =>
    simp only [resume]
    split
    · exact sameButSession_refl _
    · simp only []
      split_ifs
      · exact sameButSession_addProgressLog _ _ _
      · exact sameButSession_addProgressLog _ _ _
      · exact sameButSession_refl _
  | verifiedDelay => exact sameButSession_addProgressLog _ _ _
  | certDelay => exact absurd rfl h1
  | navTimer => exact absurd rfl h2
  | finished => exact sameButSession_refl _
  | failed => exact sameButSession_refl _

theorem sameButSession_auditLog {s s1 : App} (h : s.sameButSession s1) :
    s1.auditLog = s.auditLog := by
  unfold App.sameButSession at h; rw [h]

theorem sameButSession_counters {s s1 : App} (h : s.sameButSession s1) :
    s1.wipeInProgress = s.wipeInProgress ∧ s1.certificate = s.certificate ∧
    s1.certificatesIssued = s.certificatesIssued ∧
    s1.devicesProcessed = s.devicesProcessed ∧ s1.operationCount = s.operationCount := by
  unfold App.sameButSession at h
  refine ⟨?_, ?_, ?_, ?_, ?_⟩ <;> rw [h]

theorem sameButSession_static {s s1 : App} (h : s.sameButSession s1) :
    s1.wipeStandards = s.wipeStandards ∧ s1.selectedDevice = s.selectedDevice ∧
    s1.devices = s.devices ∧ s1.currentView = s.currentView := by
  unfold App.sameButSession at h
  refine ⟨?_, ?_, ?_, ?_⟩ <;> rw [h]

/-! ### The catalog and the selection are never written -/

theorem addAuditEntry_static (now : ℕ) (message type : String) (s : App) :
    (addAuditEntry now message type s).wipeStandards = s.wipeStandards ∧
    (addAuditEntry now message type s).selectedDevice = s.selectedDevice := ⟨rfl, rfl⟩

theorem navigateTo_static (now : ℕ) (view : String) (s : App) :
    (navigateTo now view s).wipeStandards = s.wipeStandards ∧
    (navigateTo now view s).selectedDevice = s.selectedDevice := by
  unfold navigateTo
  simp only [addAuditEntry_static]
  split_ifs <;> exact ⟨rfl, rfl⟩

theorem generateComplianceCertificate_static (now : ℕ) (random36 : String) (s : App) :
    (generateComplianceCertificate now random36 s).1.wipeStandards = s.wipeStandards ∧
    (generateComplianceCertificate now random36 s).1.selectedDevice = s.selectedDevice := by
  unfold generateComplianceCertificate
  split
  · exact ⟨rfl, rfl⟩
  · simp only []
    split <;> exact ⟨rfl, rfl⟩

theorem issueAndFinish_static (i : Input) (s : App) :
    (issueAndFinish i s).app.wipeStandards = s.wipeStandards ∧
    (issueAndFinish i s).app.selectedDevice = s.selectedDevice := by
  have hs := generateComplianceCertificate_static i.now i.random.base36 s
  unfold issueAndFinish
  generalize generateComplianceCertificate i.now i.random.base36 s = r at hs ⊢
  obtain ⟨s1, e⟩ := r
  cases e with
  | some _ => exact hs
  | none =>
    simp only []
    split <;> exact hs

theorem resume_static (i : Input) (m : Sim) :
    (resume i m).app.wipeStandards = m.app.wipeStandards ∧
    (resume i m).app.selectedDevice = m.app.selectedDevice := by
  by_cases h1 : m.pc = .certDelay
  · unfold resume; rw [h1]; exact issueAndFinish_static _ _
  · by_cases h2 : m.pc = .navTimer
    · unfold resume; rw [h2]; exact navigateTo_static _ _ _
    · have h := sameButSession_static (sameButSession_resume i m h1 h2)
      exact ⟨h.1, h.2.1⟩

theorem step_static (m : Sim) (e : Event) :
    (m.step e).app.wipeStandards = m.app.wipeStandards ∧
    (m.step e).app.selectedDevice = m.app.selectedDevice := by
  cases e with
  | resume i => exact resume_static i m
  | emergencyStop now => exact ⟨rfl, rfl⟩

theorem run_static (events : List Event) (m : Sim) :
    (m.run events).app.wipeStandards = m.app.wipeStandards ∧
    (m.run events).app.selectedDevice = m.app.selectedDevice := by
  induction events generalizing m with
  | nil => exact ⟨rfl, rfl⟩
  | cons e rest ih =>
    have h := ih (m.step e)
    have h1 := step_static m e
    exact ⟨h.1.trans h1.1, h.2.trans h1.2⟩

theorem sameButSession_simulateSecureWipe (s : App) :
    s.sameButSession (simulateSecureWipe s).app := by
  unfold simulateSecureWipe
  split
  · exact sameButSession_refl _
  · simp only []
    split
    · exact sameButSession_addProgressLog _ _ _
    · exact sameButSession_trans (sameButSession_trans (sameButSession_trans
        (sameButSession_trans (sameButSession_addProgressLog _ _ _)
          (sameButSession_addProgressLog _ _ _)) (sameButSession_addProgressLog _ _ _))
        (sameButSession_addProgressLog _ _ _)) (sameButSession_addProgressLog _ _ _)

theorem simulateSecureWipe_static (s : App) :
    (simulateSecureWipe s).app.wipeStandards = s.wipeStandards ∧
    (simulateSecureWipe s).app.selectedDevice = s.selectedDevice := by
  have h := sameButSession_static (sameButSession_simulateSecureWipe s)
  exact ⟨h.1, h.2.1⟩

theorem startSecureWipe_static (now : ℕ) (form : WipeForm) (s : App) :
    (startSecureWipe now form s).sim.app.wipeStandards = s.wipeStandards ∧
    (startSecureWipe now form s).sim.app.selectedDevice = s.selectedDevice := by
  unfold startSecureWipe
  cases lookupStandard s.wipeStandards form.standardKey with
  | none =>
    simp only []
    split_ifs <;> exact ⟨rfl, rfl⟩
  | some S =>
    simp only []
    split
    · rw [(simulateSecureWipe_static _).1, (simulateSecureWipe_static _).2,
        (navigateTo_static _ _ _).1, (navigateTo_static _ _ _).2]
      exact ⟨rfl, rfl⟩
    · simp only [addAuditEntry_static]
      rw [(simulateSecureWipe_static _).1, (simulateSecureWipe_static _).2,
        (navigateTo_static _ _ _).1, (navigateTo_static _ _ _).2]
      exact ⟨rfl, rfl⟩

/-! ### What each step appends to the progress log -/

theorem innerLoop_tick_log (p : ℕ) (x : ℚ) (s : App) (wd : WipeData)
    (hw : s.wipeData = some wd) (hx : x ≤ 100) (hp : s.wipeInProgress = true) :
    (innerLoop p x s).app.progressLog =
      s.progressLog ++
        (if ⌊x⌋ % 25 = 0 ∧ 0 < x then [milestoneEntry p ⌊x⌋ wd.standard.pattern] else []) := by
  unfold innerLoop
  simp only [hw, hx, hp, and_self, if_true]
  split_ifs
  · rfl
  · exact (List.append_nil _).symm

theorem innerLoop_exit_log (p : ℕ) (x : ℚ) (s : App) (wd : WipeData)
    (hw : s.wipeData = some wd) (hx : ¬ x ≤ 100) (hp : s.wipeInProgress = true) :
    (innerLoop p x s).app.progressLog = s.progressLog ++ [passDoneEntry p] := by
  unfold innerLoop
  simp only [hw, hx, hp, false_and, if_false, if_true]
  rfl

theorem outerLoop_enter_log (p : ℕ) (s : App) (wd : WipeData)
    (hw : s.wipeData = some wd) (hle : p ≤ wd.passes) (hp : s.wipeInProgress = true) :
    (outerLoop p s).app.progressLog = s.progressLog ++ [passStartEntry p wd.passes] := by
  unfold outerLoop
  simp only [hw, hle, hp, and_self, if_true]
  rw [innerLoop_tick_log p 0 _ { wd with currentPass := p } (by simp [setWipeData, addProgressLog, hw])
    (by norm_num) (by simp [setWipeData, addProgressLog, hp])]
  simp only [lt_self_iff_false, and_false, if_false, List.append_nil]
  rfl

theorem passInv_innerLoop (p : ℕ) (x : ℚ) (s : App)
    (h : ∀ wd, s.wipeData = some wd → wd.currentPass = p) : PassInv (innerLoop p x s) := by
  intro wd1 hw1
  cases hw : s.wipeData with
  | none =>
    have e : innerLoop p x s = ⟨s, .failed⟩ := by unfold innerLoop; simp only [hw]
    rw [e]; trivial
  | some wd =>
    cases hp : s.wipeInProgress with
    | false => rw [innerLoop_stopped p x s wd hw hp]; trivial
    | true =>
      by_cases hx : x ≤ 100
      · obtain ⟨hpc, hc⟩ := innerLoop_tick p x s wd hw hx hp
        have e := wipeData_of_core hc
        rw [hw1] at e
        simp only [Option.some.injEq] at e
        rw [hpc, e]
        exact h wd hw
      · obtain ⟨hpc, hc⟩ := innerLoop_exit p x s wd hw hx hp
        have e := wipeData_of_core hc
        rw [hw1] at e
        have e1 : s.core.wipeData = some wd := hw
        rw [e1] at e
        simp only [Option.some.injEq] at e
        rw [hpc, e]
        exact h wd hw

theorem passInv_outerLoop (p : ℕ) (s : App) : PassInv (outerLoop p s) := by
  intro wd1 hw1
  cases hw : s.wipeData with
  | none =>
    have e : outerLoop p s = ⟨s, .failed⟩ := by unfold outerLoop; simp only [hw]
    rw [e]; trivial
  | some wd =>
    cases hp : s.wipeInProgress with
    | false => rw [outerLoop_stopped p s wd hw hp]; trivial
    | true =>
      by_cases hle : p ≤ wd.passes
      · obtain ⟨hpc, hc⟩ := outerLoop_enter p s wd hw hle hp
        have e := wipeData_of_core hc
        rw [hw1] at e
        simp only [Option.some.injEq] at e
        rw [hpc, e]
      · rw [(outerLoop_done p s wd hw hle hp).1]; trivial

theorem passInv_step (m : Sim) (e : Event) (h : PassInv m) : PassInv (m.step e) := by
  obtain ⟨s, pc⟩ := m
  cases e with
  | emergencyStop now => exact h
  | resume i =>
    cases pc with
    | notStarted => exact h
    | initDelay => exact passInv_outerLoop _ _
    | tickDelay p x => exact passInv_innerLoop _ _ _ h
    | passDelay p => exact passInv_outerLoop _ _
    | verifyDelay =>
      intro wd hw
      have : (resume i ⟨s, .verifyDelay⟩).pc = .verifiedDelay ∨
          (resume i ⟨s, .verifyDelay⟩).pc = .failed := by
        simp only [resume]
        split
        · exact Or.inr rfl
        · exact Or.inl rfl
      simp only [Sim.step]
      rcases this with h1 | h1 <;> rw [h1] <;> trivial
    | verifiedDelay => intro wd hw; trivial
    | certDelay =>
      intro wd hw
      have : (issueAndFinish i s).pc = .navTimer ∨ (issueAndFinish i s).pc = .failed := by
        unfold issueAndFinish
        generalize generateComplianceCertificate i.now i.random.base36 s = r
        obtain ⟨s1, e⟩ := r
        cases e with
        | some _ => exact Or.inr rfl
        | none =>
          simp only []
          split
          · exact Or.inr rfl
          · exact Or.inl rfl
      simp only [Sim.step, resume]
      rcases this with h1 | h1 <;> rw [h1] <;> trivial
    | navTimer => intro wd hw; trivial
    | finished => exact h
    | failed => exact h

theorem passInv_run (events : List Event) (m : Sim) (h : PassInv m) :
    PassInv (m.run events) := by
  induction events generalizing m with
  | nil => exact h
  | cons e rest ih => exact ih (m.step e) (passInv_step m e h)


/-! ### After an emergency stop -/

/-- Without a new session in between, the timer that was pending when
`emergencyStop` returned during the pass loops finds `wipeInProgress` false:
the simulation returns and the application is left as it was. -/
theorem stopped_timer_leaves_app (i : Input) (m : Sim) (wd : WipeData)
    (hw : m.app.wipeData = some wd) (hp : m.app.wipeInProgress = false)
    (hpc : m.pc = .initDelay ∨ (∃ p x, m.pc = .tickDelay p x) ∨ ∃ p, m.pc = .passDelay p) :
    resume i m = ⟨m.app, .finished⟩ := by
  obtain ⟨s, pc⟩ := m
  rcases hpc with h | ⟨p, x, h⟩ | ⟨p, h⟩
  · simp only at h; subst h
    exact outerLoop_stopped 1 s wd hw hp
  · simp only at h; subst h
    exact innerLoop_stopped p _ s wd hw hp
  · simp only at h; subst h
    exact outerLoop_stopped (p + 1) s wd hw hp

theorem firstPassDone_facts :
    firstPassDone.pc = .passDelay 1 ∧ firstPassDone.app.wipeInProgress = true ∧
    firstPassDone.app.wipeStandards = wipeStandards ∧
    firstPassDone.app.selectedDevice = some sampleDevice ∧
    ∃ wd, firstPassDone.app.wipeData = some wd ∧ wd.passes = 3 ∧
      wd.progress = overallProgress 1 3 100 ∧ wd.currentPass = 1 := by
  have h := end_of_first_pass
  have hs := run_static (List.replicate 27 tickOfFour) threePassStart
  have h0 := startSecureWipe_static 0 ⟨"dod", "none", "normal"⟩ readyApp
  have hI : PassInv threePassStart := by
    intro wd _
    rw [threePassStart_facts.1]
    trivial
  have hI1 := passInv_run (List.replicate 27 tickOfFour) threePassStart hI
  obtain ⟨hpc, hwip, wd, hw, h3, hprog⟩ := h
  refine ⟨hpc, hwip, ?_, ?_, wd, hw, h3, hprog, ?_⟩
  · exact hs.1.trans h0.1
  · exact hs.2.trans h0.2
  · have := hI1 wd hw
    rw [hpc] at this
    exact this

theorem restartedApp_facts :
    (startSecureWipe 2 ⟨"nist", "none", "normal"⟩ (emergencyStop 1 firstPassDone.app)).error
      = none ∧
    restartedApp.wipeInProgress = true ∧
    restartedApp.wipeData =
      some (newWipeData 2 ⟨"nist", "none", "normal"⟩ (some sampleDevice) nist) := by
  obtain ⟨_, _, hS, hd, _⟩ := firstPassDone_facts
  have hS1 : lookupStandard (emergencyStop 1 firstPassDone.app).wipeStandards
      (WipeForm.mk "nist" "none" "normal").standardKey = some nist := by
    have : (emergencyStop 1 firstPassDone.app).wipeStandards = wipeStandards := hS
    rw [this]; decide
  have hd1 : (emergencyStop 1 firstPassDone.app).selectedDevice = some sampleDevice := hd
  have h := startSecureWipe_ok 2 ⟨"nist", "none", "normal"⟩ _ nist sampleDevice hS1 hd1
  have hw := startSecureWipe_wipeData 2 ⟨"nist", "none", "normal"⟩ _ nist hS1
  rw [hd1] at hw
  exact ⟨h.1, h.2.2.1, hw⟩

/-- C12 (the code at the failing input): a three-pass session is stopped
while it waits between pass 1 and pass 2, and a new session is started before
that timer fires.  The new start sets the shared flag `wipeInProgress` again,
so the stopped simulation, when its timer fires, goes on: it advances
`currentPass` of its own record to 2, writes a progress value to it and
appends the line of pass 2 to the progress log. -/
theorem stopped_simulation_goes_on_after_restart :
    firstPassDone.pc = .passDelay 1 ∧
    (emergencyStop 1 firstPassDone.app).wipeInProgress = false ∧
    ∃ own, (emergencyStop 1 firstPassDone.app).wipeData = some own ∧
      own.currentPass = 1 ∧
      (resumeDetached tickOfHalf own firstPassDone.pc restartedApp).1.currentPass = 2 ∧
      (resumeDetached tickOfHalf own firstPassDone.pc restartedApp).1.progress =
        4691249611844266 / 2 ^ 47 ∧
      (resumeDetached tickOfHalf own firstPassDone.pc restartedApp).1.progress ≠ own.progress ∧
      (resumeDetached tickOfHalf own firstPassDone.pc restartedApp).2.pc = .tickDelay 2 0 ∧
      (resumeDetached tickOfHalf own firstPassDone.pc restartedApp).2.app.progressLog =
        restartedApp.progressLog ++ [passStartEntry 2 3] := by
  obtain ⟨hpc, _, _, _, wd, hw, h3, hprog, hcp⟩ := firstPassDone_facts
  obtain ⟨_, hwip, _⟩ := restartedApp_facts
  refine ⟨hpc, rfl, wd, ?_, hcp, ?_⟩
  · simp only [emergencyStop, addAuditEntry_wipeData, addProgressLog_wipeData]
    exact hw
  have hle : 2 ≤ wd.passes := by rw [h3]; norm_num
  have hw1 : ({ restartedApp with wipeData := some wd } : App).wipeData = some wd := rfl
  obtain ⟨hpc1, hc1⟩ := outerLoop_enter 2 { restartedApp with wipeData := some wd } wd hw1 hle hwip
  have hlog := outerLoop_enter_log 2 { restartedApp with wipeData := some wd } wd hw1 hle hwip
  have hwd := wipeData_of_core hc1
  have key : resumeDetached tickOfHalf wd firstPassDone.pc restartedApp =
      ((outerLoop 2 { restartedApp with wipeData := some wd }).app.wipeData.getD wd,
        ⟨{ (outerLoop 2 { restartedApp with wipeData := some wd }).app with
            wipeData := restartedApp.wipeData },
          (outerLoop 2 { restartedApp with wipeData := some wd }).pc⟩) := by
    rw [hpc]; rfl
  rw [key, hwd]
  simp only [Option.getD_some]
  rw [h3, overallProgress_start_of_second, hprog, overallProgress_end_of_first]
  refine ⟨trivial, rfl, by norm_num, hpc1, ?_⟩
  rw [hlog, h3]

/-! ### A run in which every increment is 4 -/

theorem running_init (S : WipeStandard) (d : Device) (log : List LogEntry) (m : Sim)
    (h : Running S d .initDelay log m) (hS : 1 ≤ S.passes) :
    Running S d (.tickDelay 1 0) (log ++ [passStartEntry 1 S.passes]) (m.step tickOfFour) := by
  obtain ⟨hpc, hwip, hlog, wd, hw, hstd, hpasses, hdev⟩ := h
  have e : m.step tickOfFour = outerLoop 1 m.app := by
    simp only [Sim.step, tickOfFour, resume, hpc]
  have hle : 1 ≤ wd.passes := by rw [hpasses]; exact hS
  obtain ⟨h1, h2⟩ := outerLoop_enter 1 m.app wd hw hle hwip
  have h3 := outerLoop_enter_log 1 m.app wd hw hle hwip
  rw [e]
  refine ⟨h1, ?_, ?_, _, wipeData_of_core h2, hstd, hpasses, hdev⟩
  · have := congrArg Core.wipeInProgress h2
    exact this.trans hwip
  · rw [h3, hlog, hpasses]

theorem running_tick (S : WipeStandard) (d : Device) (p k : ℕ) (log : List LogEntry) (m : Sim)
    (h : Running S d (.tickDelay p ((4 * k : ℕ) : ℚ)) log m) (hk : k < 25) :
    Running S d (.tickDelay p ((4 * (k + 1) : ℕ) : ℚ))
      (log ++ if k + 1 = 25 then [milestoneEntry p 100 S.pattern] else [])
      (m.step tickOfFour) := by
  obtain ⟨hpc, hwip, hlog, wd, hw, hstd, hpasses, hdev⟩ := h
  have e : m.step tickOfFour = innerLoop p ((4 * (k + 1) : ℕ) : ℚ) m.app := by
    simp only [Sim.step, tickOfFour, resume, hpc]
    rw [nextProgress_four k (by omega)]
  have hx : (((4 * (k + 1) : ℕ) : ℚ)) ≤ 100 := by
    have : 4 * (k + 1) ≤ 100 := by omega
    exact_mod_cast this
  obtain ⟨h1, h2⟩ := innerLoop_tick p _ m.app wd hw hx hwip
  have h3 := innerLoop_tick_log p _ m.app wd hw hx hwip
  rw [e]
  refine ⟨h1, ?_, ?_, _, wipeData_of_core h2, hstd, hpasses, hdev⟩
  · have := congrArg Core.wipeInProgress h2
    exact this.trans hwip
  · rw [h3, hlog, hstd, Int.floor_natCast]
    have hpos : (0 : ℚ) < ((4 * (k + 1) : ℕ) : ℚ) := by
      have : 0 < 4 * (k + 1) := by omega
      exact_mod_cast this
    by_cases h25 : k + 1 = 25
    · subst_vars
      have hk24 : k = 24 := by omega
      subst hk24
      simp
    · have hmod : ¬ ((4 * (k + 1) : ℕ) : ℤ) % 25 = 0 := by
        push_cast
        omega
      rw [if_neg (fun hc => hmod hc.1), if_neg h25]

theorem running_exit (S : WipeStandard) (d : Device) (p : ℕ) (log : List LogEntry) (m : Sim)
    (h : Running S d (.tickDelay p ((4 * 25 : ℕ) : ℚ)) log m) :
    Running S d (.passDelay p) (log ++ [passDoneEntry p]) (m.step tickOfFour) := by
  obtain ⟨hpc, hwip, hlog, wd, hw, hstd, hpasses, hdev⟩ := h
  have e : m.step tickOfFour = innerLoop p ((4 * (25 + 1) : ℕ) : ℚ) m.app := by
    simp only [Sim.step, tickOfFour, resume, hpc]
    rw [nextProgress_four 25 (le_refl _)]
  have hx : ¬ (((4 * (25 + 1) : ℕ) : ℚ)) ≤ 100 := by norm_num
  obtain ⟨h1, h2⟩ := innerLoop_exit p _ m.app wd hw hx hwip
  have h3 := innerLoop_exit_log p _ m.app wd hw hx hwip
  rw [e]
  refine ⟨h1, ?_, ?_, wd, ?_, hstd, hpasses, hdev⟩
  · have := congrArg Core.wipeInProgress h2
    exact this.trans hwip
  · rw [h3, hlog]
  · exact (wipeData_of_core h2).trans hw

theorem running_ticks (S : WipeStandard) (d : Device) (p : ℕ) (log : List LogEntry) (m : Sim)
    (h : Running S d (.tickDelay p 0) log m) (k : ℕ) (hk : k < 25) :
    Running S d (.tickDelay p ((4 * k : ℕ) : ℚ)) log (m.run (List.replicate k tickOfFour)) := by
  induction k with
  | zero => simpa [Sim.run] using h
  | succ k ih =>
    rw [List.replicate_succ', Sim.run_append]
    have h1 := running_tick S d p k log _ (ih (by omega)) (by omega)
    rw [if_neg (by omega), List.append_nil] at h1
    exact h1

/-- One whole pass in which every draw is three quarters: the loop variable
takes the values 0, 4, ..., 100, and the pass adds two lines to the progress
log, the milestone of 100% and the completion of the pass. -/
theorem running_pass (S : WipeStandard) (d : Device) (p : ℕ) (log : List LogEntry) (m : Sim)
    (h : Running S d (.tickDelay p 0) log m) :
    Running S d (.passDelay p) (log ++ [milestoneEntry p 100 S.pattern, passDoneEntry p])
      (m.run (List.replicate 26 tickOfFour)) := by
  have h24 := running_ticks S d p log m h 24 (by norm_num)
  have h25 := running_tick S d p 24 log _ h24 (by norm_num)
  rw [if_pos rfl] at h25
  have h26 := running_exit S d p _ _ h25
  have e : List.replicate 26 tickOfFour = List.replicate 24 tickOfFour ++ [tickOfFour] ++
      [tickOfFour] := rfl
  rw [e, Sim.run_append, Sim.run_append]
  simpa using h26

theorem running_last_pass (S : WipeStandard) (d : Device) (log : List LogEntry) (m : Sim)
    (h : Running S d (.passDelay S.passes) log m) :
    Running S d .verifyDelay (log ++ [verificationStartEntry]) (m.step tickOfFour) := by
  obtain ⟨hpc, hwip, hlog, wd, hw, hstd, hpasses, hdev⟩ := h
  have e : m.step tickOfFour = outerLoop (S.passes + 1) m.app := by
    simp only [Sim.step, tickOfFour, resume, hpc]
  have hle : ¬ S.passes + 1 ≤ wd.passes := by rw [hpasses]; omega
  obtain ⟨h1, h2⟩ := outerLoop_done _ m.app wd hw hle hwip
  rw [e]
  refine ⟨h1, ?_, ?_, wd, ?_, hstd, hpasses, hdev⟩
  · have := congrArg Core.wipeInProgress h2
    exact this.trans hwip
  · rw [← hlog]
    unfold outerLoop afterLoops
    simp only [hw, hle, hwip, false_and, if_false, if_true]
    rfl
  · exact (wipeData_of_core h2).trans hw

theorem onePassStart_running :
    Running nist sampleDevice .initDelay onePassStart.app.progressLog onePassStart := by
  have hS : lookupStandard readyApp.wipeStandards
      (WipeForm.mk "nist" "full" "normal").standardKey = some nist := by decide
  have h := startSecureWipe_ok 0 ⟨"nist", "full", "normal"⟩ readyApp nist sampleDevice hS rfl
  have hw := startSecureWipe_wipeData 0 ⟨"nist", "full", "normal"⟩ readyApp nist hS
  exact ⟨h.2.1, h.2.2.1, rfl, _, hw, rfl, rfl, rfl⟩

theorem verifyingSim_running :
    Running nist sampleDevice .verifyDelay
      (onePassStart.app.progressLog ++
        [passStartEntry 1 1, milestoneEntry 1 100 nist.pattern, passDoneEntry 1,
          verificationStartEntry]) verifyingSim := by
  have h1 := running_init nist sampleDevice _ _ onePassStart_running (by decide)
  have h2 := running_pass nist sampleDevice 1 _ _ h1
  have h3 := running_last_pass nist sampleDevice _ _ h2
  have e : verifyingSim =
      (((onePassStart.step tickOfFour).run (List.replicate 26 tickOfFour)).step tickOfFour) := by
    have e1 : List.replicate 28 tickOfFour =
        (tickOfFour :: List.replicate 26 tickOfFour) ++ [tickOfFour] := rfl
    unfold verifyingSim
    rw [e1, Sim.run_append]
    rfl
  rw [e]
  simpa using h3

theorem onePassStart_log :
    onePassStart.app.progressLog =
      [⟨"🚀 Secure wipe operation initiated", "info"⟩,
       ⟨"📱 Target device: SanDisk Ultra USB 3.2 (USB0ABCDEFG)", "info"⟩,
       ⟨"🛡️ Sanitization standard: NIST SP 800-88 Rev. 1", "info"⟩,
       ⟨"🔄 Total passes: 1 | Verification: full", "info"⟩,
       ⟨"⚠️ SAFE SIMULATION MODE - No actual data destruction will occur", "warning"⟩] := by
  decide

/-! ### Nothing is counted before the completing step -/

theorem issueAndFinish_pc (i : Input) (s : App) :
    (issueAndFinish i s).pc = .navTimer ∨ (issueAndFinish i s).pc = .failed := by
  unfold issueAndFinish
  generalize generateComplianceCertificate i.now i.random.base36 s = r
  obtain ⟨s1, e⟩ := r
  cases e with
  | some _ => exact Or.inr rfl
  | none =>
    simp only []
    split
    · exact Or.inr rfl
    · exact Or.inl rfl

theorem step_beforeCompletion (m : Sim) (e : Event)
    (h : (m.step e).pc.beforeCompletion = true) :
    m.pc.beforeCompletion = true ∧
    (m.step e).app.certificate = m.app.certificate ∧
    (m.step e).app.certificatesIssued = m.app.certificatesIssued ∧
    (m.step e).app.devicesProcessed = m.app.devicesProcessed ∧
    (m.step e).app.operationCount = m.app.operationCount := by
  cases e with
  | emergencyStop now => exact ⟨h, rfl, rfl, rfl, rfl⟩
  | resume i =>
    have key : m.pc ≠ .certDelay → m.pc ≠ .navTimer → m.pc.beforeCompletion = true →
        m.pc.beforeCompletion = true ∧
        (resume i m).app.certificate = m.app.certificate ∧
        (resume i m).app.certificatesIssued = m.app.certificatesIssued ∧
        (resume i m).app.devicesProcessed = m.app.devicesProcessed ∧
        (resume i m).app.operationCount = m.app.operationCount := by
      intro h1 h2 h3
      have hc := sameButSession_counters (sameButSession_resume i m h1 h2)
      exact ⟨h3, hc.2.1, hc.2.2.1, hc.2.2.2.1, hc.2.2.2.2⟩
    obtain ⟨s, pc⟩ := m
    cases pc with
    | notStarted => exact absurd h (by simp [Sim.step, resume, Pc.beforeCompletion])
    | finished => exact absurd h (by simp [Sim.step, resume, Pc.beforeCompletion])
    | failed => exact absurd h (by simp [Sim.step, resume, Pc.beforeCompletion])
    | navTimer => exact absurd h (by simp [Sim.step, resume, Pc.beforeCompletion])
    | certDelay =>
      have hpc := issueAndFinish_pc i s
      have e : (Sim.step ⟨s, .certDelay⟩ (.resume i)).pc = (issueAndFinish i s).pc := rfl
      rw [e] at h
      rcases hpc with h1 | h1 <;> rw [h1] at h <;> exact absurd h (by simp [Pc.beforeCompletion])
    | initDelay => exact key (by simp) (by simp) rfl
    | tickDelay p x => exact key (by simp) (by simp) rfl
    | passDelay p => exact key (by simp) (by simp) rfl
    | verifyDelay => exact key (by simp) (by simp) rfl
    | verifiedDelay => exact key (by simp) (by simp) rfl

/-- As long as the simulation has not reached line 757, the certificate and
the three counters are the ones `startSecureWipe` left, whatever timers fired
and however often the emergency stop was pressed. -/
theorem run_beforeCompletion (events : List Event) (m : Sim)
    (h : (m.run events).pc.beforeCompletion = true) :
    m.pc.beforeCompletion = true ∧
    (m.run events).app.certificate = m.app.certificate ∧
    (m.run events).app.certificatesIssued = m.app.certificatesIssued ∧
    (m.run events).app.devicesProcessed = m.app.devicesProcessed ∧
    (m.run events).app.operationCount = m.app.operationCount := by
  induction events using List.reverseRecOn with
  | nil => exact ⟨h, rfl, rfl, rfl, rfl⟩
  | append_singleton es e ih =>
    rw [Sim.run_append] at h ⊢
    obtain ⟨h0, h1, h2, h3, h4⟩ := step_beforeCompletion _ e h
    obtain ⟨g0, g1, g2, g3, g4⟩ := ih h0
    exact ⟨g0, h1.trans g1, h2.trans g2, h3.trans g3, h4.trans g4⟩

theorem issueAndFinish_auditLog (i : Input) (s : App) (wd : WipeData) (d : Device)
    (hw : s.wipeData = some wd) (hd : wd.device = some d) :
    (issueAndFinish i s).app.auditLog = pushCapped s.auditLog (completedEntry i.now d.name) := by
  unfold issueAndFinish generateComplianceCertificate
  simp only [hw, hd, setWipeData, addProgressLog, Option.map_some', Option.some_bind]
  rfl

/-- An emergency stop while the simulation waits at line 743 changes nothing
in what follows: lines 745-772 test no flag, so the three timers that remain
issue the certificate, count the device and record the completion. -/
theorem stop_in_verification_still_completes (now : ℕ) (i1 i2 i3 : Input) (m : Sim)
    (wd : WipeData) (d : Device) (hpc : m.pc = .verifyDelay)
    (hw : m.app.wipeData = some wd) (hd : wd.device = some d) :
    ((m.step (.emergencyStop now)).run [.resume i1, .resume i2, .resume i3]).pc = .navTimer ∧
    ((m.step (.emergencyStop now)).run [.resume i1, .resume i2, .resume i3]).app.certificate =
      some (newCertificate i3.now i3.random.base36 m.app.operationCount wd) ∧
    ((m.step (.emergencyStop now)).run
      [.resume i1, .resume i2, .resume i3]).app.certificatesIssued =
      m.app.certificatesIssued + 1 ∧
    ((m.step (.emergencyStop now)).run
      [.resume i1, .resume i2, .resume i3]).app.devicesProcessed =
      m.app.devicesProcessed + 1 ∧
    ((m.step (.emergencyStop now)).run [.resume i1, .resume i2, .resume i3]).app.auditLog =
      pushCapped (pushCapped m.app.auditLog (stopEntry now)) (completedEntry i3.now d.name) := by
  have e : (m.step (.emergencyStop now)).run [.resume i1, .resume i2, .resume i3] =
      resume i3 (resume i2 (resume i1 ⟨emergencyStop now m.app, m.pc⟩)) := rfl
  rw [e]
  have hw0 : (emergencyStop now m.app).wipeData = some wd := by
    simp only [emergencyStop, addAuditEntry_wipeData, addProgressLog_wipeData]; exact hw
  obtain ⟨p1, c1⟩ := resume_verifyDelay_core i1 ⟨emergencyStop now m.app, m.pc⟩ wd hpc hw0
  have a1 := sameButSession_auditLog
    (sameButSession_resume i1 ⟨emergencyStop now m.app, m.pc⟩ (by simp [hpc]) (by simp [hpc]))
  generalize resume i1 ⟨emergencyStop now m.app, m.pc⟩ = m1 at p1 c1 a1 ⊢
  obtain ⟨p2, c2⟩ := resume_verifiedDelay_core i2 m1 p1
  have a2 := sameButSession_auditLog
    (sameButSession_resume i2 m1 (by simp [p1]) (by simp [p1]))
  generalize resume i2 m1 = m2 at p2 c2 a2 ⊢
  have hc : m2.app.core = { m.app.core with wipeInProgress := false } := by
    rw [c2, c1]; exact core_emergencyStop now m.app
  have hw2 : m2.app.wipeData = some wd := (wipeData_of_core hc).trans hw
  have e3 : resume i3 m2 = issueAndFinish i3 m2.app := by
    unfold resume; rw [p2]
  obtain ⟨p3, c3⟩ := issueAndFinish_core i3 m2.app wd d hw2 hd
  have a3 := issueAndFinish_auditLog i3 m2.app wd d hw2 hd
  have hop : m2.app.operationCount = m.app.operationCount := congrArg Core.operationCount hc
  have hci : m2.app.certificatesIssued = m.app.certificatesIssued :=
    congrArg Core.certificatesIssued hc
  have hdp : m2.app.devicesProcessed = m.app.devicesProcessed :=
    congrArg Core.devicesProcessed hc
  rw [e3]
  refine ⟨p3, ?_, ?_, ?_, ?_⟩
  · have := congrArg Core.certificate c3
    rw [← hop]; exact this
  · have := congrArg Core.certificatesIssued c3
    rw [← hci]; exact this
  · have := congrArg Core.devicesProcessed c3
    rw [← hdp]; exact this
  · rw [a3, a2, a1, emergencyStop_auditLog]

/-! ### The decimal representation of a clock reading -/

theorem digitChar_val (k : ℕ) (hk : k < 10) : (Nat.digitChar k).toNat - 48 = k := by
  interval_cases k <;> rfl

theorem digitChar_ne_dash (k : ℕ) (hk : k < 10) : Nat.digitChar k ≠ '-' := by
  interval_cases k <;> decide

theorem toDigitsCore_value (f : ℕ) : ∀ (n : ℕ) (ds : List Char), n < f →
    (Nat.toDigitsCore 10 f n ds).foldl (fun a c => 10 * a + (c.toNat - 48)) 0 =
      ds.foldl (fun a c => 10 * a + (c.toNat - 48)) n := by
  induction f with
  | zero => intro n ds h; omega
  | succ f ih =>
    intro n ds h
    simp only [Nat.toDigitsCore]
    have hd := digitChar_val (n % 10) (Nat.mod_lt _ (by norm_num))
    split_ifs with h0
    · simp only [List.foldl_cons, hd]
      have : n % 10 = n := by omega
      rw [Nat.mul_zero, Nat.zero_add, this]
    · rw [ih (n / 10) _ (by omega)]
      simp only [List.foldl_cons, hd]
      have : 10 * (n / 10) + n % 10 = n := Nat.div_add_mod n 10
      rw [this]

theorem toDigits_injective (a b : ℕ) (h : Nat.toDigits 10 a = Nat.toDigits 10 b) : a = b := by
  have ha := toDigitsCore_value (a + 1) a [] (Nat.lt_succ_self a)
  have hb := toDigitsCore_value (b + 1) b [] (Nat.lt_succ_self b)
  unfold Nat.toDigits at h
  rw [h, hb] at ha
  simpa using ha.symm

theorem toDigitsCore_no_dash (f : ℕ) : ∀ (n : ℕ) (ds : List Char), '-' ∉ ds →
    '-' ∉ Nat.toDigitsCore 10 f n ds := by
  induction f with
  | zero => intro n ds h; simpa [Nat.toDigitsCore] using h
  | succ f ih =>
    intro n ds h
    simp only [Nat.toDigitsCore]
    have hd := digitChar_ne_dash (n % 10) (Nat.mod_lt _ (by norm_num))
    have h1 : '-' ∉ Nat.digitChar (n % 10) :: ds := by
      simp only [List.mem_cons, not_or]
      exact ⟨fun e => hd e.symm, h⟩
    split_ifs
    · exact h1
    · exact ih _ _ h1

theorem toDigits_no_dash (n : ℕ) : '-' ∉ Nat.toDigits 10 n :=
  toDigitsCore_no_dash _ _ _ (by simp)

/-- Two lists that are cut at their first `c` are equal only if both parts
are. -/
theorem append_cons_cancel {c : Char} : ∀ (l1 l2 x y : List Char), c ∉ l1 → c ∉ l2 →
    l1 ++ c :: x = l2 ++ c :: y → l1 = l2 ∧ x = y := by
  intro l1
  induction l1 with
  | nil =>
    intro l2 x y _ h2 h
    cases l2 with
    | nil => simpa using h
    | cons b l2 =>
      simp only [List.nil_append, List.cons_append, List.cons.injEq] at h
      exact absurd (by rw [h.1]; simp) h2
  | cons a l1 ih =>
    intro l2 x y h1 h2 h
    cases l2 with
    | nil =>
      simp only [List.nil_append, List.cons_append, List.cons.injEq] at h
      exact absurd (by rw [← h.1]; simp) h1
    | cons b l2 =>
      simp only [List.cons_append, List.cons.injEq] at h
      have := ih l2 x y (fun hc => h1 (List.mem_cons_of_mem _ hc))
        (fun hc => h2 (List.mem_cons_of_mem _ hc)) h.2
      exact ⟨by rw [h.1, this.1], this.2⟩

/-! ### The certificate id -/

theorem certificateId_data (now : ℕ) (r : String) :
    (certificateId now r).data =
      "CERT-".data ++
        (Nat.toDigits 10 now ++ '-' :: ((r.data.drop 2).take 6).map Char.toUpper) := by
  unfold certificateId
  simp only [String.toUpper, String.map_eq, String.data_append, String.data_drop,
    String.data_take, List.append_assoc]
  rfl

/-- The id of line 878 determines the clock reading and the upper-cased
six characters taken from the draw, and nothing else. -/
theorem certificateId_eq_iff (now1 now2 : ℕ) (r1 r2 : String) :
    certificateId now1 r1 = certificateId now2 r2 ↔
      now1 = now2 ∧
        ((r1.data.drop 2).take 6).map Char.toUpper = ((r2.data.drop 2).take 6).map Char.toUpper := by
  constructor
  · intro h
    have h1 := congrArg String.data h
    rw [certificateId_data, certificateId_data] at h1
    have h2 := List.append_cancel_left h1
    obtain ⟨h3, h4⟩ := append_cons_cancel _ _ _ _ (toDigits_no_dash now1)
      (toDigits_no_dash now2) h2
    exact ⟨toDigits_injective _ _ h3, h4⟩
  · rintro ⟨h1, h2⟩
    apply String.ext
    rw [certificateId_data, certificateId_data, h1, h2]

/-- C13 (the code at the failing input): a one-pass session has finished its
pass and waits in the verification phase; nothing is issued or counted yet.
The emergency stop is pressed, which sets `wipeInProgress` to false.  The
simulation goes on all the same: after its three remaining timers a
certificate is issued, `certificatesIssued` and `devicesProcessed` are 1, and
the last audit entry reports the wipe as completed successfully, right after
the entry of the stop. -/
theorem stop_during_verification_still_issues :
    verifyingSim.pc = .verifyDelay ∧
    verifyingSim.app.wipeInProgress = true ∧
    verifyingSim.app.certificate = none ∧
    verifyingSim.app.certificatesIssued = 0 ∧
    verifyingSim.app.devicesProcessed = 0 ∧
    (verifyingSim.step (.emergencyStop 5)).app.wipeInProgress = false ∧
    stoppedWhileVerifying.pc = .navTimer ∧
    (∃ c, stoppedWhileVerifying.app.certificate = some c ∧ c.id = "CERT-0-I" ∧
      c.device = some sampleDevice) ∧
    stoppedWhileVerifying.app.certificatesIssued = 1 ∧
    stoppedWhileVerifying.app.devicesProcessed = 1 ∧
    stoppedWhileVerifying.app.auditLog =
      pushCapped (pushCapped verifyingSim.app.auditLog (stopEntry 5))
        (completedEntry 0 "SanDisk Ultra USB 3.2") ∧
    stoppedWhileVerifying.app.auditLog.getLast? =
      some ⟨0, "Wipe operation completed successfully: SanDisk Ultra USB 3.2", "success"⟩ := by
  obtain ⟨hpc, hwip, -, wd, hw, -, -, hd⟩ := verifyingSim_running
  have hb : (onePassStart.run (List.replicate 28 tickOfFour)).pc.beforeCompletion = true := by
    have : (onePassStart.run (List.replicate 28 tickOfFour)).pc = .verifyDelay := hpc
    rw [this]; rfl
  obtain ⟨-, b1, b2, b3, b4⟩ := run_beforeCompletion _ _ hb
  have c1 : verifyingSim.app.certificate = none := b1
  have c2 : verifyingSim.app.certificatesIssued = 0 := b2
  have c3 : verifyingSim.app.devicesProcessed = 0 := b3
  obtain ⟨h1, h2, h3, h4, h5⟩ :=
    stop_in_verification_still_completes 5 tickOfHalf tickOfHalf tickOfHalf verifyingSim wd
      sampleDevice hpc hw hd
  refine ⟨hpc, hwip, c1, c2, c3, rfl, h1, ⟨_, h2, ?_, hd⟩, ?_, ?_, h5, ?_⟩
  · show certificateId 0 "0.i" = "CERT-0-I"
    apply String.ext
    rw [certificateId_data]
    decide
  · exact h3.trans (by rw [c2])
  · exact h4.trans (by rw [c3])
  · have : stoppedWhileVerifying.app.auditLog = _ := h5
    rw [this, pushCapped_getLast]
    rfl

/-- C20 (the code at the failing input): in a pass whose increments are all
4 the loop variable takes the values 0, 4, ..., 100.  Line 727 tests
`Math.floor(progress) % 25 === 0`, which holds at 100 only, so the pass logs
the milestone of 100% and none for 25%, 50% and 75%. -/
theorem milestones_missed_when_increments_are_four :
    verifyingSim.pc = .verifyDelay ∧
    verifyingSim.app.progressLog =
      onePassStart.app.progressLog ++
        [passStartEntry 1 1, milestoneEntry 1 100 "Cryptographic Random", passDoneEntry 1,
          verificationStartEntry] ∧
    (verifyingSim.app.progressLog.map LogEntry.message).filter
        (fun l => l.toList.take 8 = "Pass 1: ".toList)
      = ["Pass 1: 100% complete - Writing Cryptographic Random"] ∧
    milestoneEntry 1 25 "Cryptographic Random" ∉ verifyingSim.app.progressLog ∧
    milestoneEntry 1 50 "Cryptographic Random" ∉ verifyingSim.app.progressLog ∧
    milestoneEntry 1 75 "Cryptographic Random" ∉ verifyingSim.app.progressLog := by
  obtain ⟨hpc, -, hlog, -⟩ := verifyingSim_running
  have hlog1 : verifyingSim.app.progressLog = _ := hlog
  rw [hlog1, onePassStart_log]
  refine ⟨hpc, rfl, ?_, ?_, ?_, ?_⟩ <;> decide

/-! ### Issuing a certificate -/

theorem generateComplianceCertificate_error (now : ℕ) (random36 : String) (s : App)
    (wd : WipeData) (d : Device) (hw : s.wipeData = some wd) (hd : wd.device = some d) :
    (generateComplianceCertificate now random36 s).2 = none := by
  unfold generateComplianceCertificate
  simp only [hw, hd]

theorem generateComplianceCertificate_none (now : ℕ) (random36 : String) (s : App)
    (hw : s.wipeData = none) :
    generateComplianceCertificate now random36 s = (s, some "TypeError") := by
  unfold generateComplianceCertificate
  simp only [hw]

theorem certificateId_string_eq_iff (now1 now2 : ℕ) (r1 r2 : String) :
    certificateId now1 r1 = certificateId now2 r2 ↔
      now1 = now2 ∧ ((r1.drop 2).take 6).toUpper = ((r2.drop 2).take 6).toUpper := by
  rw [certificateId_eq_iff]
  have e : ∀ r : String, ((r.drop 2).take 6).toUpper =
      ⟨((r.data.drop 2).take 6).map Char.toUpper⟩ := by
    intro r
    simp only [String.toUpper, String.map_eq, String.data_drop, String.data_take]
  rw [e r1, e r2]
  exact and_congr_right fun _ =>
    ⟨fun h => congrArg String.mk h, fun h => congrArg String.data h⟩

/-- C14 (as stated, refuted): two certificates issued one after the other
within the same clock millisecond, with different draws whose base-36 digits
agree on the first six, carry the same id. -/
theorem same_millisecond_same_id :
    ("0.k3j9x2m1abc" : String) ≠ "0.k3j9x2zzz" ∧
    firstIssue.certificate.map Certificate.id = some "CERT-5000-K3J9X2" ∧
    secondIssue.certificate.map Certificate.id = some "CERT-5000-K3J9X2" ∧
    firstIssue.certificatesIssued = busyApp.certificatesIssued + 1 ∧
    secondIssue.certificatesIssued = busyApp.certificatesIssued + 2 := by
  have e1 : certificateId 5000 "0.k3j9x2m1abc" = "CERT-5000-K3J9X2" := by
    apply String.ext
    rw [certificateId_data]
    decide
  have e2 : certificateId 5000 "0.k3j9x2zzz" = "CERT-5000-K3J9X2" := by
    apply String.ext
    rw [certificateId_data]
    decide
  refine ⟨by decide, ?_, ?_, rfl, rfl⟩
  · exact congrArg some e1
  · exact congrArg some e2

/-- C14 (amended): the id of a certificate is made of the clock reading and of
the first six base-36 digits of one draw, in upper case, and of nothing else
(no counter).  Two issuances carry the same id exactly when their clock
readings are equal and those digits agree; so certificates issued at different
clock readings have distinct ids, and certificates issued within one
millisecond have distinct ids unless their draws agree on those digits. -/
theorem certificate_ids_equal_iff (now1 now2 : ℕ) (r1 r2 : String) (s1 s2 : App)
    (wd1 wd2 : WipeData) (h1 : s1.wipeData = some wd1) (h2 : s2.wipeData = some wd2) :
    ∃ c1 c2, (generateComplianceCertificate now1 r1 s1).1.certificate = some c1 ∧
      (generateComplianceCertificate now2 r2 s2).1.certificate = some c2 ∧
      c1.id = certificateId now1 r1 ∧ c2.id = certificateId now2 r2 ∧
      (c1.id = c2.id ↔
        now1 = now2 ∧ ((r1.drop 2).take 6).toUpper = ((r2.drop 2).take 6).toUpper) := by
  refine ⟨newCertificate now1 r1 s1.operationCount wd1,
    newCertificate now2 r2 s2.operationCount wd2, ?_, ?_, rfl, rfl, ?_⟩
  · rw [generateComplianceCertificate_app now1 r1 s1 wd1 h1]
  · rw [generateComplianceCertificate_app now2 r2 s2 wd2 h2]
  · exact certificateId_string_eq_iff now1 now2 r1 r2

/-- C14 (amended) on `busyApp`: two issuances with the same draw, one
millisecond apart, carry distinct ids. -/
theorem certificate_ids_equal_iff_witness :
    busyApp.wipeData ≠ none ∧
    certificateId 5000 "0.k3j9x2m1abc" ≠ certificateId 5001 "0.k3j9x2m1abc" := by
  refine ⟨by decide, ?_⟩
  obtain ⟨c1, c2, -, -, e1, e2, h⟩ :=
    certificate_ids_equal_iff 5000 5001 "0.k3j9x2m1abc" "0.k3j9x2m1abc" busyApp busyApp _ _
      rfl rfl
  rw [← e1, ← e2]
  intro hc
  exact absurd (h.mp hc).1 (by decide)

/-- C15 (as stated, refuted): on `busyApp`, whose session is in pass 2 of 3 at
50 percent and has verified nothing, `generateComplianceCertificate` throws
nothing, issues a certificate and counts it; and the quick demonstration
issues a certificate for a record it has just made up, no pass having run. -/
theorem certificate_issued_for_unfinished_session :
    busyApp.wipeInProgress = true ∧
    (busyApp.wipeData.map WipeData.currentPass = some 2 ∧
      busyApp.wipeData.map WipeData.passes = some 3 ∧
      busyApp.wipeData.map WipeData.progress = some 50) ∧
    (generateComplianceCertificate 7 "0.abcdefgh" busyApp).2 = none ∧
    (generateComplianceCertificate 7 "0.abcdefgh" busyApp).1.certificate ≠ none ∧
    (generateComplianceCertificate 7 "0.abcdefgh" busyApp).1.certificatesIssued =
      busyApp.certificatesIssued + 1 ∧
    readyApp.wipeData = none ∧
    (quickDemoProgressStep 7 "0.abcdefgh" readyApp).2 = none ∧
    (quickDemoProgressStep 7 "0.abcdefgh" readyApp).1.certificate ≠ none ∧
    (quickDemoProgressStep 7 "0.abcdefgh" readyApp).1.certificatesIssued =
      readyApp.certificatesIssued + 1 := by
  refine ⟨rfl, ⟨rfl, rfl, rfl⟩, rfl, ?_, rfl, rfl, ?_, ?_, ?_⟩
  · rw [generateComplianceCertificate_app 7 "0.abcdefgh" busyApp _ rfl]
    simp
  · rfl
  · have : (quickDemoProgressStep 7 "0.abcdefgh" readyApp).1.certificate =
        some (newCertificate 7 "0.abcdefgh" 0 (demoWipeData 7 (some sampleDevice) nist)) := rfl
    rw [this]
    simp
  · rfl

/-- C15 (amended): `generateComplianceCertificate` makes no readiness check
and has no error of its own.  Whenever there is a session record with a device,
whatever its pass, its progress and the state of `wipeInProgress`, it throws
nothing, issues a certificate built from that record and increments
`certificatesIssued`; when there is no session record it throws a `TypeError`
and changes nothing. -/
theorem certificate_issued_whenever_record_exists (now : ℕ) (random36 : String) (s : App) :
    (∀ wd d, s.wipeData = some wd → wd.device = some d →
      (generateComplianceCertificate now random36 s).2 = none ∧
      (generateComplianceCertificate now random36 s).1.certificate =
        some (newCertificate now random36 s.operationCount wd) ∧
      (generateComplianceCertificate now random36 s).1.certificatesIssued =
        s.certificatesIssued + 1) ∧
    (s.wipeData = none →
      generateComplianceCertificate now random36 s = (s, some "TypeError")) := by
  refine ⟨?_, generateComplianceCertificate_none now random36 s⟩
  intro wd d hw hd
  refine ⟨generateComplianceCertificate_error now random36 s wd d hw hd, ?_, ?_⟩
  · rw [generateComplianceCertificate_app now random36 s wd hw]
  · rw [generateComplianceCertificate_app now random36 s wd hw]

/-- C15 (amended) on `busyApp`, in the middle of pass 2 of 3. -/
theorem certificate_issued_whenever_record_exists_witness :
    busyApp.wipeData.bind WipeData.device = some sampleDevice ∧
    (generateComplianceCertificate 7 "0.abcdefgh" busyApp).2 = none ∧
    (generateComplianceCertificate 7 "0.abcdefgh" busyApp).1.certificatesIssued =
      busyApp.certificatesIssued + 1 :=
  ⟨rfl,
    ((certificate_issued_whenever_record_exists 7 "0.abcdefgh" busyApp).1 _ sampleDevice
      rfl rfl).1,
    ((certificate_issued_whenever_record_exists 7 "0.abcdefgh" busyApp).1 _ sampleDevice
      rfl rfl).2.2⟩

/-- C16: every issuance increments certificatesIssued by exactly one and
leaves operationCount, devicesProcessed, the device inventory and the audit
log unchanged. -/
theorem issuance_counts_one_and_keeps_the_rest (now : ℕ) (random36 : String) (s : App)
    (wd : WipeData) (hw : s.wipeData = some wd) :
    (generateComplianceCertificate now random36 s).1.certificate =
      some (newCertificate now random36 s.operationCount wd) ∧
    (generateComplianceCertificate now random36 s).1.certificatesIssued =
      s.certificatesIssued + 1 ∧
    (generateComplianceCertificate now random36 s).1.operationCount = s.operationCount ∧
    (generateComplianceCertificate now random36 s).1.devicesProcessed = s.devicesProcessed ∧
    (generateComplianceCertificate now random36 s).1.devices = s.devices ∧
    (generateComplianceCertificate now random36 s).1.auditLog = s.auditLog := by
  rw [generateComplianceCertificate_app now random36 s wd hw]
  exact ⟨rfl, rfl, rfl, rfl, rfl, rfl⟩

/-- C16 on `busyApp`. -/
theorem issuance_counts_one_and_keeps_the_rest_witness :
    busyApp.wipeData ≠ none ∧
    (generateComplianceCertificate 7 "0.abcdefgh" busyApp).1.certificatesIssued = 1 ∧
    (generateComplianceCertificate 7 "0.abcdefgh" busyApp).1.operationCount = 1 ∧
    (generateComplianceCertificate 7 "0.abcdefgh" busyApp).1.auditLog = busyApp.auditLog :=
  ⟨by decide,
    (issuance_counts_one_and_keeps_the_rest 7 "0.abcdefgh" busyApp _ rfl).2.1,
    (issuance_counts_one_and_keeps_the_rest 7 "0.abcdefgh" busyApp _ rfl).2.2.1,
    (issuance_counts_one_and_keeps_the_rest 7 "0.abcdefgh" busyApp _ rfl).2.2.2.2.2⟩

/-! ### The fields a certificate copies are written once -/

theorem copied_setWipeData (f : WipeData → WipeData) (hf : ∀ w, (f w).copied = w.copied)
    (s : App) : (setWipeData f s).wipeData.map WipeData.copied =
      s.wipeData.map WipeData.copied := by
  unfold setWipeData
  cases s.wipeData with
  | none => rfl
  | some w => exact congrArg some (hf w)

theorem copied_afterLoops (s : App) :
    (afterLoops s).app.wipeData = s.wipeData := by
  unfold afterLoops
  split_ifs <;> rfl

theorem copied_innerLoop (p : ℕ) (x : ℚ) (s : App) :
    (innerLoop p x s).app.wipeData.map WipeData.copied = s.wipeData.map WipeData.copied := by
  unfold innerLoop
  split
  · rfl
  · simp only []
    split_ifs
    · rw [addProgressLog_wipeData]
      apply copied_setWipeData
      intro w; rfl
    · apply copied_setWipeData
      intro w; rfl
    · rw [addProgressLog_wipeData]
    · rfl

theorem copied_outerLoop (p : ℕ) (s : App) :
    (outerLoop p s).app.wipeData.map WipeData.copied = s.wipeData.map WipeData.copied := by
  unfold outerLoop
  split
  · rfl
  · simp only []
    split_ifs
    · rw [copied_innerLoop, addProgressLog_wipeData]
      apply copied_setWipeData
      intro w; rfl
    · rw [copied_afterLoops]

theorem copied_issueAndFinish (i : Input) (s : App) :
    (issueAndFinish i s).app.wipeData.map WipeData.copied =
      s.wipeData.map WipeData.copied := by
  have hg : (generateComplianceCertificate i.now i.random.base36 s).1.wipeData = s.wipeData := by
    unfold generateComplianceCertificate
    split
    · rfl
    · simp only []
      split <;> rfl
  unfold issueAndFinish
  generalize generateComplianceCertificate i.now i.random.base36 s = r at hg ⊢
  obtain ⟨s1, e⟩ := r
  simp only at hg
  have hset : (setWipeData (fun w => { w with progress := 100 })
      (addProgressLog "🏁 Secure wipe operation completed successfully" "success"
        (addProgressLog "🎯 Digital certificate generated successfully" "success"
          s1))).wipeData.map WipeData.copied = s.wipeData.map WipeData.copied := by
    refine (copied_setWipeData _ ?_ _).trans ?_
    · intro w; rfl
    · rw [addProgressLog_wipeData, addProgressLog_wipeData, hg]
  cases e with
  | some _ => simp only [hg]
  | none =>
    simp only []
    split
    · exact hset
    · rw [addAuditEntry_wipeData]; exact hset

/-- No step of the simulation and no emergency stop writes to the fields of
the session record that a certificate copies. -/
theorem copied_step (m : Sim) (e : Event) :
    (m.step e).app.wipeData.map WipeData.copied = m.app.wipeData.map WipeData.copied := by
  obtain ⟨s, pc⟩ := m
  cases e with
  | emergencyStop now =>
    simp only [Sim.step, emergencyStop, addAuditEntry_wipeData, addProgressLog_wipeData]
  | resume i =>
    cases pc with
    | notStarted => rfl
    | initDelay => exact copied_outerLoop _ _
    | tickDelay p x => exact copied_innerLoop _ _ _
    | passDelay p => exact copied_outerLoop _ _
    | verifyDelay =>
      simp only [Sim.step, resume]
      split
      · rfl
      · simp only []
        split_ifs <;> simp only [addProgressLog_wipeData]
    | verifiedDelay => simp only [Sim.step, resume, addProgressLog_wipeData]
    | certDelay => exact copied_issueAndFinish _ _
    | navTimer => simp only [Sim.step, resume, navigateTo_wipeData]
    | finished => rfl
    | failed => rfl

theorem copied_run (events : List Event) (m : Sim) :
    (m.run events).app.wipeData.map WipeData.copied = m.app.wipeData.map WipeData.copied := by
  induction events generalizing m with
  | nil => rfl
  | cons e rest ih => exact (ih (m.step e)).trans (copied_step m e)

theorem scanRealDevices_certificate (now : ℕ) (b : Browser) (rnd : ℕ → Draw) (s : App) :
    (scanRealDevices now b rnd s).certificate = s.certificate := by
  unfold scanRealDevices scanRealDevicesBegin
  simp only []
  split_ifs <;> simp only [addAuditEntry_certificate]

theorem selectDirectory_certificate (now : ℕ) (random : Draw) (supported : Bool)
    (result : PickResult) (s : App) :
    (selectDirectory now random supported result s).certificate = s.certificate := by
  unfold selectDirectory
  split_ifs
  · cases result <;> simp only [addAuditEntry_certificate]
  · simp only [addAuditEntry_certificate]

/-- C17: an issued certificate is a value snapshot of its session.  Its
device, standard, verification mode, start time and wipe id are those of the
session record at issuance, its passes are the standard's pass count (the
record's `passes`, which every record the code creates takes from its standard
and no step writes again), its compliance tags are the standard's, and a later
rescan or manual device addition leaves the issued certificate unchanged.
Devices and standards are values here: no code writes to a field of either. -/
theorem certificate_is_snapshot (now : ℕ) (random36 : String) (s : App) (wd : WipeData)
    (hw : s.wipeData = some wd) (hp : wd.passes = wd.standard.passes) :
    ∃ c, (generateComplianceCertificate now random36 s).1.certificate = some c ∧
      c.device = wd.device ∧ c.standard = wd.standard ∧ c.verification = wd.verification ∧
      c.startTime = wd.startTime ∧ c.wipeId = wd.wipeId ∧
      c.passes = wd.standard.passes ∧ c.compliance = wd.standard.compliance ∧
      (∀ now1 b rnd,
        (scanRealDevices now1 b rnd
          (generateComplianceCertificate now random36 s).1).certificate = some c) ∧
      (∀ now1 random supported result,
        (selectDirectory now1 random supported result
          (generateComplianceCertificate now random36 s).1).certificate = some c) := by
  have h := generateComplianceCertificate_app now random36 s wd hw
  have hc : (generateComplianceCertificate now random36 s).1.certificate =
      some (newCertificate now random36 s.operationCount wd) := by rw [h]
  refine ⟨_, hc, rfl, rfl, rfl, rfl, rfl, hp, rfl, ?_, ?_⟩
  · intro now1 b rnd
    rw [scanRealDevices_certificate, hc]
  · intro now1 random supported result
    rw [selectDirectory_certificate, hc]

/-- C17 on `busyApp`: the certificate names `sampleDevice` and three passes,
also after a rescan that replaced the inventory by the USB device of
`usbOnlyBrowser`. -/
theorem certificate_is_snapshot_witness :
    busyApp.wipeData.map WipeData.passes = some dod.passes ∧
    ∃ c, (generateComplianceCertificate 7 "0.abcdefgh" busyApp).1.certificate = some c ∧
      c.device = some sampleDevice ∧ c.passes = 3 ∧
      (scanRealDevices 8 usbOnlyBrowser constantDraws
        (generateComplianceCertificate 7 "0.abcdefgh" busyApp).1).certificate = some c := by
  obtain ⟨c, h1, h2, -, -, -, -, h3, -, h4, -⟩ :=
    certificate_is_snapshot 7 "0.abcdefgh" busyApp _ rfl rfl
  exact ⟨rfl, c, h1, h2, h3, h4 8 usbOnlyBrowser constantDraws⟩

/-- Every session record that `startSecureWipe` or the quick demonstration
creates has the pass count of its standard, and so has every record later in
the run. -/
theorem session_passes_are_the_standards (now : ℕ) (form : WipeForm) (s : App)
    (S : WipeStandard) (hS : lookupStandard s.wipeStandards form.standardKey = some S)
    (events : List Event) :
    (∃ wd, ((startSecureWipe now form s).sim.run events).app.wipeData = some wd ∧
      wd.passes = wd.standard.passes) ∧
    ∀ device, (demoWipeData now device nist).passes = (demoWipeData now device nist).standard.passes := by
  refine ⟨?_, fun _ => rfl⟩
  have h := copied_run events (startSecureWipe now form s).sim
  rw [startSecureWipe_wipeData now form s S hS] at h
  cases hw : ((startSecureWipe now form s).sim.run events).app.wipeData with
  | none => rw [hw] at h; simp at h
  | some wd =>
    rw [hw] at h
    simp only [Option.map_some', Option.some.injEq, WipeData.copied, Prod.mk.injEq] at h
    refine ⟨wd, rfl, ?_⟩
    rw [h.2.2.2.2.1, h.2.1]
    rfl

/-! ### Keys that are not in the catalog -/

theorem lookupStandard_catalog (key : String) :
    lookupStandard wipeStandards key =
      if key = "nist" then some nist
      else if key = "dod" then some dod
      else if key = "gutmann" then some gutmann
      else none := by
  unfold lookupStandard wipeStandards
  by_cases h1 : key = "nist"
  · subst h1; rfl
  · by_cases h2 : key = "dod"
    · subst h2; rfl
    · by_cases h3 : key = "gutmann"
      · subst h3; rfl
      · have e1 : ("nist" == key) = false := by simpa using fun h => h1 h.symm
        have e2 : ("dod" == key) = false := by simpa using fun h => h2 h.symm
        have e3 : ("gutmann" == key) = false := by simpa using fun h => h3 h.symm
        simp only [List.find?, e1, e2, e3, h1, h2, h3, if_false, Option.map_none']

theorem lookupStandard_none_iff (key : String) :
    lookupStandard wipeStandards key = none ↔
      key ≠ "nist" ∧ key ≠ "dod" ∧ key ≠ "gutmann" := by
  rw [lookupStandard_catalog]
  by_cases h1 : key = "nist"
  · simp [h1]
  · by_cases h2 : key = "dod"
    · simp [h2]
    · by_cases h3 : key = "gutmann"
      · simp [h3]
      · simp [h1, h2, h3]

theorem startSecureWipe_unknown (now : ℕ) (form : WipeForm) (s : App)
    (h : lookupStandard s.wipeStandards form.standardKey = none)
    (hin : form.standardKey ∉ inheritedKeys) :
    startSecureWipe now form s =
      ⟨⟨{ s with wipeInProgress := true, operationCount := s.operationCount + 1 },
        .notStarted⟩, some "TypeError", true⟩ := by
  unfold startSecureWipe
  simp only [h, hin, if_false]

/-- The one case that `startSecureWipe` leaves outside the model: a key that
names an inherited property and is not an entry of the catalog. -/
theorem startSecureWipe_inModel (now : ℕ) (form : WipeForm) (s : App) :
    (startSecureWipe now form s).inModel = false ↔
      lookupStandard s.wipeStandards form.standardKey = none ∧
        form.standardKey ∈ inheritedKeys := by
  unfold startSecureWipe
  cases h : lookupStandard s.wipeStandards form.standardKey with
  | none =>
    simp only []
    split_ifs with hin
    · simp [hin]
    · simp [hin]
  | some S =>
    simp only []
    split <;> simp

/-- C18 (as stated, refuted): the key `aes256` is not in the catalog and
names no inherited property.  The error of `updateComplianceInfo` and of
`startSecureWipe` is a `TypeError`, not `UnknownStandard`, and
`startSecureWipe` has changed the state when it throws. -/
theorem unknown_key_is_a_type_error :
    lookupStandard readyApp.wipeStandards "aes256" = none ∧
    (updateComplianceInfo "aes256" readyApp).2 = some "TypeError" ∧
    (startSecureWipe 0 ⟨"aes256", "full", "normal"⟩ readyApp).error = some "TypeError" ∧
    (startSecureWipe 0 ⟨"aes256", "full", "normal"⟩ readyApp).error ≠
      some "UnknownStandard" ∧
    (startSecureWipe 0 ⟨"aes256", "full", "normal"⟩ readyApp).sim.app ≠ readyApp ∧
    "aes256" ∉ inheritedKeys ∧
    (startSecureWipe 0 ⟨"aes256", "full", "normal"⟩ readyApp).inModel = true := by
  have h : lookupStandard readyApp.wipeStandards
      (WipeForm.mk "aes256" "full" "normal").standardKey = none := by decide
  have hin : (WipeForm.mk "aes256" "full" "normal").standardKey ∉ inheritedKeys := by decide
  have e := startSecureWipe_unknown 0 ⟨"aes256", "full", "normal"⟩ readyApp h hin
  refine ⟨h, ?_, ?_, ?_, ?_, hin, ?_⟩
  · unfold updateComplianceInfo
    rw [h]
  · rw [e]
  · rw [e]; decide
  · rw [e]
    intro hc
    have := congrArg App.wipeInProgress hc
    exact absurd this (by decide)
  · rw [e]

/-- C18 (amended): the catalog has no error of its own.  The keys `nist`,
`dod` and `gutmann` give their standards.  Every other key that does not name
a property inherited from `Object.prototype` (`constructor`, `toString` and
the like) is absent and the read gives `undefined`: on such a key
`updateComplianceInfo` throws a `TypeError` and changes no state, and
`startSecureWipe` throws a `TypeError`, creates no session record, launches no
simulation and leaves the certificate, the inventory and the audit log
unchanged.  Nothing is said here of `startSecureWipe` on the name of an
inherited property. -/
theorem absent_key_throws_type_error (key : String) (now : ℕ) (verification priority : String)
    (s : App) (hs : s.wipeStandards = wipeStandards)
    (hkey : key ≠ "nist" ∧ key ≠ "dod" ∧ key ≠ "gutmann") (hin : key ∉ inheritedKeys) :
    lookupStandard s.wipeStandards "nist" = some nist ∧
    lookupStandard s.wipeStandards "dod" = some dod ∧
    lookupStandard s.wipeStandards "gutmann" = some gutmann ∧
    lookupStandard s.wipeStandards key = none ∧
    updateComplianceInfo key s = (s, some "TypeError") ∧
    (startSecureWipe now ⟨key, verification, priority⟩ s).error = some "TypeError" ∧
    (startSecureWipe now ⟨key, verification, priority⟩ s).sim.pc = .notStarted ∧
    (startSecureWipe now ⟨key, verification, priority⟩ s).sim.app.wipeData = s.wipeData ∧
    (startSecureWipe now ⟨key, verification, priority⟩ s).sim.app.certificate =
      s.certificate ∧
    (startSecureWipe now ⟨key, verification, priority⟩ s).sim.app.devices = s.devices ∧
    (startSecureWipe now ⟨key, verification, priority⟩ s).sim.app.auditLog = s.auditLog ∧
    (startSecureWipe now ⟨key, verification, priority⟩ s).sim.app.progressLog =
      s.progressLog ∧
    (startSecureWipe now ⟨key, verification, priority⟩ s).inModel = true := by
  have h : lookupStandard s.wipeStandards key = none := by
    rw [hs]; exact (lookupStandard_none_iff key).mpr hkey
  have e := startSecureWipe_unknown now ⟨key, verification, priority⟩ s h hin
  rw [e]
  refine ⟨by rw [hs]; rfl, by rw [hs]; rfl, by rw [hs]; rfl, h, ?_, rfl, rfl, rfl, rfl, rfl,
    rfl, rfl, rfl⟩
  unfold updateComplianceInfo
  rw [h]

/-- C18 (amended) on `readyApp` and the key `aes256`. -/
theorem absent_key_throws_type_error_witness :
    readyApp.wipeStandards = wipeStandards ∧
    (("aes256" : String) ≠ "nist" ∧ ("aes256" : String) ≠ "dod" ∧
      ("aes256" : String) ≠ "gutmann") ∧
    "aes256" ∉ inheritedKeys ∧
    updateComplianceInfo "aes256" readyApp = (readyApp, some "TypeError") ∧
    (startSecureWipe 0 ⟨"aes256", "full", "normal"⟩ readyApp).error = some "TypeError" ∧
    (startSecureWipe 0 ⟨"aes256", "full", "normal"⟩ readyApp).sim.pc = .notStarted :=
  ⟨rfl, by decide, by decide,
    (absent_key_throws_type_error "aes256" 0 "full" "normal" readyApp rfl
      (by decide) (by decide)).2.2.2.2.1,
    (absent_key_throws_type_error "aes256" 0 "full" "normal" readyApp rfl
      (by decide) (by decide)).2.2.2.2.2.1,
    (absent_key_throws_type_error "aes256" 0 "full" "normal" readyApp rfl
      (by decide) (by decide)).2.2.2.2.2.2.1⟩

/-! ### What the audit log records -/

theorem navigateTo_progress_auditLog (now : ℕ) (s : App) :
    (navigateTo now "progress" s).auditLog =
      pushCapped s.auditLog ⟨now, "Navigated to progress view", "info"⟩ := by
  unfold navigateTo
  simp only []
  rw [if_neg (by decide), if_neg (by simp)]
  rfl

theorem startSecureWipe_auditLog (now : ℕ) (form : WipeForm) (s : App) (S : WipeStandard)
    (d : Device) (hS : lookupStandard s.wipeStandards form.standardKey = some S)
    (hd : s.selectedDevice = some d) :
    (startSecureWipe now form s).sim.app.auditLog =
      pushCapped (pushCapped s.auditLog ⟨now, "Navigated to progress view", "info"⟩)
        ⟨now, "Secure wipe operation started: " ++ d.name ++ " using " ++ S.name,
          "success"⟩ := by
  unfold startSecureWipe
  simp only [hS, hd]
  unfold addAuditEntry
  simp only []
  rw [sameButSession_auditLog (sameButSession_simulateSecureWipe _),
    navigateTo_progress_auditLog]

theorem generateComplianceCertificate_auditLog (now : ℕ) (random36 : String) (s : App) :
    (generateComplianceCertificate now random36 s).1.auditLog = s.auditLog := by
  unfold generateComplianceCertificate
  split
  · rfl
  · simp only []
    split <;> rfl

theorem beforeMilestone_running :
    Running nist sampleDevice (.tickDelay 1 ((4 * 24 : ℕ) : ℚ))
      (onePassStart.app.progressLog ++ [passStartEntry 1 1]) beforeMilestone := by
  have h1 := running_init nist sampleDevice _ _ onePassStart_running (by decide)
  exact running_ticks nist sampleDevice 1 _ _ h1 24 (by norm_num)

/-- C19 (as stated, refuted): `startSecureWipe` adds two entries to the audit
log, not one; the step that logs the milestone of 100% and the step that logs
the end of the pass add lines to the progress log and nothing to the audit
log; and `generateComplianceCertificate` issues a certificate without an audit
entry. -/
theorem audit_entries_per_event_differ :
    (startSecureWipe 0 ⟨"nist", "full", "normal"⟩ readyApp).sim.app.auditLog.length =
      readyApp.auditLog.length + 2 ∧
    (beforeMilestone.step tickOfFour).app.progressLog =
      beforeMilestone.app.progressLog ++ [milestoneEntry 1 100 "Cryptographic Random"] ∧
    (beforeMilestone.step tickOfFour).app.auditLog = beforeMilestone.app.auditLog ∧
    ((beforeMilestone.step tickOfFour).step tickOfFour).app.progressLog =
      (beforeMilestone.step tickOfFour).app.progressLog ++ [passDoneEntry 1] ∧
    ((beforeMilestone.step tickOfFour).step tickOfFour).app.auditLog =
      beforeMilestone.app.auditLog ∧
    (generateComplianceCertificate 7 "0.abcdefgh" busyApp).1.certificate ≠ none ∧
    (generateComplianceCertificate 7 "0.abcdefgh" busyApp).1.auditLog = busyApp.auditLog := by
  have h0 := beforeMilestone_running
  have h1 := running_tick nist sampleDevice 1 24 _ _ h0 (by norm_num)
  rw [if_pos rfl] at h1
  have h2 := running_exit nist sampleDevice 1 _ _ h1
  have a1 : (beforeMilestone.step tickOfFour).app.auditLog = beforeMilestone.app.auditLog :=
    sameButSession_auditLog (sameButSession_resume _ beforeMilestone
      (by rw [h0.1]; simp) (by rw [h0.1]; simp))
  have a2 : ((beforeMilestone.step tickOfFour).step tickOfFour).app.auditLog =
      (beforeMilestone.step tickOfFour).app.auditLog :=
    sameButSession_auditLog (sameButSession_resume _ (beforeMilestone.step tickOfFour)
      (by rw [h1.1]; simp) (by rw [h1.1]; simp))
  have hstart := startSecureWipe_auditLog 0 ⟨"nist", "full", "normal"⟩ readyApp nist
    sampleDevice (by decide) rfl
  refine ⟨?_, ?_, a1, ?_, a2.trans a1, ?_, generateComplianceCertificate_auditLog _ _ _⟩
  · rw [hstart]; decide
  · rw [h1.2.2.1, h0.2.2.1]; rfl
  · rw [h2.2.2.1, h1.2.2.1]
  · rw [generateComplianceCertificate_app 7 "0.abcdefgh" busyApp _ rfl]
    simp

/-- C19 (amended): the audit log is written by `addAuditEntry` only, which
appends one entry and keeps the last 100.  A successful `startSecureWipe`
records two entries, the navigation to the progress view and the start of the
session; `emergencyStop` records one; the completing step of the simulation
records one.  Every other step of the simulation (pass boundaries, milestones,
verification results) writes to the progress log and leaves the audit log
unchanged, and `generateComplianceCertificate` records nothing. -/
theorem audit_log_records (now : ℕ) (form : WipeForm) (s : App) (S : WipeStandard)
    (d : Device) (hS : lookupStandard s.wipeStandards form.standardKey = some S)
    (hd : s.selectedDevice = some d) (i : Input) (random36 : String) :
    (startSecureWipe now form s).sim.app.auditLog =
      pushCapped (pushCapped s.auditLog ⟨now, "Navigated to progress view", "info"⟩)
        ⟨now, "Secure wipe operation started: " ++ d.name ++ " using " ++ S.name,
          "success"⟩ ∧
    (∀ m : Sim, m.pc ≠ .certDelay → m.pc ≠ .navTimer →
      (resume i m).app.auditLog = m.app.auditLog) ∧
    (∀ t : App, (generateComplianceCertificate now random36 t).1.auditLog = t.auditLog) ∧
    (∀ t : App, (emergencyStop now t).auditLog = pushCapped t.auditLog (stopEntry now)) ∧
    (∀ (t : App) (wd : WipeData) (d1 : Device), t.wipeData = some wd → wd.device = some d1 →
      (resume i ⟨t, .certDelay⟩).app.auditLog =
        pushCapped t.auditLog (completedEntry i.now d1.name)) :=
  ⟨startSecureWipe_auditLog now form s S d hS hd,
    fun m h1 h2 => sameButSession_auditLog (sameButSession_resume i m h1 h2),
    fun t => generateComplianceCertificate_auditLog now random36 t,
    fun t => emergencyStop_auditLog now t,
    fun t wd d1 hw hd1 => issueAndFinish_auditLog i t wd d1 hw hd1⟩

/-- C19 (amended) on `readyApp`: the start records two entries, and the
milestone step of `beforeMilestone` records none. -/
theorem audit_log_records_witness :
    lookupStandard readyApp.wipeStandards "nist" = some nist ∧
    readyApp.selectedDevice = some sampleDevice ∧
    (startSecureWipe 0 ⟨"nist", "full", "normal"⟩ readyApp).sim.app.auditLog =
      [⟨0, "Navigated to progress view", "info"⟩,
        ⟨0, "Secure wipe operation started: SanDisk Ultra USB 3.2 using NIST SP 800-88 Rev. 1",
          "success"⟩] ∧
    (emergencyStop 0 busyApp).auditLog = pushCapped busyApp.auditLog (stopEntry 0) := by
  have h := audit_log_records 0 ⟨"nist", "full", "normal"⟩ readyApp nist sampleDevice
    (by decide) rfl tickOfHalf "0.i"
  refine ⟨by decide, rfl, ?_, h.2.2.2.1 busyApp⟩
  rw [h.1]
  decide

/-! ### The catalog's standards -/

/-- C21: every wipe standard in the catalog (nist, dod, gutmann) has a pass
count of at least 1 (a whole number) and a positive minutes-per-GB figure. -/
theorem catalog_standards_well_formed (key : String) (S : WipeStandard)
    (h : lookupStandard wipeStandards key = some S) :
    1 ≤ S.passes ∧ 0 < S.timePerGB ∧ (S = nist ∨ S = dod ∨ S = gutmann) := by
  rw [lookupStandard_catalog] at h
  split_ifs at h
  all_goals
    simp only [Option.some.injEq] at h
    subst h
    decide

/-- C21 on the three keys of the catalog. -/
theorem catalog_standards_well_formed_witness :
    lookupStandard wipeStandards "gutmann" = some gutmann ∧
    1 ≤ gutmann.passes ∧ 0 < gutmann.timePerGB ∧
    (1 ≤ nist.passes ∧ 0 < nist.timePerGB) ∧ (1 ≤ dod.passes ∧ 0 < dod.timePerGB) :=
  ⟨by decide,
    (catalog_standards_well_formed "gutmann" gutmann (by decide)).1,
    (catalog_standards_well_formed "gutmann" gutmann (by decide)).2.1,
    ⟨(catalog_standards_well_formed "nist" nist (by decide)).1,
      (catalog_standards_well_formed "nist" nist (by decide)).2.1⟩,
    ⟨(catalog_standards_well_formed "dod" dod (by decide)).1,
      (catalog_standards_well_formed "dod" dod (by decide)).2.1⟩⟩

/-! ### Manual addition -/

/-- C25: a successful selectDirectory leaves every device already in the
inventory unchanged and in the same order and adds exactly one device at the
end, with realDevice = true; a cancelled or unsupported selection (and one
that fails otherwise) leaves the inventory unchanged. -/
theorem selectDirectory_appends (now : ℕ) (random : Draw) (s : App) :
    (∀ name, (selectDirectory now random true (.picked name) s).devices =
        s.devices ++ [directoryDevice now random name] ∧
      (directoryDevice now random name).realDevice = true ∧
      (selectDirectory now random true (.picked name) s).devices.length =
        s.devices.length + 1 ∧
      (selectDirectory now random true (.picked name) s).devices.take s.devices.length =
        s.devices) ∧
    (selectDirectory now random true .aborted s).devices = s.devices ∧
    selectDirectory now random true .aborted s = s ∧
    (∀ message, (selectDirectory now random true (.rejected message) s).devices = s.devices) ∧
    (∀ result, (selectDirectory now random false result s).devices = s.devices) := by
  refine ⟨fun name => ⟨rfl, rfl, ?_, ?_⟩, rfl, rfl, fun _ => rfl, fun _ => rfl⟩
  · show (s.devices ++ [directoryDevice now random name]).length = _
    simp
  · show (s.devices ++ [directoryDevice now random name]).take s.devices.length = _
    simp

/-! ### The audit view -/

/-- C26: the list that renderAuditLog renders is the last min(50, length)
entries of the audit log, newest first: its reverse is the suffix of the log
made of the last 50 entries, and its entry number `i` is the entry number
`length - 1 - i` of the log. -/
theorem rendered_audit_entries (s : App) :
    (renderedAuditEntries s).length = min 50 s.auditLog.length ∧
    (renderedAuditEntries s).reverse = sliceLast 50 s.auditLog ∧
    (renderedAuditEntries s).reverse <:+ s.auditLog ∧
    (renderedAuditEntries s).reverse = s.auditLog.drop (s.auditLog.length - 50) ∧
    ∀ i, i < min 50 s.auditLog.length →
      (renderedAuditEntries s).get? i = s.auditLog.get? (s.auditLog.length - 1 - i) := by
  unfold renderedAuditEntries sliceLast
  refine ⟨?_, List.reverse_reverse _, ?_, List.reverse_reverse _, ?_⟩
  · rw [List.length_reverse, List.length_drop]; omega
  · rw [List.reverse_reverse]; exact List.drop_suffix _ _
  · intro i hi
    have hlen : (s.auditLog.drop (s.auditLog.length - 50)).length = min 50 s.auditLog.length := by
      rw [List.length_drop]; omega
    rw [List.get?_eq_getElem?, List.get?_eq_getElem?, List.getElem?_reverse (by rw [hlen]; exact hi),
      hlen, List.getElem?_drop]
    congr 1
    omega

/-- C26 on the log of a freshly initialised application: its one entry is
rendered first. -/
theorem rendered_audit_entries_witness :
    0 < min 50 (initializeAuditLog 0 initialApp).auditLog.length ∧
    (renderedAuditEntries (initializeAuditLog 0 initialApp)).get? 0 =
      some ⟨0, "SecureWipe Professional system initialized", "info"⟩ := by
  refine ⟨by decide, ?_⟩
  rw [(rendered_audit_entries (initializeAuditLog 0 initialApp)).2.2.2.2 0 (by decide)]
  rfl

/-! ### Whole quotients in binary64 -/

/-- The floor of a quotient of safe whole numbers is not changed by the
rounding of the quotient to binary64. -/
theorem floor_jsDiv (a b : ℕ) (hb : 0 < b) (hb2 : b < 2 ^ 53) (ha : a < 2 ^ 53) :
    ⌊jsDiv a b⌋ = ((a / b : ℕ) : ℤ) := by
  unfold jsDiv
  have hbq : (0 : ℚ) < b := by exact_mod_cast hb
  have hn_lt : a / b < 2 ^ 53 := lt_of_le_of_lt (Nat.div_le_self a b) ha
  have hq0 : (0 : ℚ) ≤ (a : ℚ) / b := by positivity
  -- lower bound
  have hlow : ((a / b : ℕ) : ℚ) ≤ (a : ℚ) / b := by
    rw [le_div_iff₀ hbq]
    have : a / b * b ≤ a := Nat.div_mul_le_self a b
    exact_mod_cast this
  have h1 : ((a / b : ℕ) : ℚ) ≤ fl64 ((a : ℚ) / b) := by
    have := fl64_mono (by positivity) hlow
    rwa [fl64_natCast _ hn_lt] at this
  -- upper bound
  have hup : (a : ℚ) / b ≤ ((a / b : ℕ) : ℚ) + 1 - 1 / b := by
    have hlt : a < (a / b + 1) * b := by
      have := Nat.lt_succ_iff.mpr (le_refl (a / b))
      exact (Nat.div_lt_iff_lt_mul hb).mp this
    have hle : a + 1 ≤ (a / b + 1) * b := hlt
    have hq : ((a : ℚ) + 1) ≤ (((a / b : ℕ) : ℚ) + 1) * b := by exact_mod_cast hle
    rw [div_le_iff₀ hbq]
    have : (((a / b : ℕ) : ℚ) + 1 - 1 / b) * b = (((a / b : ℕ) : ℚ) + 1) * b - 1 := by
      field_simp
    rw [this]; linarith
  have h2 : fl64 ((a : ℚ) / b) < ((a / b : ℕ) : ℚ) + 1 := by
    by_cases ha0 : a = 0
    · subst ha0
      simp [fl64_zero]
    have hapos : (0 : ℚ) < a := by
      have : 0 < a := Nat.pos_of_ne_zero ha0
      exact_mod_cast this
    have hqpos : (0 : ℚ) < (a : ℚ) / b := by positivity
    have hlog1 : (2 : ℚ) ^ Int.log 2 ((a : ℚ) / b) ≤ (a : ℚ) / b :=
      Int.zpow_log_le_self (by norm_num) hqpos
    have hlog2 : (a : ℚ) / b < (2 : ℚ) ^ (Int.log 2 ((a : ℚ) / b) + 1) :=
      Int.lt_zpow_succ_log_self (by norm_num) _
    have hkge : -1022 ≤ Int.log 2 ((a : ℚ) / b) := by
      have h53 : (2 : ℚ) ^ (-53 : ℤ) ≤ (a : ℚ) / b := by
        rw [le_div_iff₀ hbq]
        have hb3 : (b : ℚ) ≤ 2 ^ 53 := by exact_mod_cast hb2.le
        have ha1 : (1 : ℚ) ≤ a := by
          have : 1 ≤ a := Nat.pos_of_ne_zero ha0
          exact_mod_cast this
        have e : (2 : ℚ) ^ (-53 : ℤ) = 1 / 2 ^ 53 := by norm_num
        rw [e]
        calc (1 : ℚ) / 2 ^ 53 * b ≤ 1 / 2 ^ 53 * 2 ^ 53 := by
              apply mul_le_mul_of_nonneg_left hb3; positivity
          _ = 1 := by norm_num
          _ ≤ a := ha1
      have := (Int.zpow_le_iff_le_log (by norm_num) hqpos).mp h53
      exact le_trans (by norm_num) this
    have herr := fl64_abs_sub_le hq0 _ hkge hlog2
    have herr2 : (2 : ℚ) ^ (Int.log 2 ((a : ℚ) / b) - 53) ≤ (a : ℚ) / b * 2 ^ (-53 : ℤ) := by
      rw [zpow_sub₀ (by norm_num), div_eq_mul_inv, ← zpow_neg]
      exact mul_le_mul_of_nonneg_right hlog1 (by positivity)
    have hsmall : (a : ℚ) / b * 2 ^ (-53 : ℤ) < 1 / b := by
      have haq : (a : ℚ) < 2 ^ 53 := by exact_mod_cast ha
      have e : (2 : ℚ) ^ (-53 : ℤ) = 1 / 2 ^ 53 := by norm_num
      have h1 : (a : ℚ) * (1 / 2 ^ 53) < 1 := by
        rw [mul_one_div, div_lt_one (by positivity)]; exact haq
      have hbinv : (0 : ℚ) < 1 / b := by positivity
      rw [e]
      calc (a : ℚ) / (b : ℚ) * (1 / 2 ^ 53)
          = (a : ℚ) * (1 / 2 ^ 53) * (1 / (b : ℚ)) := by ring
        _ < 1 * (1 / (b : ℚ)) := mul_lt_mul_of_pos_right h1 hbinv
        _ = 1 / (b : ℚ) := one_mul _
    have := abs_le.mp herr
    linarith [this.2]
  rw [Int.floor_eq_iff]
  constructor
  · exact_mod_cast h1
  · push_cast; exact h2

/-! ### Remaining time -/

theorem elapsedSeconds_eq (now startTime : ℕ) (h : startTime ≤ now) (hn : now < 2 ^ 53) :
    elapsedSeconds now startTime = (((now - startTime) / 1000 : ℕ) : ℤ) := by
  unfold elapsedSeconds
  have e : ((now : ℚ) - startTime) = ((now - startTime : ℕ) : ℚ) := by
    rw [Nat.cast_sub h]
  have e2 : (1000 : ℚ) = ((1000 : ℕ) : ℚ) := by norm_num
  rw [e, e2]
  exact floor_jsDiv _ 1000 (by norm_num) (by norm_num) (by omega)

/-- C22: the remaining time computed by updateProgressUI is never negative:
for every start time, clock reading and estimated duration it equals
max(estimatedDuration - elapsedSeconds, 0), where elapsedSeconds is the number
of whole seconds since the session's start (for clock readings in the range of
safe whole numbers, where the binary64 quotient by 1000 has the exact
floor). -/
theorem remaining_time_never_negative (now : ℕ) (wd : WipeData) (e : ℕ)
    (he : wd.estimatedDuration = some e) :
    remainingTime now wd = some (max ((e : ℤ) - elapsedSeconds now wd.startTime) 0) ∧
    (∀ r, remainingTime now wd = some r → 0 ≤ r) ∧
    (wd.startTime ≤ now → now < 2 ^ 53 →
      elapsedSeconds now wd.startTime = (((now - wd.startTime) / 1000 : ℕ) : ℤ) ∧
      remainingTime now wd = some (((e - (now - wd.startTime) / 1000 : ℕ) : ℤ))) := by
  have h1 : remainingTime now wd =
      some (max ((e : ℤ) - elapsedSeconds now wd.startTime) 0) := by
    unfold remainingTime
    rw [he]
    rfl
  refine ⟨h1, ?_, ?_⟩
  · intro r hr
    rw [h1] at hr
    simp only [Option.some.injEq] at hr
    rw [← hr]
    exact le_max_right _ _
  · intro hle hn
    have h2 := elapsedSeconds_eq now wd.startTime hle hn
    refine ⟨h2, ?_⟩
    rw [h1, h2]
    congr 1
    omega

/-- C22 on a session started at clock reading 1000 with an estimated duration
of 180 seconds: 60 seconds later 120 seconds remain, and after 200 seconds
none. -/
theorem remaining_time_never_negative_witness :
    (newWipeData 1000 ⟨"dod", "quick", "normal"⟩ (some sampleDevice) dod).estimatedDuration =
      some 180 ∧
    remainingTime 61000 (newWipeData 1000 ⟨"dod", "quick", "normal"⟩ (some sampleDevice) dod) =
      some 120 ∧
    remainingTime 201000 (newWipeData 1000 ⟨"dod", "quick", "normal"⟩ (some sampleDevice) dod) =
      some 0 :=
  ⟨rfl,
    ((remaining_time_never_negative 61000
      (newWipeData 1000 ⟨"dod", "quick", "normal"⟩ (some sampleDevice) dod) 180 rfl).2.2
        (by decide) (by norm_num)).2,
    ((remaining_time_never_negative 201000
      (newWipeData 1000 ⟨"dod", "quick", "normal"⟩ (some sampleDevice) dod) 180 rfl).2.2
        (by decide) (by norm_num)).2⟩

/-! ### The time format -/

theorem digitChar_ne_colon (k : ℕ) (hk : k < 10) : Nat.digitChar k ≠ ':' := by
  interval_cases k <;> decide

theorem toDigitsCore_no_colon (f : ℕ) : ∀ (n : ℕ) (ds : List Char), ':' ∉ ds →
    ':' ∉ Nat.toDigitsCore 10 f n ds := by
  induction f with
  | zero => intro n ds h; simpa [Nat.toDigitsCore] using h
  | succ f ih =>
    intro n ds h
    simp only [Nat.toDigitsCore]
    have hd := digitChar_ne_colon (n % 10) (Nat.mod_lt _ (by norm_num))
    have h1 : ':' ∉ Nat.digitChar (n % 10) :: ds := by
      simp only [List.mem_cons, not_or]
      exact ⟨fun e => hd e.symm, h⟩
    split_ifs
    · exact h1
    · exact ih _ _ h1

theorem toDigits_no_colon (n : ℕ) : ':' ∉ Nat.toDigits 10 n :=
  toDigitsCore_no_colon _ _ _ (by simp)

theorem toDigits_value (n : ℕ) :
    (Nat.toDigits 10 n).foldl (fun a c => 10 * a + (c.toNat - 48)) 0 = n := by
  have h := toDigitsCore_value (n + 1) n [] (Nat.lt_succ_self n)
  simpa [Nat.toDigits] using h

theorem zeros_value (j : ℕ) (l : List Char) :
    (List.replicate j '0' ++ l).foldl (fun a c => 10 * a + (c.toNat - 48)) 0 =
      l.foldl (fun a c => 10 * a + (c.toNat - 48)) 0 := by
  induction j with
  | zero => rfl
  | succ j ih =>
    rw [List.replicate_succ, List.cons_append, List.foldl_cons]
    exact ih

theorem toDigits_length_le_two (k : ℕ) (hk : k < 60) : (Nat.toDigits 10 k).length ≤ 2 := by
  have h := Nat.repr_length k 2 (by norm_num) (by omega)
  simpa [Nat.repr] using h

theorem formatTime_eq (s : ℕ) (hs : s < 2 ^ 53) :
    formatTime s = toString (s / 60) ++ ":" ++ padStart 2 '0' (toString (s % 60)) := by
  unfold formatTime
  have e2 : (60 : ℚ) = ((60 : ℕ) : ℚ) := by norm_num
  rw [e2, floor_jsDiv s 60 (by norm_num) (by norm_num) hs, Int.toNat_ofNat]

theorem formatTime_data (s : ℕ) (hs : s < 2 ^ 53) :
    (formatTime s).data =
      Nat.toDigits 10 (s / 60) ++ ':' ::
        (List.replicate (2 - (Nat.toDigits 10 (s % 60)).length) '0' ++
          Nat.toDigits 10 (s % 60)) := by
  rw [formatTime_eq s hs]
  unfold padStart
  simp only [String.data_append, List.append_assoc]
  rfl

/-- C29: for every non-negative whole number of seconds s (in the range of
safe whole numbers), formatTime(s) is the decimal of floor(s / 60), a colon,
and s mod 60 written with exactly two digits, zero-padded; the seconds field
is below 60, minutes * 60 + seconds recovers s, and distinct s give distinct
strings. -/
theorem formatTime_spec (s : ℕ) (hs : s < 2 ^ 53) :
    formatTime s = toString (s / 60) ++ ":" ++ padStart 2 '0' (toString (s % 60)) ∧
    (padStart 2 '0' (toString (s % 60))).length = 2 ∧
    s % 60 < 60 ∧ s / 60 * 60 + s % 60 = s ∧
    ∀ t, t < 2 ^ 53 → formatTime t = formatTime s → t = s := by
  refine ⟨formatTime_eq s hs, ?_, Nat.mod_lt _ (by norm_num), Nat.div_add_mod' s 60, ?_⟩
  · have h := toDigits_length_le_two (s % 60) (Nat.mod_lt _ (by norm_num))
    have e : (padStart 2 '0' (toString (s % 60))).length =
        (2 - (Nat.toDigits 10 (s % 60)).length) + (Nat.toDigits 10 (s % 60)).length := by
      unfold padStart
      rw [String.length_append]
      simp only [String.length, List.length_replicate]
      rfl
    rw [e]
    omega
  · intro t ht h
    have hd := congrArg String.data h
    rw [formatTime_data t ht, formatTime_data s hs] at hd
    obtain ⟨h1, h2⟩ := append_cons_cancel _ _ _ _ (toDigits_no_colon _) (toDigits_no_colon _) hd
    have hq : t / 60 = s / 60 := toDigits_injective _ _ h1
    have hv := congrArg (List.foldl (fun a c => 10 * a + (c.toNat - 48)) 0) h2
    simp only [zeros_value, toDigits_value] at hv
    have e1 := Nat.div_add_mod t 60
    have e2 := Nat.div_add_mod s 60
    omega

/-- C29 at 125 seconds and at 3600 seconds. -/
theorem formatTime_spec_witness :
    125 < 2 ^ 53 ∧ formatTime 125 = "2:05" ∧ formatTime 3600 = "60:00" := by
  refine ⟨by norm_num, ?_, ?_⟩
  · rw [(formatTime_spec 125 (by norm_num)).1]
    decide
  · rw [(formatTime_spec 3600 (by norm_num)).1]
    decide

/-! ### Draws are binary64 values below 1 -/

/-- The largest binary64 value below 1 is `1 - 2^-53`. -/
theorem double_lt_one_le {r : ℚ} (h1 : r < 1) (hfl : fl64 r = r) :
    r ≤ 1 - 1 / 2 ^ 53 := by
  by_cases hhalf : r < 1 / 2
  · have : (1 : ℚ) / 2 ≤ 1 - 1 / 2 ^ 53 := by norm_num
    linarith
  · have hhalf1 : (1 : ℚ) / 2 ≤ r := not_lt.mp hhalf
    have hpos : 0 < r := by linarith
    have hE1 : quantumExp r ≤ -53 :=
      quantumExp_le_of_lt hpos (-53) (by norm_num) (by simpa using h1)
    have hlog : (-1 : ℤ) ≤ Int.log 2 |r| := by
      rw [abs_of_pos hpos]
      apply (Int.zpow_le_iff_le_log (by norm_num) hpos).mp
      have e : (((2 : ℕ) : ℚ)) ^ (-1 : ℤ) = 1 / 2 := by norm_num
      rw [e]; exact hhalf1
    have hE2 : -53 ≤ quantumExp r := by
      have := log_le_quantumExp r
      omega
    have hE : quantumExp r = -53 := le_antisymm hE1 hE2
    unfold fl64 at hfl
    rw [hE] at hfl
    have e53 : (2 : ℚ) ^ (-53 : ℤ) = 1 / 2 ^ 53 := by norm_num
    rw [e53] at hfl
    have hm : ((roundHalfEven (r / (1 / 2 ^ 53)) : ℤ) : ℚ) < 2 ^ 53 := by
      have : ((roundHalfEven (r / (1 / 2 ^ 53)) : ℤ) : ℚ) * (1 / 2 ^ 53) < 1 := by
        rw [hfl]; exact h1
      have hp : (0 : ℚ) < 2 ^ 53 := by positivity
      rw [mul_one_div, div_lt_one hp] at this
      exact this
    have hm' : roundHalfEven (r / (1 / 2 ^ 53)) < 2 ^ 53 := by exact_mod_cast hm
    have hm2 : roundHalfEven (r / (1 / 2 ^ 53)) ≤ 2 ^ 53 - 1 := by omega
    have hm3 : ((roundHalfEven (r / (1 / 2 ^ 53)) : ℤ) : ℚ) ≤ 2 ^ 53 - 1 := by
      exact_mod_cast hm2
    rw [← hfl]
    have hp : (0 : ℚ) < 1 / 2 ^ 53 := by positivity
    calc ((roundHalfEven (r / (1 / 2 ^ 53)) : ℤ) : ℚ) * (1 / 2 ^ 53)
        ≤ (2 ^ 53 - 1) * (1 / 2 ^ 53) := mul_le_mul_of_nonneg_right hm3 hp.le
      _ = 1 - 1 / 2 ^ 53 := by norm_num

theorem jsMul_four_lt {r : ℚ} (h0 : 0 ≤ r) (h1 : r < 1) (hfl : fl64 r = r) :
    jsMul r 4 < 4 := by
  unfold jsMul
  have hr := double_lt_one_le h1 hfl
  have hle : r * 4 ≤ (1 - 1 / 2 ^ 53) * 4 := by linarith
  have hmono := fl64_mono (by positivity) hle
  have h := fl64_eq_of_near ((1 - 1 / 2 ^ 53) * 4) 1 (2 ^ 53 - 1) (by norm_num) (by norm_num)
    (by norm_num) (by norm_num [abs_lt])
  rw [h] at hmono
  have : (((2 ^ 53 - 1 : ℤ) : ℚ)) * 2 ^ ((1 : ℤ) - 52) < 4 := by norm_num
  linarith

theorem jsMul_five_lt {r : ℚ} (h0 : 0 ≤ r) (h1 : r < 1) (hfl : fl64 r = r) :
    jsMul r 5 < 5 := by
  unfold jsMul
  have hr := double_lt_one_le h1 hfl
  have hle : r * 5 ≤ (1 - 1 / 2 ^ 53) * 5 := by linarith
  have hmono := fl64_mono (by positivity) hle
  have h := fl64_eq_of_near ((1 - 1 / 2 ^ 53) * 5) 2 (5 * 2 ^ 50 - 1) (by norm_num)
    (by norm_num) (by norm_num) (by norm_num [abs_lt])
  rw [h] at hmono
  have : (((5 * 2 ^ 50 - 1 : ℤ) : ℚ)) * 2 ^ ((2 : ℤ) - 52) < 5 := by norm_num
  linarith

theorem floor_toNat_lt {y : ℚ} {n : ℕ} (h0 : 0 ≤ y) (h : y < n) : ⌊y⌋.toNat < n := by
  have h1 : ⌊y⌋ < (n : ℤ) := by
    rw [Int.floor_lt]; exact_mod_cast h
  have h2 : 0 ≤ ⌊y⌋ := Int.floor_nonneg.mpr h0
  omega


theorem size_index_lt (n : ℕ) (hn : n = 4 ∨ n = 5) {r : ℚ} (h0 : 0 ≤ r) (h1 : r < 1)
    (hfl : fl64 r = r) : ⌊jsMul r n⌋.toNat < n := by
  have hnn : 0 ≤ jsMul r n := fl64_nonneg (by positivity)
  apply floor_toNat_lt hnn
  rcases hn with h | h
  · subst h
    have := jsMul_four_lt h0 h1 hfl
    simpa using this
  · subst h
    have := jsMul_five_lt h0 h1 hfl
    simpa using this

theorem orDefault_of_nonempty (v d : String) (h : v ≠ "") : orDefault (some v) d = v := by
  unfold orDefault
  simp only [h, if_false]

/-- C24: for every device type and every random draw r in [0, 1) (a binary64
value, as `Math.random()` returns), generateRealisticSize returns a size of
that type's fixed candidate list: the index floor(r * length) is always in
range and the entry found there is the result; a type with no candidate list
gets the fixed default "64 GB". -/
theorem size_is_drawn_from_candidates (t : DeviceType) (r : ℚ) (h0 : 0 ≤ r) (h1 : r < 1)
    (hfl : fl64 r = r) :
    (∀ sizes, sizeCandidates t = some sizes →
      ⌊jsMul r sizes.length⌋.toNat < sizes.length ∧
      sizes.get? ⌊jsMul r sizes.length⌋.toNat = some (generateRealisticSize t r) ∧
      generateRealisticSize t r ∈ sizes) ∧
    (sizeCandidates t = none → generateRealisticSize t r = "64 GB") := by
  constructor
  · intro sizes hs
    have hlen : sizes.length = 4 ∨ sizes.length = 5 := by
      cases t <;> simp only [sizeCandidates, Option.some.injEq] at hs <;>
        first
          | (subst hs; decide)
          | exact absurd hs (by simp)
    have hne : ∀ v ∈ sizes, v ≠ "" := by
      cases t <;> simp only [sizeCandidates, Option.some.injEq] at hs <;>
        first
          | (subst hs; decide)
          | exact absurd hs (by simp)
    have hidx := size_index_lt sizes.length hlen h0 h1 hfl
    obtain ⟨v, hv⟩ : ∃ v, sizes.get? ⌊jsMul r sizes.length⌋.toNat = some v := by
      rw [List.get?_eq_getElem?, List.getElem?_eq_getElem hidx]
      exact ⟨_, rfl⟩
    have hmem : v ∈ sizes := List.get?_mem hv
    have hres : generateRealisticSize t r = v := by
      unfold generateRealisticSize
      rw [hs]
      simp only []
      rw [hv]
      exact orDefault_of_nonempty v _ (hne v hmem)
    rw [hres]
    exact ⟨hidx, hv, hmem⟩
  · intro hs
    unfold generateRealisticSize
    rw [hs]

/-- C24 on the USB list and the draws 0 and 1 - 2^-53, the smallest and the
largest value of `Math.random()`. -/
theorem size_is_drawn_from_candidates_witness :
    generateRealisticSize .USB 0 = "16 GB" ∧
    generateRealisticSize .USB (1 - 1 / 2 ^ 53) ∈
      ["16 GB", "32 GB", "64 GB", "128 GB", "256 GB"] ∧
    generateRealisticSize .NVME (1 / 2) = "64 GB" := by
  have hfl0 : fl64 (0 : ℚ) = 0 := fl64_zero
  have hflmax : fl64 ((1 : ℚ) - 1 / 2 ^ 53) = 1 - 1 / 2 ^ 53 := by
    have h := fl64_eq_of_near ((1 : ℚ) - 1 / 2 ^ 53) (-1) (2 ^ 53 - 1) (by norm_num)
      (by norm_num) (by norm_num) (by norm_num [abs_lt])
    rw [h]; norm_num
  have hflhalf : fl64 ((1 : ℚ) / 2) = 1 / 2 := by
    have h := fl64_eq_of_near ((1 : ℚ) / 2) (-1) (2 ^ 52) (by norm_num)
      (by norm_num) (by norm_num) (by norm_num [abs_lt])
    rw [h]; norm_num
  refine ⟨?_, ?_, ?_⟩
  · have h := (size_is_drawn_from_candidates .USB 0 (le_refl 0) (by norm_num) hfl0).1 _ rfl
    have e : jsMul 0 (["16 GB", "32 GB", "64 GB", "128 GB", "256 GB"] : List String).length
        = 0 := by
      unfold jsMul; rw [zero_mul]; exact fl64_zero
    rw [e] at h
    have h2 := h.2.1
    simp at h2
    exact h2.symm
  · exact ((size_is_drawn_from_candidates .USB (1 - 1 / 2 ^ 53) (by norm_num) (by norm_num)
      hflmax).1 _ rfl).2.2
  · exact (size_is_drawn_from_candidates .NVME (1 / 2) (by norm_num) (by norm_num)
      hflhalf).2 rfl

/-! ### Serial numbers -/

theorem generateSerial_data (t : DeviceType) (d : Draw) :
    (generateSerial t d).data =
      (t.name.data.take 3).map Char.toUpper ++
        ((d.base36.data.drop 2).take 8).map Char.toUpper := by
  unfold generateSerial
  simp only [String.toUpper, String.map_eq, String.data_append, String.data_drop,
    String.data_take]

theorem generateSerial_length (t : DeviceType) (d : Draw) :
    (generateSerial t d).length =
      min 3 t.name.length + min 8 (d.base36.length - 2) := by
  have h := congrArg List.length (generateSerial_data t d)
  simp only [List.length_append, List.length_map, List.length_take, List.length_drop] at h
  exact h

/-- C23 (as stated, refuted): the draw 0.5 is rendered `0.i` in base 36, so
the serial of a USB device made with it has one character after the prefix;
and the type key `SD` has two letters only, so that with the draw 0.1, which
is rendered `0.3lllllllllm`, the serial has ten characters. -/
theorem serial_can_be_short :
    generateSerial .USB ⟨1 / 2, "0.i"⟩ = "USBI" ∧
    (generateSerial .USB ⟨1 / 2, "0.i"⟩).length = 4 ∧
    generateSerial .SD ⟨1 / 2, "0.i"⟩ = "SDI" ∧
    generateSerial .SD ⟨3602879701896397 / 2 ^ 55, "0.3lllllllllm"⟩ = "SD3LLLLLLL" ∧
    (generateSerial .SD ⟨3602879701896397 / 2 ^ 55, "0.3lllllllllm"⟩).length = 10 := by
  have e1 : generateSerial .USB ⟨1 / 2, "0.i"⟩ = "USBI" := by
    apply String.ext; rw [generateSerial_data]; decide
  have e2 : generateSerial .SD ⟨1 / 2, "0.i"⟩ = "SDI" := by
    apply String.ext; rw [generateSerial_data]; decide
  have e3 : generateSerial .SD ⟨3602879701896397 / 2 ^ 55, "0.3lllllllllm"⟩ = "SD3LLLLLLL" := by
    apply String.ext; rw [generateSerial_data]; decide
  refine ⟨e1, ?_, e2, e3, ?_⟩
  · rw [e1]; decide
  · rw [e3]; decide

/-- C23 (amended): the serial is the first three characters of the type key
(the whole key when it is shorter, as `SD`) followed by the characters 2 to 9
of the base-36 string of the draw, all in upper case.  It has at most 11
characters; it has exactly 11, a three-letter prefix and eight more, when the
type key has at least three letters and the string of the draw at least ten
characters, and fewer otherwise. -/
theorem serial_shape (t : DeviceType) (d : Draw) :
    generateSerial t d = (t.name.take 3).toUpper ++ ((d.base36.drop 2).take 8).toUpper ∧
    (generateSerial t d).length = min 3 t.name.length + min 8 (d.base36.length - 2) ∧
    (generateSerial t d).length ≤ 11 ∧
    (t ≠ .SD → 10 ≤ d.base36.length →
      (t.name.take 3).length = 3 ∧ ((d.base36.drop 2).take 8).length = 8 ∧
      (generateSerial t d).length = 11) ∧
    (t = .SD ∨ d.base36.length < 10 → (generateSerial t d).length < 11) := by
  have hl := generateSerial_length t d
  have hname : t ≠ .SD → 3 ≤ t.name.length := by
    intro h
    cases t <;> first | exact absurd rfl h | decide
  have hsd : t = .SD → t.name.length = 2 := by
    intro h; subst h; decide
  have htake : ∀ (s : String) (n : ℕ), (s.take n).length = min n s.length := by
    intro s n
    simp only [String.length, String.data_take, List.length_take]
  have hdrop : ∀ (s : String) (n : ℕ), (s.drop n).length = s.length - n := by
    intro s n
    simp only [String.length, String.data_drop, List.length_drop]
  refine ⟨rfl, hl, by rw [hl]; omega, ?_, ?_⟩
  · intro h1 h2
    have := hname h1
    refine ⟨?_, ?_, ?_⟩
    · rw [htake]; omega
    · rw [htake, hdrop]; omega
    · rw [hl]; omega
  · intro h
    rw [hl]
    rcases h with h | h
    · have := hsd h
      omega
    · omega

/-- C23 (amended) on a USB device and the draw 0.1, rendered `0.3lllllllllm`. -/
theorem serial_shape_witness :
    DeviceType.USB ≠ DeviceType.SD ∧
    10 ≤ (Draw.mk (3602879701896397 / 2 ^ 55) "0.3lllllllllm").base36.length ∧
    (generateSerial .USB ⟨3602879701896397 / 2 ^ 55, "0.3lllllllllm"⟩).length = 11 :=
  ⟨by decide, by decide,
    ((serial_shape .USB ⟨3602879701896397 / 2 ^ 55, "0.3lllllllllm"⟩).2.2.2.1 (by decide) (by decide)).2.2⟩

/-! ### The pass counter -/

theorem issueAndFinish_wipeData (i : Input) (s : App) :
    (issueAndFinish i s).app.wipeData = s.wipeData ∨
    (issueAndFinish i s).app.wipeData =
      s.wipeData.map (fun w => { w with progress := 100 }) := by
  have hg : (generateComplianceCertificate i.now i.random.base36 s).1.wipeData = s.wipeData := by
    unfold generateComplianceCertificate
    split
    · rfl
    · simp only []
      split <;> rfl
  unfold issueAndFinish
  generalize generateComplianceCertificate i.now i.random.base36 s = r at hg ⊢
  obtain ⟨s1, e⟩ := r
  simp only at hg
  cases e with
  | some _ => exact Or.inl hg
  | none =>
    right
    simp only []
    split
    · simp only [setWipeData, addProgressLog_wipeData, hg]
    · simp only [addAuditEntry_wipeData, setWipeData, addProgressLog_wipeData, hg]

theorem currentPass_of_wipeData (m : Sim) (wd : WipeData) (h : m.app.wipeData = some wd) :
    m.currentPass = wd.currentPass := by
  unfold Sim.currentPass
  rw [h]; rfl

/-- One event keeps `PassRange` and the pass count, and leaves `currentPass`
as it is or raises it by one. -/
theorem passRange_step (m : Sim) (e : Event) (h : PassRange m) :
    PassRange (m.step e) ∧
    (m.step e).app.wipeData.map WipeData.passes = m.app.wipeData.map WipeData.passes ∧
    ((m.step e).currentPass = m.currentPass ∨ (m.step e).currentPass = m.currentPass + 1) := by
  obtain ⟨wd, hw, hle, hpc⟩ := h
  have hcur := currentPass_of_wipeData m wd hw
  -- a step that leaves the record alone, or changes its progress only
  have same : ∀ m1 : Sim, (∃ wd1, m1.app.wipeData = some wd1 ∧ wd1.currentPass = wd.currentPass ∧
      wd1.passes = wd.passes) →
      (match m1.pc with
        | .initDelay => wd.currentPass = 0
        | .tickDelay p _ => wd.currentPass = p
        | .passDelay p => wd.currentPass = p
        | _ => True) →
      PassRange m1 ∧ m1.app.wipeData.map WipeData.passes = m.app.wipeData.map WipeData.passes ∧
        (m1.currentPass = m.currentPass ∨ m1.currentPass = m.currentPass + 1) := by
    rintro m1 ⟨wd1, hw1, hc1, hp1⟩ hpc1
    refine ⟨⟨wd1, hw1, by rw [hc1, hp1]; exact hle, ?_⟩, ?_, Or.inl ?_⟩
    · rw [hc1]; exact hpc1
    · rw [hw1, hw]; simp [hp1]
    · rw [currentPass_of_wipeData m1 wd1 hw1, hcur, hc1]
  -- a step that enters pass `q = currentPass + 1`
  have enter : ∀ q, q = wd.currentPass + 1 → m.app.wipeInProgress = true → q ≤ wd.passes →
      PassRange (outerLoop q m.app) ∧
      (outerLoop q m.app).app.wipeData.map WipeData.passes =
        m.app.wipeData.map WipeData.passes ∧
      ((outerLoop q m.app).currentPass = m.currentPass ∨
        (outerLoop q m.app).currentPass = m.currentPass + 1) := by
    intro q hq hwip hqle
    obtain ⟨p1, c1⟩ := outerLoop_enter q m.app wd hw hqle hwip
    have hw1 := wipeData_of_core c1
    refine ⟨⟨_, hw1, hqle, ?_⟩, ?_, Or.inr ?_⟩
    · rw [p1]
    · rw [hw1, hw]; rfl
    · rw [currentPass_of_wipeData _ _ hw1, hcur, hq]
  have outer : ∀ q, q = wd.currentPass + 1 →
      PassRange (outerLoop q m.app) ∧
      (outerLoop q m.app).app.wipeData.map WipeData.passes =
        m.app.wipeData.map WipeData.passes ∧
      ((outerLoop q m.app).currentPass = m.currentPass ∨
        (outerLoop q m.app).currentPass = m.currentPass + 1) := by
    intro q hq
    cases hwip : m.app.wipeInProgress with
    | false =>
      rw [outerLoop_stopped q m.app wd hw hwip]
      exact same ⟨m.app, .finished⟩ ⟨wd, hw, rfl, rfl⟩ trivial
    | true =>
      by_cases hqle : q ≤ wd.passes
      · exact enter q hq hwip hqle
      · obtain ⟨p1, c1⟩ := outerLoop_done q m.app wd hw hqle hwip
        apply same (outerLoop q m.app) ⟨wd, (wipeData_of_core c1).trans hw, rfl, rfl⟩
        rw [p1]; trivial
  obtain ⟨s, pc⟩ := m
  simp only at hw hpc hcur
  cases e with
  | emergencyStop now =>
    apply same _ ⟨wd, ?_, rfl, rfl⟩ hpc
    simp only [Sim.step, emergencyStop, addAuditEntry_wipeData, addProgressLog_wipeData]
    exact hw
  | resume i =>
    cases pc with
    | notStarted => exact same _ ⟨wd, hw, rfl, rfl⟩ trivial
    | finished => exact same _ ⟨wd, hw, rfl, rfl⟩ trivial
    | failed => exact same _ ⟨wd, hw, rfl, rfl⟩ trivial
    | initDelay =>
      simp only at hpc
      exact outer 1 (by rw [hpc])
    | passDelay p =>
      simp only at hpc
      exact outer (p + 1) (by rw [hpc])
    | tickDelay p x =>
      simp only at hpc
      show PassRange (innerLoop p _ s) ∧ _
      cases hwip : s.wipeInProgress with
      | false =>
        have e1 := innerLoop_stopped p (nextProgress x i.random.value) s wd hw hwip
        simp only [Sim.step, resume]
        rw [e1]
        exact same ⟨s, .finished⟩ ⟨wd, hw, rfl, rfl⟩ trivial
      | true =>
        simp only [Sim.step, resume]
        by_cases hx : nextProgress x i.random.value ≤ 100
        · obtain ⟨p1, c1⟩ := innerLoop_tick p _ s wd hw hx hwip
          apply same _ ⟨_, wipeData_of_core c1, rfl, rfl⟩
          rw [p1]; exact hpc
        · obtain ⟨p1, c1⟩ := innerLoop_exit p _ s wd hw hx hwip
          apply same _ ⟨wd, (wipeData_of_core c1).trans hw, rfl, rfl⟩
          rw [p1]; exact hpc
    | verifyDelay =>
      obtain ⟨p1, c1⟩ := resume_verifyDelay_core i ⟨s, .verifyDelay⟩ wd rfl hw
      apply same _ ⟨wd, (wipeData_of_core c1).trans hw, rfl, rfl⟩
      rw [p1]; trivial
    | verifiedDelay =>
      obtain ⟨p1, c1⟩ := resume_verifiedDelay_core i ⟨s, .verifiedDelay⟩ rfl
      apply same _ ⟨wd, (wipeData_of_core c1).trans hw, rfl, rfl⟩
      rw [p1]; trivial
    | certDelay =>
      have hpc1 := issueAndFinish_pc i s
      have hwd := issueAndFinish_wipeData i s
      have e1 : Sim.step ⟨s, .certDelay⟩ (.resume i) = issueAndFinish i s := rfl
      rw [e1]
      have hmatch : (match (issueAndFinish i s).pc with
          | .initDelay => wd.currentPass = 0
          | .tickDelay p _ => wd.currentPass = p
          | .passDelay p => wd.currentPass = p
          | _ => True) := by
        rcases hpc1 with h1 | h1 <;> rw [h1] <;> trivial
      rcases hwd with h2 | h2
      · exact same _ ⟨wd, h2.trans hw, rfl, rfl⟩ hmatch
      · rw [hw] at h2
        exact same _ ⟨_, h2, rfl, rfl⟩ hmatch
    | navTimer =>
      apply same _ ⟨wd, ?_, rfl, rfl⟩ trivial
      simp only [Sim.step, resume, navigateTo_wipeData]
      exact hw

theorem passRange_run (events : List Event) (m : Sim) (h : PassRange m) :
    PassRange (m.run events) ∧
    (m.run events).app.wipeData.map WipeData.passes = m.app.wipeData.map WipeData.passes := by
  induction events generalizing m with
  | nil => exact ⟨h, rfl⟩
  | cons e rest ih =>
    obtain ⟨h1, h2, -⟩ := passRange_step m e h
    obtain ⟨h3, h4⟩ := ih (m.step e) h1
    exact ⟨h3, h4.trans h2⟩

theorem passRange_start (now : ℕ) (form : WipeForm) (s : App) (S : WipeStandard) (d : Device)
    (hS : lookupStandard s.wipeStandards form.standardKey = some S)
    (hd : s.selectedDevice = some d) : PassRange (startSecureWipe now form s).sim := by
  obtain ⟨-, hpc, -⟩ := startSecureWipe_ok now form s S d hS hd
  have hw := startSecureWipe_wipeData now form s S hS
  refine ⟨_, hw, Nat.zero_le _, ?_⟩
  rw [hpc]
  rfl


/-- C27: in every reachable state of a session with N passes, currentPass
lies in 0..N: it is 0 at the start, every timer event or emergency stop
leaves it as it is or raises it by one, so that it takes the values 1..N in
increasing order, and it never exceeds N, the pass count of the standard. -/
theorem currentPass_in_range (now : ℕ) (form : WipeForm) (s : App) (S : WipeStandard)
    (d : Device) (hS : lookupStandard s.wipeStandards form.standardKey = some S)
    (hd : s.selectedDevice = some d) (events : List Event) (e : Event) :
    (startSecureWipe now form s).sim.currentPass = 0 ∧
    (∃ wd, ((startSecureWipe now form s).sim.run events).app.wipeData = some wd ∧
      wd.passes = S.passes ∧ wd.currentPass ≤ S.passes) ∧
    ((startSecureWipe now form s).sim.run events).currentPass ≤ S.passes ∧
    ((((startSecureWipe now form s).sim.run events).step e).currentPass =
        ((startSecureWipe now form s).sim.run events).currentPass ∨
      (((startSecureWipe now form s).sim.run events).step e).currentPass =
        ((startSecureWipe now form s).sim.run events).currentPass + 1) ∧
    (((startSecureWipe now form s).sim.run events).step e).currentPass ≤ S.passes := by
  have h0 := passRange_start now form s S d hS hd
  have hw0 := startSecureWipe_wipeData now form s S hS
  obtain ⟨h1, h2⟩ := passRange_run events _ h0
  obtain ⟨h3, h4, h5⟩ := passRange_step _ e h1
  have key : ∀ m : Sim, PassRange m →
      m.app.wipeData.map WipeData.passes =
        (startSecureWipe now form s).sim.app.wipeData.map WipeData.passes →
      ∃ wd, m.app.wipeData = some wd ∧ wd.passes = S.passes ∧ wd.currentPass ≤ S.passes := by
    rintro m ⟨wd, hw, hle, -⟩ hp
    rw [hw, hw0] at hp
    simp only [Option.map_some', Option.some.injEq] at hp
    have hp' : wd.passes = S.passes := hp
    exact ⟨wd, hw, hp', hp' ▸ hle⟩
  obtain ⟨wd1, hw1, hp1, hc1⟩ := key _ h1 h2
  obtain ⟨wd2, hw2, hp2, hc2⟩ := key _ h3 (h4.trans h2)
  refine ⟨?_, ⟨wd1, hw1, hp1, hc1⟩, ?_, h5, ?_⟩
  · rw [currentPass_of_wipeData _ _ hw0]; rfl
  · rw [currentPass_of_wipeData _ _ hw1]; exact hc1
  · rw [currentPass_of_wipeData _ _ hw2]; exact hc2

/-- C27 on the one-pass session of `onePassStart`: after the first timer the
pass counter is 1, and it stays there. -/
theorem currentPass_in_range_witness :
    lookupStandard readyApp.wipeStandards "nist" = some nist ∧
    readyApp.selectedDevice = some sampleDevice ∧
    onePassStart.currentPass = 0 ∧
    (onePassStart.run (List.replicate 28 tickOfFour)).currentPass ≤ 1 ∧
    ((onePassStart.run (List.replicate 28 tickOfFour)).step tickOfFour).currentPass ≤ 1 := by
  have h := currentPass_in_range 0 ⟨"nist", "full", "normal"⟩ readyApp nist sampleDevice
    (by decide) rfl (List.replicate 28 tickOfFour) tickOfFour
  exact ⟨by decide, rfl, h.1, h.2.2.1, h.2.2.2.2⟩

/-! ### Milestones within one pass -/

theorem innerLoop_pc_cases (p : ℕ) (x : ℚ) (s : App) :
    (innerLoop p x s).pc = .failed ∨ (innerLoop p x s).pc = .tickDelay p x ∨
    (innerLoop p x s).pc = .passDelay p ∨ (innerLoop p x s).pc = .finished := by
  unfold innerLoop
  split
  · exact Or.inl rfl
  · simp only []
    split_ifs <;> simp

theorem outerLoop_pc_cases (p : ℕ) (s : App) :
    (outerLoop p s).pc = .failed ∨ (outerLoop p s).pc = .tickDelay p 0 ∨
    (outerLoop p s).pc = .passDelay p ∨ (outerLoop p s).pc = .verifyDelay ∨
    (outerLoop p s).pc = .finished := by
  unfold outerLoop
  split
  · exact Or.inl rfl
  · simp only []
    split_ifs
    · rcases innerLoop_pc_cases p 0 _ with h | h | h | h
      · exact Or.inl h
      · exact Or.inr (Or.inl h)
      · exact Or.inr (Or.inr (Or.inl h))
      · exact Or.inr (Or.inr (Or.inr (Or.inr h)))
    · unfold afterLoops
      split_ifs <;> simp

/-- Once the ticks of pass `p` are behind, they stay behind. -/
theorem past_resume (p : ℕ) (i : Input) (m : Sim) (h : m.pc.past p) :
    (resume i m).pc.past p := by
  obtain ⟨s, pc⟩ := m
  cases pc with
  | notStarted => exact absurd h id
  | initDelay => exact absurd h id
  | tickDelay q x =>
    have hq : p < q := h
    show (innerLoop q _ s).pc.past p
    rcases innerLoop_pc_cases q (nextProgress x i.random.value) s with h1 | h1 | h1 | h1 <;>
      rw [h1]
    · trivial
    · exact hq
    · exact le_of_lt hq
    · trivial
  | passDelay q =>
    have hq : p ≤ q := h
    show (outerLoop (q + 1) s).pc.past p
    rcases outerLoop_pc_cases (q + 1) s with h1 | h1 | h1 | h1 | h1 <;> rw [h1]
    · trivial
    · exact Nat.lt_succ_of_le hq
    · exact Nat.le_succ_of_le hq
    · trivial
    · trivial
  | verifyDelay =>
    simp only [resume]
    split <;> trivial
  | verifiedDelay => trivial
  | certDelay =>
    show (issueAndFinish i s).pc.past p
    rcases issueAndFinish_pc i s with h1 | h1 <;> rw [h1] <;> trivial
  | navTimer => trivial
  | finished => trivial
  | failed => trivial

theorem past_run (p : ℕ) (inputs : List Input) (m : Sim) (h : m.pc.past p) :
    (m.run (inputs.map Event.resume)).pc.past p := by
  induction inputs generalizing m with
  | nil => exact h
  | cons i rest ih => exact ih (resume i m) (past_resume p i m h)

theorem not_past_tick (p : ℕ) (x : ℚ) (pc : Pc) (h : pc.past p) : pc ≠ .tickDelay p x := by
  intro e
  rw [e] at h
  exact absurd h (lt_irrefl p)

theorem milestone_percent {y : ℚ} (h1 : 1 ≤ y) (h100 : y ≤ 100) (hm : ⌊y⌋ % 25 = 0) :
    ⌊y⌋ = 25 ∨ ⌊y⌋ = 50 ∨ ⌊y⌋ = 75 ∨ ⌊y⌋ = 100 := by
  have a : (1 : ℤ) ≤ ⌊y⌋ := by
    rw [Int.le_floor]; exact_mod_cast h1
  have b : ⌊y⌋ ≤ 100 := by
    have : ⌊y⌋ ≤ ⌊(100 : ℚ)⌋ := Int.floor_le_floor h100
    simpa using this
  omega

theorem floor_lt_next {x r : ℚ} (hx : 0 ≤ x) (hx100 : x ≤ 100) (hr : 0 ≤ r) :
    ⌊x⌋ < ⌊nextProgress x r⌋ ∧ 1 ≤ nextProgress x r := by
  obtain ⟨f1, f2⟩ := floor_toNat_facts hx hx100
  have h := nextProgress_ge_succ ⌊x⌋.toNat
    (by have : ⌊x⌋.toNat + 1 ≤ 101 := by omega
        exact lt_of_le_of_lt this (by norm_num)) f1 hr
  have hfl : (0 : ℤ) ≤ ⌊x⌋ := Int.floor_nonneg.mpr hx
  have e : ((⌊x⌋.toNat : ℕ) : ℤ) = ⌊x⌋ := Int.toNat_of_nonneg hfl
  have h2 : ((⌊x⌋ + 1 : ℤ) : ℚ) ≤ nextProgress x r := by
    rw [← e]; exact_mod_cast h
  constructor
  · have := Int.le_floor.mpr h2
    omega
  · have h0 : (0 : ℚ) ≤ ((⌊x⌋.toNat : ℕ) : ℚ) := by positivity
    have : (((⌊x⌋.toNat + 1 : ℕ)) : ℚ) = ((⌊x⌋.toNat : ℕ) : ℚ) + 1 := by push_cast; ring
    rw [this] at h
    linarith

/-- From any point of pass `p` to any later point of the same pass, the timer
events append to the progress log milestone lines of pass `p` only; their
percentages are among 25, 50, 75 and 100, they strictly increase from line to
line, and they are above the floor of the loop variable at the starting
point. -/
theorem milestones_after_tick (p : ℕ) (inputs : List Input) :
    ∀ (m : Sim) (x x1 : ℚ), Inv m → m.pc = .tickDelay p x →
    (∀ i ∈ inputs, 0 ≤ i.random.value ∧ i.random.value < 1) →
    (m.run (inputs.map Event.resume)).pc = .tickDelay p x1 →
    ∃ (pattern : String) (ks : List ℤ),
      m.app.wipeData.map (fun wd => wd.standard.pattern) = some pattern ∧
      (m.run (inputs.map Event.resume)).app.progressLog =
        m.app.progressLog ++ ks.map (fun k => milestoneEntry p k pattern) ∧
      List.Pairwise (fun a b => a < b) ks ∧ ks.Nodup ∧
      ∀ k ∈ ks, (k = 25 ∨ k = 50 ∨ k = 75 ∨ k = 100) ∧ ⌊x⌋ < k := by
  induction inputs with
  | nil =>
    intro m x x1 hI hpc _ _
    obtain ⟨wd, hw, -⟩ := hI
    refine ⟨wd.standard.pattern, [], by rw [hw]; rfl, by simp [Sim.run], List.Pairwise.nil,
      List.nodup_nil, by simp⟩
  | cons i rest ih =>
    intro m x x1 hI hpc hv hend
    have hI0 := hI
    obtain ⟨wd, hw, -, -, -, hpcinv⟩ := hI
    rw [hpc] at hpcinv
    obtain ⟨-, -, hx0, hx100, -, -⟩ := hpcinv
    have hvi := hv i (List.mem_cons_self _ _)
    have hvrest : ∀ j ∈ rest, 0 ≤ j.random.value ∧ j.random.value < 1 :=
      fun j hj => hv j (List.mem_cons_of_mem _ hj)
    have hrun : m.run ((i :: rest).map Event.resume) =
        (resume i m).run (rest.map Event.resume) := rfl
    have hres : resume i m = innerLoop p (nextProgress x i.random.value) m.app := by
      unfold resume; rw [hpc]
    rw [hrun] at hend ⊢
    obtain ⟨hfloor, hone⟩ := floor_lt_next (r := i.random.value) hx0 hx100 hvi.1
    by_cases hgo : nextProgress x i.random.value ≤ 100 ∧ m.app.wipeInProgress = true
    · obtain ⟨hle, hwip⟩ := hgo
      obtain ⟨p1, c1⟩ := innerLoop_tick p _ m.app wd hw hle hwip
      have hlog := innerLoop_tick_log p _ m.app wd hw hle hwip
      have hI1 : Inv (resume i m) := (step_spec m (.resume i) hI0 hvi).1
      rw [← hres] at p1 c1 hlog
      obtain ⟨pat, ks, hpat, hlog1, hpw, -, hks⟩ := ih (resume i m) _ x1 hI1 p1 hvrest hend
      have hpat1 : pat = wd.standard.pattern := by
        rw [wipeData_of_core c1] at hpat
        simp only [Option.map_some', Option.some.injEq] at hpat
        exact hpat.symm
      subst hpat1
      have hmap : m.app.wipeData.map (fun wd => wd.standard.pattern) =
          some wd.standard.pattern := by rw [hw]; rfl
      have hks2 : ∀ k ∈ ks, (k = 25 ∨ k = 50 ∨ k = 75 ∨ k = 100) ∧ ⌊x⌋ < k :=
        fun k hk => ⟨(hks k hk).1, lt_trans hfloor (hks k hk).2⟩
      by_cases hc : ⌊nextProgress x i.random.value⌋ % 25 = 0 ∧
          0 < nextProgress x i.random.value
      · rw [if_pos hc] at hlog
        have hpw2 : List.Pairwise (fun a b => a < b)
            (⌊nextProgress x i.random.value⌋ :: ks) :=
          List.Pairwise.cons (fun k hk => (hks k hk).2) hpw
        refine ⟨_, ⌊nextProgress x i.random.value⌋ :: ks, hmap, ?_, hpw2, ?_, ?_⟩
        · rw [hlog1, hlog, List.map_cons, List.append_assoc]
          rfl
        · exact hpw2.imp (fun h => ne_of_lt h)
        · intro k hk
          rcases List.mem_cons.mp hk with h | h
          · rw [h]
            exact ⟨milestone_percent hone hle hc.1, hfloor⟩
          · exact hks2 k h
      · rw [if_neg hc, List.append_nil] at hlog
        refine ⟨_, ks, hmap, ?_, hpw, hpw.imp (fun h => ne_of_lt h), hks2⟩
        rw [hlog1, hlog]
    · exfalso
      have hpast : (resume i m).pc.past p := by
        rw [hres]
        cases hwip : m.app.wipeInProgress with
        | false =>
          rw [innerLoop_stopped p _ m.app wd hw hwip]
          trivial
        | true =>
          have hx : ¬ nextProgress x i.random.value ≤ 100 := fun hle => hgo ⟨hle, hwip⟩
          rw [(innerLoop_exit p _ m.app wd hw hx hwip).1]
          exact le_refl p
      exact not_past_tick p x1 _ (past_run p rest _ hpast) hend

/-- C28: within one pass a milestone is never logged twice for the same
percentage and is logged only at 25, 50, 75 or 100.  From the timer that opens
pass `p` to any tick of that pass, the lines appended to the progress log are
the line that announces the pass and then milestone lines of pass `p` only,
whose percentages are among 25, 50, 75 and 100 and strictly increase from line
to line: the guard excludes the tick at 0, every increment is at least 1, so
floor(progress) is at least 1 afterwards and strictly increases from tick to
tick.  The timer that ends the pass appends the completion line only. -/
theorem milestones_once_per_percentage (p : ℕ) (i0 : Input) (inputs : List Input) (m : Sim)
    (x1 : ℚ) (hI : Inv m)
    (hpc : (m.pc = .initDelay ∧ p = 1) ∨ ∃ q, m.pc = .passDelay q ∧ p = q + 1)
    (hv : ∀ i ∈ i0 :: inputs, 0 ≤ i.random.value ∧ i.random.value < 1)
    (hend : (m.run ((i0 :: inputs).map Event.resume)).pc = .tickDelay p x1) :
    ∃ (wd : WipeData) (ks : List ℤ), m.app.wipeData = some wd ∧
      (m.run ((i0 :: inputs).map Event.resume)).app.progressLog =
        m.app.progressLog ++
          passStartEntry p wd.passes ::
            ks.map (fun k => milestoneEntry p k wd.standard.pattern) ∧
      List.Pairwise (fun a b => a < b) ks ∧ ks.Nodup ∧
      (∀ k ∈ ks, k = 25 ∨ k = 50 ∨ k = 75 ∨ k = 100) ∧
      ∀ i, (resume i (m.run ((i0 :: inputs).map Event.resume))).pc = .passDelay p →
        (resume i (m.run ((i0 :: inputs).map Event.resume))).app.progressLog =
          (m.run ((i0 :: inputs).map Event.resume)).app.progressLog ++ [passDoneEntry p] := by
  have hI0 := hI
  obtain ⟨wd, hw, -⟩ := hI
  have hv0 := hv i0 (List.mem_cons_self _ _)
  have hvrest : ∀ j ∈ inputs, 0 ≤ j.random.value ∧ j.random.value < 1 :=
    fun j hj => hv j (List.mem_cons_of_mem _ hj)
  have hrun : m.run ((i0 :: inputs).map Event.resume) =
      (resume i0 m).run (inputs.map Event.resume) := rfl
  have hres : resume i0 m = outerLoop p m.app := by
    rcases hpc with ⟨h1, h2⟩ | ⟨q, h1, h2⟩
    · unfold resume; rw [h1, h2]
    · unfold resume; rw [h1, h2]
  -- the last conjunct holds at every tick of the pass
  have hclose : ∀ mF : Sim, mF.pc = .tickDelay p x1 → ∀ i,
      (resume i mF).pc = .passDelay p →
      (resume i mF).app.progressLog = mF.app.progressLog ++ [passDoneEntry p] := by
    intro mF hF i hpd
    have e : resume i mF = innerLoop p (nextProgress x1 i.random.value) mF.app := by
      unfold resume; rw [hF]
    rw [e] at hpd ⊢
    cases hwF : mF.app.wipeData with
    | none =>
      have : (innerLoop p (nextProgress x1 i.random.value) mF.app).pc = .failed := by
        unfold innerLoop; simp only [hwF]
      rw [this] at hpd
      exact absurd hpd (by simp)
    | some wdF =>
      cases hwip : mF.app.wipeInProgress with
      | false =>
        rw [innerLoop_stopped p _ mF.app wdF hwF hwip] at hpd
        exact absurd hpd (by simp)
      | true =>
        by_cases hx : nextProgress x1 i.random.value ≤ 100
        · rw [(innerLoop_tick p _ mF.app wdF hwF hx hwip).1] at hpd
          exact absurd hpd (by simp)
        · exact innerLoop_exit_log p _ mF.app wdF hwF hx hwip
  rw [hrun] at hend ⊢
  have contra : (resume i0 m).pc.past p → False := fun hpast =>
    not_past_tick p x1 _ (past_run p inputs _ hpast) hend
  cases hwip : m.app.wipeInProgress with
  | false =>
    exfalso
    apply contra
    rw [hres, outerLoop_stopped p m.app wd hw hwip]
    trivial
  | true =>
    by_cases hle : p ≤ wd.passes
    · obtain ⟨p1, c1⟩ := outerLoop_enter p m.app wd hw hle hwip
      have hlog := outerLoop_enter_log p m.app wd hw hle hwip
      rw [← hres] at p1 c1 hlog
      have hI1 : Inv (resume i0 m) := (step_spec m (.resume i0) hI0 hv0).1
      obtain ⟨pat, ks, hpat, hlog1, hpw, hnd, hks⟩ :=
        milestones_after_tick p inputs (resume i0 m) 0 x1 hI1 p1 hvrest hend
      have hpat1 : pat = wd.standard.pattern := by
        rw [wipeData_of_core c1] at hpat
        simp only [Option.map_some', Option.some.injEq] at hpat
        exact hpat.symm
      subst hpat1
      refine ⟨wd, ks, hw, ?_, hpw, hnd, fun k hk => (hks k hk).1, hclose _ hend⟩
      rw [hlog1, hlog, List.append_assoc]
      rfl
    · exfalso
      apply contra
      rw [hres, (outerLoop_done p m.app wd hw hle hwip).1]
      trivial

/-- C28 on the pass of `onePassStart` with every draw three quarters, from the
timer that opens the pass to the tick at 100: one milestone line at most for
each of 25, 50, 75 and 100, and none for 0. -/
theorem milestones_once_per_percentage_witness :
    onePassStart.pc = .initDelay ∧
    (onePassStart.run ((inputOfFour :: List.replicate 25 inputOfFour).map Event.resume)).pc =
      .tickDelay 1 ((4 * (24 + 1) : ℕ) : ℚ) ∧
    ∃ (ks : List ℤ),
      (onePassStart.run
        ((inputOfFour :: List.replicate 25 inputOfFour).map Event.resume)).app.progressLog =
          onePassStart.app.progressLog ++
            passStartEntry 1 1 :: ks.map (fun k => milestoneEntry 1 k "Cryptographic Random") ∧
      ks.Nodup ∧ ∀ k ∈ ks, k = 25 ∨ k = 50 ∨ k = 75 ∨ k = 100 := by
  have h0 := onePassStart_running
  have h1 := running_init nist sampleDevice _ _ h0 (by decide)
  have h24 := running_ticks nist sampleDevice 1 _ _ h1 24 (by norm_num)
  have h25 := running_tick nist sampleDevice 1 24 _ _ h24 (by norm_num)
  have e : (inputOfFour :: List.replicate 25 inputOfFour).map Event.resume =
      tickOfFour :: (List.replicate 24 tickOfFour ++ [tickOfFour]) := rfl
  have hend : (onePassStart.run
      ((inputOfFour :: List.replicate 25 inputOfFour).map Event.resume)).pc =
        .tickDelay 1 ((4 * (24 + 1) : ℕ) : ℚ) := by
    rw [e]
    show (((onePassStart.step tickOfFour).run
      (List.replicate 24 tickOfFour ++ [tickOfFour]))).pc = _
    rw [Sim.run_append]
    exact h25.1
  have hI : Inv onePassStart :=
    Inv_start 0 ⟨"nist", "full", "normal"⟩ readyApp nist sampleDevice (by decide) rfl
  have hv : ∀ i ∈ inputOfFour :: List.replicate 25 inputOfFour,
      0 ≤ i.random.value ∧ i.random.value < 1 := by
    intro i hi
    rcases List.mem_cons.mp hi with h | h
    · rw [h]; norm_num [inputOfFour]
    · rw [List.eq_of_mem_replicate h]; norm_num [inputOfFour]
  obtain ⟨wd, ks, hw, hlog, -, hnd, hks, -⟩ :=
    milestones_once_per_percentage 1 inputOfFour (List.replicate 25 inputOfFour)
      onePassStart _ hI (Or.inl ⟨h0.1, rfl⟩) hv hend
  obtain ⟨wd0, hw0, hstd, hpasses, -⟩ := h0.2.2.2
  have hwd : wd = wd0 := by
    rw [hw0] at hw
    exact (Option.some.inj hw).symm
  subst hwd
  rw [hstd, hpasses] at hlog
  exact ⟨h0.1, hend, ks, hlog, hnd, hks⟩

end SecureWipe
